import Mathlib

/-! NeuroPC control plane: a shallow embedding.

Sources embedded here:

* `src/neuro_pc/control_plane/bridge_orchestrator.js`
  (`LedgerRpcClient`, `EvolutionOrchestrator`);
* `src/host/lanes.js`
  (`handleContextMessage`, `clamp01`, `normalizeDeg`, `runEvolutionTurn`).

A finite JavaScript number is embedded as the rational it denotes; the
numbers also include `NaN` and the two infinities.  The sum of two numbers
is rounded to the nearest double (`roundDouble`); minimum, maximum,
comparison and remainder of doubles are exact.  Callbacks invoked by the
code are recorded in a list of effects, in the order in which the code
invokes them.

The request-id counter `nextId` is embedded twice: as an integer (`call`,
`step`, `exec`), which is what the code computes in every run that leaves
the counter below `2^53`, and as the double it is (`callDouble`,
`stepDouble`, `execDouble`), which stops increasing at `2^53`;
`execDouble_eq_exec` relates the two.
-/

namespace NeuroPC

/-! ## JavaScript values -/

/-- A JavaScript value: what `JSON.parse` can return, `undefined`, and
`Error` instances.  `num` carries a finite number; `infinity` is the value
`JSON.parse` gives for a number text too large for a double (`1e999`,
`-1e999`). -/
inductive JsVal where
  | undefined
  | null
  | bool (b : Bool)
  | num (q : ℚ)
  | str (s : String)
  | arr (xs : List JsVal)
  | obj (fields : List (String × JsVal))
  | error (message : String)
  | infinity (negative : Bool)

/-- An exception thrown by the JavaScript code. -/
inductive JsError where
  | typeError
  deriving DecidableEq, Repr

/-- JavaScript truthiness (`ToBoolean`). -/
def JsVal.truthy : JsVal → Bool
  | .undefined => false
  | .null => false
  | .bool b => b
  | .num q => decide (q ≠ 0)
  | .str s => decide (s ≠ "")
  | .arr _ => true
  | .obj _ => true
  | .error _ => true
  | .infinity _ => true

/-- First binding of a key among the own properties of an object. -/
def lookupField (k : String) : List (String × JsVal) → Option JsVal
  | [] => none
  | (k', v) :: rest => if k' = k then some v else lookupField k rest

/-- Property read `v.k` for the property names this program reads (`id`,
`error`, `result`, `verdict`, `applied_deltas`, `type`, ...): reading from
`undefined` or `null` throws a `TypeError`, an object yields its own
property or `undefined`, every other value yields `undefined`. -/
def JsVal.getProp (v : JsVal) (k : String) : Except JsError JsVal :=
  match v with
  | .undefined => .error JsError.typeError
  | .null => .error JsError.typeError
  | .obj fields => .ok ((lookupField k fields).getD .undefined)
  | _ => .ok .undefined

/-! ## `LedgerRpcClient` (bridge_orchestrator.js) -/

/-- The pair `{ resolve, reject }` stored in the pending table.  Each
callback is named by the handle of the promise it settles. -/
structure PendingCall where
  resolve : Nat
  reject : Nat
  deriving DecidableEq, Repr

/-- A JavaScript `Map` whose keys are the numbers produced by `nextId++`,
in insertion order. -/
abbrev PendingTable := List (Nat × PendingCall)

/-- Key comparison of `Map` (SameValueZero) between a stored numeric key and
an arbitrary value. -/
def keyMatches (k : Nat) (v : JsVal) : Bool :=
  match v with
  | .num q => decide (q = (k : ℚ))
  | _ => false

/-- Method `Map.prototype.has`. -/
def PendingTable.has (t : PendingTable) (v : JsVal) : Bool :=
  t.any (fun e => keyMatches e.1 v)

/-- Method `Map.prototype.get`. -/
def PendingTable.get (t : PendingTable) (v : JsVal) : Option PendingCall :=
  (t.find? (fun e => keyMatches e.1 v)).map Prod.snd

/-- Method `Map.prototype.delete` with an arbitrary value as key. -/
def PendingTable.delete (t : PendingTable) (v : JsVal) : PendingTable :=
  t.filter (fun e => !keyMatches e.1 v)

/-- Method `Map.prototype.delete` with a numeric key. -/
def PendingTable.deleteKey (t : PendingTable) (id : Nat) : PendingTable :=
  t.filter (fun e => !decide (e.1 = id))

/-- Method `Map.prototype.set` with a numeric key: an existing entry is updated in
place, a new key is appended. -/
def PendingTable.set (t : PendingTable) (id : Nat) (pc : PendingCall) : PendingTable :=
  if t.any (fun e => decide (e.1 = id)) then
    t.map (fun e => if e.1 = id then (id, pc) else e)
  else t ++ [(id, pc)]

/-- The fields of a `LedgerRpcClient` instance.  `ws` is the handle of the
socket created by the latest `new WebSocket(url)`. -/
structure LedgerRpcClient where
  url : String
  reconnectDelayMs : Nat
  ws : Nat
  pending : PendingTable
  nextId : Nat
  connected : Bool

/-- What the code asks of its environment, in program order. -/
inductive Effect where
  | resolve (promise : Nat) (value : JsVal)
  | reject (promise : Nat) (reason : JsVal)
  | send (ws : Nat) (payload : JsVal)
  | setTimeout (delayMs : Nat)
  | close (ws : Nat)

/-- The request envelope built by `call`. -/
def requestPayload (id : Nat) (method : String) (params : JsVal) : JsVal :=
  .obj [("jsonrpc", .str "2.0"), ("id", .num (id : ℚ)), ("method", .str method),
    ("params", params)]

/-- Method `_handleMessage(raw)`.  `parse` is `JSON.parse`: `none` when it throws. -/
def LedgerRpcClient._handleMessage (parse : String → Option JsVal) (c : LedgerRpcClient)
    (raw : String) : Except JsError (LedgerRpcClient × List Effect) :=
  match parse raw with
  | none => .ok (c, [])
  | some msg =>
    match msg.getProp "id" with
    | .error e => .error e
    | .ok id =>
      if id.truthy && c.pending.has id then
        match c.pending.get id with
        | none => .error JsError.typeError
        | some pc =>
          let c' := { c with pending := c.pending.delete id }
          match msg.getProp "error" with
          | .error e => .error e
          | .ok err =>
            if err.truthy then .ok (c', [Effect.reject pc.reject err])
            else
              match msg.getProp "result" with
              | .error e => .error e
              | .ok result => .ok (c', [Effect.resolve pc.resolve result])
      else .ok (c, [])

/-- What `call` returns: a promise already rejected with an `Error`, or the
promise created by `new Promise`. -/
inductive CallResult where
  | rejected (reason : JsVal)
  | promise (handle : Nat)

/-- The text of the error of a call made while not connected. -/
def notConnectedError : JsVal := .error "Ledger RPC not connected"

/-- Method `call(method, params)`.  `p` is the handle of the promise that
`new Promise` creates.  Besides the new state, the returned promise and the
effects, the result carries the closure handed to `ws.send` as its callback:
the captured `id` and the captured `reject`.  Here `this.nextId++` adds 1 as
on integers, which is what the code computes while `nextId` is below `2^53`;
`callDouble` is the method with the counter as the double it is. -/
def LedgerRpcClient.call (c : LedgerRpcClient) (p : Nat) (method : String) (params : JsVal) :
    LedgerRpcClient × CallResult × List Effect × Option (Nat × Nat) :=
  if !c.connected then (c, .rejected notConnectedError, [], none)
  else
    let id := c.nextId
    let c1 := { c with nextId := c.nextId + 1 }
    let payload := requestPayload id method params
    let c2 := { c1 with pending := c1.pending.set id { resolve := p, reject := p } }
    (c2, .promise p, [Effect.send c2.ws payload], some (id, p))

/-- The callback `(err) => { if (err) { this.pending.delete(id); reject(err); } }`
that `call` hands to `ws.send`, with its captured `id` and `reject`. -/
def LedgerRpcClient.sendCallback (c : LedgerRpcClient) (id reject : Nat) (err : JsVal) :
    LedgerRpcClient × List Effect :=
  if err.truthy then
    ({ c with pending := c.pending.deleteKey id }, [Effect.reject reject err])
  else (c, [])

/-- Method `_connect()`: `sock` is the handle of the socket that `new WebSocket`
creates.  The four `on(...)` registrations are the handlers below. -/
def LedgerRpcClient._connect (c : LedgerRpcClient) (sock : Nat) : LedgerRpcClient :=
  { c with ws := sock }

/-- The `"open"` handler. -/
def LedgerRpcClient.onOpen (c : LedgerRpcClient) : LedgerRpcClient :=
  { c with connected := true }

/-- The `"close"` handler: clears the flag and schedules `_connect`. -/
def LedgerRpcClient.onClose (c : LedgerRpcClient) : LedgerRpcClient × List Effect :=
  ({ c with connected := false }, [Effect.setTimeout c.reconnectDelayMs])

/-- The `"error"` handler: clears the flag and closes the current socket. -/
def LedgerRpcClient.onError (c : LedgerRpcClient) : LedgerRpcClient × List Effect :=
  ({ c with connected := false }, [Effect.close c.ws])

/-- The constructor: the fields are initialised and `_connect()` creates the
first socket, whose handle is `0`. -/
def LedgerRpcClient.new (url : String) (reconnectDelayMs : Nat) : LedgerRpcClient :=
  LedgerRpcClient._connect
    { url := url, reconnectDelayMs := reconnectDelayMs, ws := 0, pending := [],
      nextId := 1, connected := false } 0

/-! ## The client in its environment -/

/-- A client together with what its environment has handed out: the number
of promises created by `new Promise`, the number of sockets created by
`new WebSocket`, and the callbacks given to `ws.send` (captured `id` and
`reject`), in the order of the sends. -/
structure Runtime where
  client : LedgerRpcClient
  promises : Nat
  sockets : Nat
  sendCallbacks : List (Nat × Nat)

/-- The runtime right after `new LedgerRpcClient({ url, reconnectDelayMs })`. -/
def Runtime.init (url : String) (reconnectDelayMs : Nat) : Runtime :=
  { client := LedgerRpcClient.new url reconnectDelayMs, promises := 0, sockets := 1,
    sendCallbacks := [] }

/-- One event of the single-threaded event loop. -/
inductive Op where
  /-- A caller invokes `call(method, params)`. -/
  | call (method : String) (params : JsVal)
  /-- The socket delivers a message: `_handleMessage(data.toString())`. -/
  | message (raw : String)
  /-- The transport invokes the callback of the `n`-th send with `err`. -/
  | sendDone (n : Nat) (err : JsVal)
  /-- The socket emits `"open"`. -/
  | wsOpen
  /-- The socket emits `"close"`. -/
  | wsClose
  /-- The socket emits `"error"`. -/
  | wsError
  /-- The timer set by the `"close"` handler fires: `_connect()`. -/
  | reconnect

/-- One event handled by the client.  An exception leaves the handler
uncaught. -/
def step (parse : String → Option JsVal) (r : Runtime) : Op →
    Except JsError (Runtime × List Effect)
  | .call method params =>
    match r.client.call r.promises method params with
    | (c, _, effs, none) => .ok ({ r with client := c }, effs)
    | (c, _, effs, some cb) =>
      .ok ({ r with client := c, promises := r.promises + 1,
                    sendCallbacks := r.sendCallbacks ++ [cb] }, effs)
  | .message raw =>
    match r.client._handleMessage parse raw with
    | .error e => .error e
    | .ok (c, effs) => .ok ({ r with client := c }, effs)
  | .sendDone n err =>
    match r.sendCallbacks[n]? with
    | none => .ok (r, [])
    | some (id, reject) =>
      let (c, effs) := r.client.sendCallback id reject err
      .ok ({ r with client := c }, effs)
  | .wsOpen => .ok ({ r with client := r.client.onOpen }, [])
  | .wsClose =>
    let (c, effs) := r.client.onClose
    .ok ({ r with client := c }, effs)
  | .wsError =>
    let (c, effs) := r.client.onError
    .ok ({ r with client := c }, effs)
  | .reconnect =>
    .ok ({ r with client := r.client._connect r.sockets, sockets := r.sockets + 1 }, [])

/-- A sequence of events handled in order; the effects are concatenated.  An
uncaught exception ends the run. -/
def exec (parse : String → Option JsVal) : Runtime → List Op →
    Except JsError (Runtime × List Effect)
  | r, [] => .ok (r, [])
  | r, op :: ops =>
    match step parse r op with
    | .error e => .error e
    | .ok (r1, t1) =>
      match exec parse r1 ops with
      | .error e => .error e
      | .ok (r2, t2) => .ok (r2, t1 ++ t2)

/-- Whether an effect is an invocation of the `resolve` or the `reject`
callback of promise `p`. -/
def Effect.settles (p : Nat) : Effect → Bool
  | .resolve q _ => decide (q = p)
  | .reject q _ => decide (q = p)
  | _ => false

/-- The invocations of the callbacks of promise `p` in a list of effects. -/
def settlesOf (p : Nat) (t : List Effect) : List Effect :=
  t.filter (Effect.settles p)

/-- The settlement a response envelope asks for: rejection with its `error`
when that is truthy, otherwise resolution with its `result`. -/
def settlementOf (p : Nat) (fields : List (String × JsVal)) : Effect :=
  if ((lookupField "error" fields).getD .undefined).truthy then
    Effect.reject p ((lookupField "error" fields).getD .undefined)
  else Effect.resolve p ((lookupField "result" fields).getD .undefined)

/-- Whether an event is an inbound message whose `id` equals the key `id`. -/
def Op.answers (parse : String → Option JsVal) (id : Nat) : Op → Bool
  | .message raw =>
    match parse raw with
    | some msg =>
      match msg.getProp "id" with
      | .ok v => keyMatches id v
      | .error _ => false
    | none => false
  | _ => false

/-- Whether an event is not an inbound message that parses to `null` or
`undefined`. -/
def Op.benign (parse : String → Option JsVal) : Op → Bool
  | .message raw =>
    match parse raw with
    | some .null => false
    | some .undefined => false
    | _ => true
  | _ => true

/-- Whether an event reports a failure of the `n`-th send. -/
def Op.failsSend (n : Nat) : Op → Bool
  | .sendDone m err => decide (m = n) && err.truthy
  | _ => false

/-- Whether an event is one of the connection events. -/
def Op.isConnectionEvent : Op → Bool
  | .wsOpen => true
  | .wsClose => true
  | .wsError => true
  | .reconnect => true
  | _ => false

/-! ## `EvolutionOrchestrator` (bridge_orchestrator.js) -/

/-- The payload built by `buildEvolutionFrame`. -/
structure EvolutionFrame where
  host : JsVal
  frame_id : JsVal
  plane : JsVal
  scope : JsVal
  flop_budget : JsVal
  nJ_budget : JsVal
  eco_intent : JsVal
  latency_band : JsVal
  error_band : JsVal
  eco_impact_band : JsVal
  lifeforce_band : JsVal
  safety_wave : JsVal
  daily_turn_seq : JsVal

/-- The frame as the object literal of `buildEvolutionFrame`. -/
def EvolutionFrame.toJs (f : EvolutionFrame) : JsVal :=
  .obj [("host", f.host), ("frame_id", f.frame_id), ("plane", f.plane), ("scope", f.scope),
    ("cost", .obj [("flop_budget", f.flop_budget), ("nJ_budget", f.nJ_budget),
      ("eco_intent", f.eco_intent)]),
    ("expected_effect", .obj [("latency_band", f.latency_band), ("error_band", f.error_band),
      ("eco_impact_band", f.eco_impact_band)]),
    ("guards_snapshot", .obj [("lifeforce_band", f.lifeforce_band),
      ("safety_wave", f.safety_wave), ("daily_turn_seq", f.daily_turn_seq)])]

/-- The fields of an `EvolutionOrchestrator` that `submitFrame` reads: the
host id and whether each optional sink is present (truthy). -/
structure EvolutionOrchestrator where
  hostId : JsVal
  uiSink : Bool
  hapticSink : Bool

/-- A call made on one of the two sinks. -/
inductive SinkCall where
  | notify (event : JsVal)
  | pulse (kind : String)

/-- How the promise returned by `submitFrame` settles. -/
inductive SubmitResult where
  | fulfilled (decision : JsVal)
  | rejected (reason : JsVal)
  | threw (e : JsError)

/-- Method `_onSafe(frame, decision)`. -/
def EvolutionOrchestrator._onSafe (o : EvolutionOrchestrator) (frame : EvolutionFrame)
    (decision : JsVal) : List SinkCall × Option JsError :=
  let ui : List SinkCall × Option JsError :=
    if o.uiSink then
      match decision.getProp "applied_deltas" with
      | .error e => ([], some e)
      | .ok deltas =>
        ([SinkCall.notify (.obj [("type", .str "evolution_safe"),
            ("frame_id", frame.frame_id), ("applied_deltas", deltas)])], none)
    else ([], none)
  match ui with
  | (calls, some e) => (calls, some e)
  | (calls, none) =>
    if o.hapticSink then (calls ++ [SinkCall.pulse "success"], none) else (calls, none)

/-- Method `_onDefer(frame, decision)`. -/
def EvolutionOrchestrator._onDefer (o : EvolutionOrchestrator) (frame : EvolutionFrame)
    (_decision : JsVal) : List SinkCall :=
  (if o.uiSink then
      [SinkCall.notify (.obj [("type", .str "evolution_defer"), ("frame_id", frame.frame_id)])]
    else []) ++
  (if o.hapticSink then [SinkCall.pulse "neutral"] else [])

/-- Method `_onDenyHardStop(frame, decision)`. -/
def EvolutionOrchestrator._onDenyHardStop (o : EvolutionOrchestrator) (frame : EvolutionFrame)
    (_decision : JsVal) : List SinkCall :=
  (if o.uiSink then
      [SinkCall.notify (.obj [("type", .str "evolution_denied"), ("frame_id", frame.frame_id)])]
    else []) ++
  (if o.hapticSink then [SinkCall.pulse "alert"] else [])

/-- Strict equality `v === s` with a string literal. -/
def JsVal.isStr (v : JsVal) (s : String) : Bool :=
  match v with
  | .str t => decide (t = s)
  | _ => false

/-- Method `submitFrame(frame)` from the point where
`await this.rpc.call("ledger.applyEvolutionFrame", frame)` settles:
`awaited` is the value the call resolved with, or the reason it was rejected
with.  The result is the calls made on the sinks and the settlement of the
promise that `submitFrame` returns. -/
def EvolutionOrchestrator.submitFrame (o : EvolutionOrchestrator) (frame : EvolutionFrame)
    (awaited : Except JsVal JsVal) : List SinkCall × SubmitResult :=
  match awaited with
  | .error reason => ([], .rejected reason)
  | .ok decision =>
    match decision.getProp "verdict" with
    | .error e => ([], .threw e)
    | .ok verdict =>
      if verdict.isStr "Safe" then
        match o._onSafe frame decision with
        | (calls, some e) => (calls, .threw e)
        | (calls, none) => (calls, .fulfilled decision)
      else if verdict.isStr "Defer" then (o._onDefer frame decision, .fulfilled decision)
      else if verdict.isStr "DenyHardStop" then
        (o._onDenyHardStop frame decision, .fulfilled decision)
      else ([], .fulfilled decision)

/-! ## Context aggregation (lanes.js) -/

/-- A JavaScript number: a finite number (as the rational it denotes),
`NaN`, `Infinity` or `-Infinity`. -/
inductive JNum where
  | nan
  | fin (q : ℚ)
  | posInf
  | negInf
  deriving DecidableEq

/-- Function `Math.min` of two numbers. -/
def JNum.min : JNum → JNum → JNum
  | .fin x, .fin y => .fin (if x ≤ y then x else y)
  | .nan, _ => .nan
  | _, .nan => .nan
  | .negInf, _ => .negInf
  | _, .negInf => .negInf
  | .posInf, y => y
  | x, .posInf => x

/-- Function `Math.max` of two numbers. -/
def JNum.max : JNum → JNum → JNum
  | .fin x, .fin y => .fin (if x ≤ y then y else x)
  | .nan, _ => .nan
  | _, .nan => .nan
  | .posInf, _ => .posInf
  | _, .posInf => .posInf
  | .negInf, y => y
  | x, .negInf => x

/-- Rounding toward zero. -/
def truncQ (q : ℚ) : ℤ := if 0 ≤ q then ⌊q⌋ else ⌈q⌉

/-- The remainder operator `a % b`: the result has the sign of `a`; it is
exact on doubles. -/
def JNum.rem : JNum → JNum → JNum
  | .fin x, .fin y => if y = 0 then .nan else .fin (x - y * (truncQ (x / y) : ℚ))
  | .fin x, .posInf => .fin x
  | .fin x, .negInf => .fin x
  | _, _ => .nan

/-- The comparison `a < b`, false when an operand is `NaN`. -/
def JNum.lt : JNum → JNum → Bool
  | .fin x, .fin y => decide (x < y)
  | .nan, _ => false
  | _, .nan => false
  | _, .negInf => false
  | .negInf, _ => true
  | .posInf, _ => false
  | .fin _, .posInf => true

/-- Rounding of a rational to the nearest integer, ties to the even one. -/
def roundHalfEven (x : ℚ) : ℤ :=
  if x - (⌊x⌋ : ℚ) < 1 / 2 then ⌊x⌋
  else if 1 / 2 < x - (⌊x⌋ : ℚ) then ⌊x⌋ + 1
  else if ⌊x⌋ % 2 = 0 then ⌊x⌋ else ⌊x⌋ + 1

/-- Rounding of an exact result to the nearest double (53 significant bits,
ties to even, exponents from -1022 to 1023, overflow to an infinity). -/
def roundDouble (q : ℚ) : JNum :=
  if q = 0 then .fin 0
  else
    let e : ℤ := max (Int.log 2 |q|) (-1022)
    let ulp : ℚ := (2 : ℚ) ^ (e - 52)
    let r : ℚ := (roundHalfEven (|q| / ulp) : ℚ) * ulp
    if (2 : ℚ) ^ (1024 : ℤ) ≤ r then (if q < 0 then .negInf else .posInf)
    else .fin (if q < 0 then -r else r)

/-- Addition of numbers: the exact sum of two finite numbers is rounded to
the nearest double. -/
def JNum.add : JNum → JNum → JNum
  | .fin x, .fin y => roundDouble (x + y)
  | .nan, _ => .nan
  | _, .nan => .nan
  | .posInf, .negInf => .nan
  | .negInf, .posInf => .nan
  | .posInf, _ => .posInf
  | _, .posInf => .posInf
  | .negInf, _ => .negInf
  | _, .negInf => .negInf

/-- The conversion `ToNumber`.  `coerce` is the conversion of strings,
arrays and objects, which goes through the text of the value. -/
def toNumber (coerce : JsVal → JNum) : JsVal → JNum
  | .num q => .fin q
  | .infinity negative => if negative then .negInf else .posInf
  | .undefined => .nan
  | .null => .fin 0
  | .bool b => .fin (if b then 1 else 0)
  | v => coerce v

/-- Function `clamp01(x)` on the number its argument converts to. -/
def clamp01 (x : JNum) : JNum :=
  JNum.max (.fin 0) (JNum.min (.fin 1) x)

/-- Function `normalizeDeg(d)` on the number its argument converts to. -/
def normalizeDeg (d : JNum) : JNum :=
  let v := JNum.rem d (.fin 360)
  if JNum.lt v (.fin 0) then JNum.add v (.fin 360) else v

/-- The operator `v ?? d`. -/
def JsVal.orElse (v d : JsVal) : JsVal :=
  match v with
  | .undefined => d
  | .null => d
  | w => w

/-- The value of `state.latestNavigationContext`. -/
structure NavigationContext where
  obstacle_density : JNum
  ambient_noise : JNum
  crowd_pressure : JNum
  requested_heading_deg : JNum
  deriving DecidableEq

/-- The values of `state.safetyState`. -/
inductive SafetyState where
  | Green
  | Yellow
  | Red
  deriving DecidableEq, Repr

/-- The event object built for a `lane_suggestion` message. -/
structure ContextEvent where
  kind : JsVal
  issued_by : JsVal
  signature_valid : Bool
  received_at_ms : Nat

/-- The result object of `nav_adapter_apply_token`. -/
structure ApplyResult where
  ok : Bool
  err : JsVal

/-- The functions imported from `./ffi/biosphere.js`, which is not part of
the sources: each is a transformer of the state `W` of the external crate
(the objects behind `state.scheduler` and `state.navAdapter`), with the
result types of the collaborator interfaces.  `C` is the consent state, `T`
the token, `P` the parameter state. -/
structure Ffi (W C T P : Type) where
  scheduler_maybe_rotate_turn : W → Nat → W
  scheduler_handle_context_event : W → ContextEvent → W
  scheduler_try_apply_token : W → Nat → C → T → W × Bool
  scheduler_set_safety_state : W → SafetyState → W
  nav_adapter_read_params : W → W × P
  nav_adapter_propose_tokens : W → Nat → NavigationContext → Nat → W × List T
  nav_adapter_apply_token : W → T → W × ApplyResult
  delta_label : T → String

/-- The module-level `state` object; `world` stands for the objects behind
`state.scheduler` and `state.navAdapter`. -/
structure LanesState (W C : Type) where
  world : W
  consentNavigation : C
  latestNavigationContext : NavigationContext
  safetyState : SafetyState

/-- The initial value of `state.latestNavigationContext`. -/
def NavigationContext.initial : NavigationContext :=
  { obstacle_density := .fin 0, ambient_noise := .fin 0, crowd_pressure := .fin 0,
    requested_heading_deg := .fin 0 }

/-- A call on an external collaborator, or a line written to the console, in
program order.  Gate and actuator calls carry what the collaborator
returned. -/
inductive TurnEvent (C T P : Type) where
  | maybeRotateTurn (nowMs : Nat)
  | setSafetyState (s : SafetyState)
  | handleContextEvent (event : ContextEvent)
  | readParams
  | proposeTokens (nowMs : Nat) (context : NavigationContext) (maxTokens : Nat)
  | tryApplyToken (nowMs : Nat) (consent : C) (token : T) (allowed : Bool)
  | applyToken (token : T) (result : ApplyResult)
  | logParamsBefore (params : P)
  | logRejected (label : String)
  | logFailed (label : String) (err : JsVal)
  | logApplied (label : String)
  | logParamsAfter (params : P)
  | logInvalidMessage

/-- Function `handleContextMessage(msg)`; `nowMs` is the reading of
`Date.now()`, `coerce` the conversion of non-numeric fields to numbers. -/
def handleContextMessage {W C T P : Type} (ffi : Ffi W C T P) (coerce : JsVal → JNum)
    (st : LanesState W C) (nowMs : Nat) (msg : JsVal) :
    Except JsError (LanesState W C × List (TurnEvent C T P)) :=
  match msg.getProp "type" with
  | .error e => .error e
  | .ok ty =>
    let field (k : String) : JsVal :=
      match msg.getProp k with
      | .ok v => v
      | .error _ => .undefined
    let r1 : LanesState W C × List (TurnEvent C T P) :=
      if ty.isStr "lane_suggestion" then
        let event : ContextEvent :=
          { kind := field "kind",
            issued_by := if (field "issuer").truthy then field "issuer" else .str "unknown",
            signature_valid := (field "signature_valid").truthy,
            received_at_ms := nowMs }
        ({ st with world := ffi.scheduler_handle_context_event st.world event },
          [TurnEvent.handleContextEvent event])
      else (st, [])
    if ty.isStr "env_summary" then
      .ok ({ r1.1 with latestNavigationContext :=
              { obstacle_density :=
                  clamp01 (toNumber coerce ((field "obstacle_density").orElse (.num 0)))
                ambient_noise :=
                  clamp01 (toNumber coerce ((field "ambient_noise").orElse (.num 0)))
                crowd_pressure :=
                  clamp01 (toNumber coerce ((field "crowd_pressure").orElse (.num 0)))
                requested_heading_deg :=
                  normalizeDeg
                    (toNumber coerce ((field "requested_heading_deg").orElse (.num 0))) } },
        r1.2)
    else .ok r1

/-! ## The evolution turn (lanes.js) -/

/-- The `for (const token of proposedTokens)` loop of `runEvolutionTurn`. -/
def applyTokens {W C T P : Type} (ffi : Ffi W C T P) (nowMs : Nat) (consent : C) :
    W → List T → W × List (TurnEvent C T P)
  | w, [] => (w, [])
  | w, token :: rest =>
    let (w1, allowed) := ffi.scheduler_try_apply_token w nowMs consent token
    if !allowed then
      let (w2, tr) := applyTokens ffi nowMs consent w1 rest
      (w2, TurnEvent.tryApplyToken nowMs consent token allowed ::
            TurnEvent.logRejected (ffi.delta_label token) :: tr)
    else
      let (w2, result) := ffi.nav_adapter_apply_token w1 token
      if !result.ok then
        let (w3, tr) := applyTokens ffi nowMs consent w2 rest
        (w3, TurnEvent.tryApplyToken nowMs consent token allowed ::
              TurnEvent.applyToken token result ::
              TurnEvent.logFailed (ffi.delta_label token) result.err :: tr)
      else
        let (w3, tr) := applyTokens ffi nowMs consent w2 rest
        (w3, TurnEvent.tryApplyToken nowMs consent token allowed ::
              TurnEvent.applyToken token result ::
              TurnEvent.logApplied (ffi.delta_label token) :: tr)

/-- Function `runEvolutionTurn()`; `nowMs` is the reading of `Date.now()`. -/
def runEvolutionTurn {W C T P : Type} (ffi : Ffi W C T P) (st : LanesState W C) (nowMs : Nat) :
    LanesState W C × List (TurnEvent C T P) :=
  let w1 := ffi.scheduler_maybe_rotate_turn st.world nowMs
  let w2 := ffi.scheduler_set_safety_state w1 st.safetyState
  let context : NavigationContext := { st.latestNavigationContext with }
  let (w3, params) := ffi.nav_adapter_read_params w2
  let (w4, proposedTokens) := ffi.nav_adapter_propose_tokens w3 nowMs context 4
  let (w5, loop) := applyTokens ffi nowMs st.consentNavigation w4 proposedTokens
  let (w6, updatedParams) := ffi.nav_adapter_read_params w5
  ({ st with world := w6 },
    [TurnEvent.maybeRotateTurn nowMs, TurnEvent.setSafetyState st.safetyState,
      TurnEvent.readParams, TurnEvent.logParamsBefore params,
      TurnEvent.proposeTokens nowMs context 4] ++ loop ++
    [TurnEvent.readParams, TurnEvent.logParamsAfter updatedParams])

/-- The tokens on which the gate was asked, in order. -/
def gateAsked {C T P : Type} : List (TurnEvent C T P) → List T
  | [] => []
  | .tryApplyToken _ _ token _ :: rest => token :: gateAsked rest
  | _ :: rest => gateAsked rest

/-- The tokens for which the gate answered that they are allowed, in order. -/
def gateAllowed {C T P : Type} : List (TurnEvent C T P) → List T
  | [] => []
  | .tryApplyToken _ _ token true :: rest => token :: gateAllowed rest
  | _ :: rest => gateAllowed rest

/-- The tokens on which the actuator was called, in order. -/
def actuatorCalled {C T P : Type} : List (TurnEvent C T P) → List T
  | [] => []
  | .applyToken token _ :: rest => token :: actuatorCalled rest
  | _ :: rest => actuatorCalled rest

/-- The tokens whose actuation reported success, in order. -/
def actuatorSucceeded {C T P : Type} : List (TurnEvent C T P) → List T
  | [] => []
  | .applyToken token result :: rest =>
    if result.ok then token :: actuatorSucceeded rest else actuatorSucceeded rest
  | _ :: rest => actuatorSucceeded rest

/-- Whether an event is a line written to the console rather than a call on
a collaborator. -/
def TurnEvent.isLog {C T P : Type} : TurnEvent C T P → Bool
  | .logParamsBefore _ => true
  | .logRejected _ => true
  | .logFailed _ _ => true
  | .logApplied _ => true
  | .logParamsAfter _ => true
  | .logInvalidMessage => true
  | _ => false

/-- The calls on collaborators in a trace, in order. -/
def collaboratorCalls {C T P : Type} (tr : List (TurnEvent C T P)) : List (TurnEvent C T P) :=
  tr.filter (fun e => !e.isLog)

/-- The `ws.onmessage` handler of `connectContextSocket`: parse, hand the
message to `handleContextMessage`, and on any exception write a warning. -/
def onContextMessage {W C T P : Type} (parse : String → Option JsVal) (ffi : Ffi W C T P)
    (coerce : JsVal → JNum) (st : LanesState W C) (nowMs : Nat) (data : String) :
    LanesState W C × List (TurnEvent C T P) :=
  match parse data with
  | none => (st, [TurnEvent.logInvalidMessage])
  | some msg =>
    match handleContextMessage ffi coerce st nowMs msg with
    | .error _ => (st, [TurnEvent.logInvalidMessage])
    | .ok r => r

/-- The `notify` calls among the calls made on the sinks. -/
def notifyCalls (calls : List SinkCall) : List SinkCall :=
  calls.filter (fun c => match c with
    | .notify _ => true
    | .pulse _ => false)

/-- The `pulse` calls among the calls made on the sinks. -/
def pulseCalls (calls : List SinkCall) : List SinkCall :=
  calls.filter (fun c => match c with
    | .notify _ => false
    | .pulse _ => true)

/-- The ids given to the admitted calls, in the order of the calls: the ids
captured by the callbacks handed to `ws.send`. -/
def Runtime.assignedIds (r : Runtime) : List Nat :=
  r.sendCallbacks.map Prod.fst

/-! ## The id counter as a double -/

/-- The value `this.nextId++` stores, for the integers up to `2^53` that
the counter takes: below `2^53` the sum `n + 1` is a double and is stored
exactly; `2^53 + 1` is no double and rounds (ties to even) back to `2^53`,
so from there on the counter no longer changes. -/
def doubleSucc (n : Nat) : Nat :=
  if n < 2 ^ 53 then n + 1 else n

/-- Method `call(method, params)` with the id counter as a double: as
`call`, but `this.nextId++` stores `doubleSucc nextId`. -/
def LedgerRpcClient.callDouble (c : LedgerRpcClient) (p : Nat) (method : String)
    (params : JsVal) : LedgerRpcClient × CallResult × List Effect × Option (Nat × Nat) :=
  if !c.connected then (c, .rejected notConnectedError, [], none)
  else
    let id := c.nextId
    let c1 := { c with nextId := doubleSucc c.nextId }
    let payload := requestPayload id method params
    let c2 := { c1 with pending := c1.pending.set id { resolve := p, reject := p } }
    (c2, .promise p, [Effect.send c2.ws payload], some (id, p))

/-- One event handled by the client whose id counter is a double: a call
goes through `callDouble`, every other event is handled as in `step`. -/
def stepDouble (parse : String → Option JsVal) (r : Runtime) : Op →
    Except JsError (Runtime × List Effect)
  | .call method params =>
    match r.client.callDouble r.promises method params with
    | (c, _, effs, none) => .ok ({ r with client := c }, effs)
    | (c, _, effs, some cb) =>
      .ok ({ r with client := c, promises := r.promises + 1,
                    sendCallbacks := r.sendCallbacks ++ [cb] }, effs)
  | .message raw => step parse r (.message raw)
  | .sendDone n err => step parse r (.sendDone n err)
  | .wsOpen => step parse r .wsOpen
  | .wsClose => step parse r .wsClose
  | .wsError => step parse r .wsError
  | .reconnect => step parse r .reconnect

/-- A sequence of events handled in order by the client whose id counter is
a double. -/
def execDouble (parse : String → Option JsVal) : Runtime → List Op →
    Except JsError (Runtime × List Effect)
  | r, [] => .ok (r, [])
  | r, op :: ops =>
    match stepDouble parse r op with
    | .error e => .error e
    | .ok (r1, t1) =>
      match execDouble parse r1 ops with
      | .error e => .error e
      | .ok (r2, t2) => .ok (r2, t1 ++ t2)

/-! ## The calls of a turn in the words of the specification -/

/-- The world in which the token loop of the turn run from `st` at `nowMs`
starts: the world the proposer leaves. -/
def loopWorld {W C T P : Type} (ffi : Ffi W C T P) (st : LanesState W C) (nowMs : Nat) : W :=
  (ffi.nav_adapter_propose_tokens
    (ffi.nav_adapter_read_params
      (ffi.scheduler_set_safety_state (ffi.scheduler_maybe_rotate_turn st.world nowMs)
        st.safetyState)).1
    nowMs st.latestNavigationContext 4).1

/-- The per-token gate and actuator calls as the specification words them
(not taken from `runEvolutionTurn`; compared with it below): for each
proposed token in order, one gate call with `nowMs`, the consent state and
the token, followed, when the gate answered that the token is allowed, by
one actuator call on the token, and by nothing otherwise.  Each call is made
in the world the previous call left and carries what the collaborator
returned. -/
def specPerTokenCalls {W C T P : Type} (ffi : Ffi W C T P) (nowMs : Nat) (consent : C) :
    W → List T → List (TurnEvent C T P)
  | _, [] => []
  | w, token :: rest =>
    match ffi.scheduler_try_apply_token w nowMs consent token with
    | (w1, true) =>
      TurnEvent.tryApplyToken nowMs consent token true ::
        TurnEvent.applyToken token (ffi.nav_adapter_apply_token w1 token).2 ::
        specPerTokenCalls ffi nowMs consent (ffi.nav_adapter_apply_token w1 token).1 rest
    | (w1, false) =>
      TurnEvent.tryApplyToken nowMs consent token false ::
        specPerTokenCalls ffi nowMs consent w1 rest

/-! ## Sample inputs -/

/-- A finite fragment of `JSON.parse`: the texts listed are mapped to the
values `JSON.parse` returns for them; any other text counts as not
parseable. -/
def sampleParse : String → Option JsVal
  | "null" => some .null
  | "7" => some (.num 7)
  | "\x7b\x7d" => some (.obj [])
  | "\x7b\"id\":0,\"result\":1\x7d" => some (.obj [("id", .num 0), ("result", .num 1)])
  | "\x7b\"id\":\"1\",\"result\":1\x7d" => some (.obj [("id", .str "1"), ("result", .num 1)])
  | "\x7b\"id\":1,\"result\":7\x7d" => some (.obj [("id", .num 1), ("result", .num 7)])
  | "\x7b\"id\":1,\"result\":8\x7d" => some (.obj [("id", .num 1), ("result", .num 8)])
  | "\x7b\"id\":2,\"error\":\"denied\"\x7d" => some (.obj [("id", .num 2), ("error", .str "denied")])
  | "\x7b\"id\":2,\"result\":9\x7d" => some (.obj [("id", .num 2), ("result", .num 9)])
  | _ => none

/-- A connected client with no pending call. -/
def sampleConnected : Runtime :=
  { client := (LedgerRpcClient.new "ws://ledger" 3000).onOpen, promises := 0, sockets := 1,
    sendCallbacks := [] }

/-- A connected client with one pending call: id 1, promise 0, send 0. -/
def samplePending : Runtime :=
  { client :=
      { url := "ws://ledger", reconnectDelayMs := 3000, ws := 0,
        pending := [(1, { resolve := 0, reject := 0 })], nextId := 2, connected := true },
    promises := 1, sockets := 1, sendCallbacks := [(1, 0)] }

/-- The tokens the proposer returns in the turn run from `st` at `nowMs`. -/
def proposedTokens {W C T P : Type} (ffi : Ffi W C T P) (st : LanesState W C) (nowMs : Nat) :
    List T :=
  (ffi.nav_adapter_propose_tokens
    (ffi.nav_adapter_read_params
      (ffi.scheduler_set_safety_state (ffi.scheduler_maybe_rotate_turn st.world nowMs)
        st.safetyState)).1
    nowMs st.latestNavigationContext 4).2

/-- Collaborators for a sample turn: the state counts the calls made, the
proposer returns the tokens 1, 2, 3, 4, the gate denies token 2 and the
actuation of token 3 fails. -/
def sampleFfi : Ffi Nat Unit Nat Nat where
  scheduler_maybe_rotate_turn w _ := w + 1
  scheduler_handle_context_event w _ := w + 1
  scheduler_try_apply_token w _ _ token := (w + 1, decide (token ≠ 2))
  scheduler_set_safety_state w _ := w + 1
  nav_adapter_read_params w := (w + 1, w)
  nav_adapter_propose_tokens w _ _ _ := (w + 1, [1, 2, 3, 4])
  nav_adapter_apply_token w token :=
    (w + 1, if token = 3 then { ok := false, err := .str "busy" }
            else { ok := true, err := .undefined })
  delta_label token := toString token

/-- The module state before the first message. -/
def sampleLanes : LanesState Nat Unit :=
  { world := 0, consentNavigation := (), latestNavigationContext := NavigationContext.initial,
    safetyState := .Green }

/-- A frame whose id is `f-1`; the other fields are left `undefined`. -/
def sampleFrame : EvolutionFrame :=
  { host := .str "host", frame_id := .str "f-1", plane := .undefined, scope := .undefined,
    flop_budget := .undefined, nJ_budget := .undefined, eco_intent := .undefined,
    latency_band := .undefined, error_band := .undefined, eco_impact_band := .undefined,
    lifeforce_band := .undefined, safety_wave := .undefined, daily_turn_seq := .undefined }

/-- An orchestrator with both sinks present. -/
def sampleOrchestrator : EvolutionOrchestrator :=
  { hostId := .str "host", uiSink := true, hapticSink := true }

/-- The fields of an `env_summary` message with out-of-range values. -/
def sampleSummary : List (String × JsVal) :=
  [("type", .str "env_summary"), ("obstacle_density", .num (3 / 2)),
    ("ambient_noise", .num (1 / 4)), ("crowd_pressure", .num (-2)),
    ("requested_heading_deg", .num (-30))]

/-- A conversion to numbers that maps every string, array and object to
`NaN`. -/
def sampleCoerce : JsVal → JNum := fun _ => .nan

/-- A second finite fragment of `JSON.parse`, for envelopes with a falsy
`error` or a `null` result and for context messages. -/
def sampleParseMore : String → Option JsVal
  | "\x7b\"id\":1,\"error\":0\x7d" => some (.obj [("id", .num 1), ("error", .num 0)])
  | "\x7b\"id\":1,\"result\":null\x7d" => some (.obj [("id", .num 1), ("result", .null)])
  | "\x7b\"id\":1,\"error\":\x7b\"code\":5\x7d\x7d" =>
    some (.obj [("id", .num 1), ("error", .obj [("code", .num 5)])])
  | "\x7b\"id\":1,\"result\":7\x7d" => some (.obj [("id", .num 1), ("result", .num 7)])
  | "\x7b\"type\":\"lane_suggestion\",\"kind\":\"NavigationSuggested\"\x7d" =>
    some (.obj [("type", .str "lane_suggestion"), ("kind", .str "NavigationSuggested")])
  | "null" => some .null
  | _ => none

/-- The fields of a `lane_suggestion` message that names no issuer and
carries a timestamp of its own. -/
def sampleSuggestion : List (String × JsVal) :=
  [("type", .str "lane_suggestion"), ("kind", .str "NavigationSuggested"),
    ("signature_valid", .bool true), ("received_at_ms", .num 5)]

/-- The fields of an `env_summary` message that has only a heading. -/
def sampleHeadingOnly : List (String × JsVal) :=
  [("type", .str "env_summary"), ("requested_heading_deg", .num 725)]

/-- A module state whose snapshot is not the initial one. -/
def sampleLanesLater : LanesState Nat Unit :=
  { world := 7, consentNavigation := (),
    latestNavigationContext :=
      { obstacle_density := .fin (1 / 2), ambient_noise := .fin 1, crowd_pressure := .fin 0,
        requested_heading_deg := .fin 90 },
    safetyState := .Yellow }

/-- The fields of an `env_summary` message whose heading is the double
`-2^-70` (the number text `-8.470329472543003e-22`). -/
def sampleTinyHeading : List (String × JsVal) :=
  [("type", .str "env_summary"), ("requested_heading_deg", .num (-(1 / 2 ^ 70)))]

/-- The fields of an `env_summary` message whose heading text is `1e999`. -/
def sampleHugeHeading : List (String × JsVal) :=
  [("type", .str "env_summary"), ("requested_heading_deg", .infinity false)]

/-! ## Predicates on runtimes -/

/-- The part of a runtime that the connection events leave alone: pending
table, id counter, promises created and callbacks handed to the socket. -/
def Runtime.sameCore (r r1 : Runtime) : Prop :=
  r1.client.pending = r.client.pending ∧ r1.client.nextId = r.client.nextId ∧
  r1.promises = r.promises ∧ r1.sendCallbacks = r.sendCallbacks

/-- Handles and ids in use are below the counters they were drawn from, and
the id counter is at least 1. -/
def Runtime.WF (r : Runtime) : Prop :=
  1 ≤ r.client.nextId ∧
  (∀ e ∈ r.client.pending,
    e.1 < r.client.nextId ∧ e.2.resolve < r.promises ∧ e.2.reject < r.promises) ∧
  (∀ cb ∈ r.sendCallbacks, cb.1 < r.client.nextId ∧ cb.2 < r.promises)

/-- The call with id `id`, promise `p` and send number `n` is in the pending
table, and no other entry or send callback refers to its id or promise. -/
def Runtime.Waiting (id p n : Nat) (r : Runtime) : Prop :=
  1 ≤ id ∧ id < r.client.nextId ∧ p < r.promises ∧ n < r.sendCallbacks.length ∧
  (∃ e ∈ r.client.pending, e.1 = id) ∧
  (∀ e ∈ r.client.pending, e.1 = id → e.2 = { resolve := p, reject := p }) ∧
  (∀ e ∈ r.client.pending, e.1 ≠ id → e.2.resolve ≠ p ∧ e.2.reject ≠ p) ∧
  (∀ m cb, r.sendCallbacks[m]? = some cb → m ≠ n → cb.1 ≠ id ∧ cb.2 ≠ p)

/-- The promise `p` of send number `n` is referred to by no entry of the
pending table and by no other send callback. -/
def Runtime.Done (p n : Nat) (r : Runtime) : Prop :=
  p < r.promises ∧ n < r.sendCallbacks.length ∧
  (∀ e ∈ r.client.pending, e.2.resolve ≠ p ∧ e.2.reject ≠ p) ∧
  (∀ m cb, r.sendCallbacks[m]? = some cb → m ≠ n → cb.2 ≠ p)

/-- The ids given out so far are 1, 2, ... in the order of the calls, the id
counter is the next number, and the keys of the pending table are distinct
ids that were given out. -/
def Runtime.Ids (r : Runtime) : Prop :=
  r.assignedIds = List.range' 1 r.sendCallbacks.length ∧
  r.client.nextId = r.sendCallbacks.length + 1 ∧
  (r.client.pending.map Prod.fst).Nodup ∧
  (∀ e ∈ r.client.pending, 1 ≤ e.1 ∧ e.1 < r.client.nextId)

/-! ## Properties of the pending table -/

theorem keyMatches_iff (k : Nat) (v : JsVal) : keyMatches k v = true ↔ v = .num (k : ℚ) := by
  cases v <;> simp [keyMatches]

theorem keyMatches_num_nat (k j : Nat) : keyMatches k (.num (j : ℚ)) = decide (j = k) := by
  simp [keyMatches]

theorem has_false_of_no_key (t : PendingTable) (v : JsVal)
    (h : ∀ e ∈ t, v ≠ .num (e.1 : ℚ)) : t.has v = false := by
  unfold PendingTable.has
  rw [List.any_eq_false]
  intro e he hk
  exact h e he ((keyMatches_iff _ _).1 hk)

theorem delete_num_eq_deleteKey (t : PendingTable) (id : Nat) :
    t.delete (.num (id : ℚ)) = t.deleteKey id := by
  unfold PendingTable.delete PendingTable.deleteKey
  congr 1
  funext e
  simp [keyMatches, eq_comm]

theorem set_of_fresh (t : PendingTable) (id : Nat) (pc : PendingCall)
    (h : ∀ e ∈ t, e.1 ≠ id) : t.set id pc = t ++ [(id, pc)] := by
  unfold PendingTable.set
  have : t.any (fun e => decide (e.1 = id)) = false := by
    rw [List.any_eq_false]
    intro e he
    simpa using h e he
  simp [this]

theorem deleteKey_append_fresh (t : PendingTable) (id : Nat) (pc : PendingCall)
    (h : ∀ e ∈ t, e.1 ≠ id) : PendingTable.deleteKey (t ++ [(id, pc)]) id = t := by
  unfold PendingTable.deleteKey
  rw [List.filter_append]
  have h1 : t.filter (fun e => !decide (e.1 = id)) = t := by
    rw [List.filter_eq_self]
    intro e he
    simpa using h e he
  simp [h1]

theorem has_deleteKey (t : PendingTable) (id : Nat) :
    PendingTable.has (t.deleteKey id) (.num (id : ℚ)) = false := by
  apply has_false_of_no_key
  intro e he heq
  unfold PendingTable.deleteKey at he
  rw [List.mem_filter] at he
  have h2 : ((id : ℚ)) = (e.1 : ℚ) := by injection heq
  have h3 : id = e.1 := by exact_mod_cast h2
  simp [h3] at he

/-! ## Inbound messages -/

theorem handleMessage_no_match (parse : String → Option JsVal) (c : LedgerRpcClient)
    (raw : String) (msg idv : JsVal) (hp : parse raw = some msg)
    (hid : msg.getProp "id" = .ok idv) (hno : ∀ e ∈ c.pending, idv ≠ .num (e.1 : ℚ)) :
    c._handleMessage parse raw = .ok (c, []) := by
  unfold LedgerRpcClient._handleMessage
  simp [hp, hid, has_false_of_no_key c.pending idv hno]

theorem handleMessage_unparsed (parse : String → Option JsVal) (c : LedgerRpcClient)
    (raw : String) (hp : parse raw = none) : c._handleMessage parse raw = .ok (c, []) := by
  unfold LedgerRpcClient._handleMessage
  simp [hp]

theorem get_of_has (t : PendingTable) (v : JsVal) (h : t.has v = true) :
    ∃ k pc, (k, pc) ∈ t ∧ v = .num (k : ℚ) ∧ t.get v = some pc := by
  unfold PendingTable.has at h
  unfold PendingTable.get
  induction t with
  | nil => simp at h
  | cons e rest ih =>
    by_cases hk : keyMatches e.1 v = true
    · refine ⟨e.1, e.2, by simp, (keyMatches_iff _ _).1 hk, ?_⟩
      simp [List.find?, hk]
    · have hk2 : keyMatches e.1 v = false := by simpa using hk
      have h2 : rest.any (fun e => keyMatches e.1 v) = true := by
        simpa [List.any_cons, hk2] using h
      obtain ⟨k, pc, hmem, hv, hget⟩ := ih h2
      refine ⟨k, pc, List.mem_cons_of_mem _ hmem, hv, ?_⟩
      simpa [List.find?, hk2] using hget

/-- The effect of a message on a client: either nothing, or the removal of
the entry whose key is the `id` of the envelope and one invocation of a
callback stored in that entry. -/
theorem handleMessage_cases (parse : String → Option JsVal) (c : LedgerRpcClient)
    (raw : String) (hb : Op.benign parse (.message raw) = true) :
    c._handleMessage parse raw = .ok (c, []) ∨
    ∃ (fields : List (String × JsVal)) (k : Nat) (pc : PendingCall),
      parse raw = some (.obj fields) ∧
      lookupField "id" fields = some (.num (k : ℚ)) ∧ k ≠ 0 ∧ (k, pc) ∈ c.pending ∧
      c.pending.get (.num (k : ℚ)) = some pc ∧
      c._handleMessage parse raw =
        .ok ({ c with pending := c.pending.deleteKey k },
          [if ((lookupField "error" fields).getD .undefined).truthy then
              Effect.reject pc.reject ((lookupField "error" fields).getD .undefined)
            else Effect.resolve pc.resolve ((lookupField "result" fields).getD .undefined)]) := by
  unfold Op.benign at hb
  cases hp : parse raw with
  | none => left; exact handleMessage_unparsed parse c raw hp
  | some msg =>
    cases msg with
    | undefined => simp [hp] at hb
    | null => simp [hp] at hb
    | obj fields =>
      by_cases hcond : (((lookupField "id" fields).getD .undefined).truthy &&
          c.pending.has ((lookupField "id" fields).getD .undefined)) = true
      · right
        rw [Bool.and_eq_true] at hcond
        obtain ⟨k, pc, hmem, hv, hget⟩ := get_of_has _ _ hcond.2
        have hk0 : k ≠ 0 := by
          intro h0
          have := hcond.1
          rw [hv, h0] at this
          simp [JsVal.truthy] at this
        have hid : lookupField "id" fields = some (.num (k : ℚ)) := by
          cases hl : lookupField "id" fields with
          | none => rw [hl] at hv; simp at hv
          | some w => rw [hl] at hv; simp at hv; rw [hv]
        refine ⟨fields, k, pc, rfl, hid, hk0, hmem, by rw [← hv]; exact hget, ?_⟩
        unfold LedgerRpcClient._handleMessage
        have hcond1 := hcond.1
        have hcond2 := hcond.2
        rw [hv] at hget hcond1 hcond2
        simp only [hp, JsVal.getProp, hid, Option.getD_some, hcond1, hcond2, Bool.and_self,
          if_true, hget, delete_num_eq_deleteKey]
        split <;> rfl
      · left
        unfold LedgerRpcClient._handleMessage
        simp only [hp, JsVal.getProp]
        simp [hcond]
    | bool b => left; simp [LedgerRpcClient._handleMessage, hp, JsVal.getProp, JsVal.truthy]
    | num q => left; simp [LedgerRpcClient._handleMessage, hp, JsVal.getProp, JsVal.truthy]
    | str q => left; simp [LedgerRpcClient._handleMessage, hp, JsVal.getProp, JsVal.truthy]
    | arr q => left; simp [LedgerRpcClient._handleMessage, hp, JsVal.getProp, JsVal.truthy]
    | error q => left; simp [LedgerRpcClient._handleMessage, hp, JsVal.getProp, JsVal.truthy]
    | infinity q => left; simp [LedgerRpcClient._handleMessage, hp, JsVal.getProp, JsVal.truthy]

theorem call_of_not_connected (c : LedgerRpcClient) (p : Nat) (method : String)
    (params : JsVal) (h : c.connected = false) :
    c.call p method params = (c, .rejected notConnectedError, [], none) := by
  unfold LedgerRpcClient.call
  simp [h]

theorem step_call_of_not_connected (parse : String → Option JsVal) (r : Runtime)
    (method : String) (params : JsVal) (h : r.client.connected = false) :
    step parse r (.call method params) = .ok (r, []) := by
  simp only [step, call_of_not_connected r.client r.promises method params h]

/-! ## Claims about `LedgerRpcClient` -/

/-- C2 (refuted on the code): `_handleMessage` does not return normally for
every inbound text.  When the text parses to `null` (the JSON text `null`),
the read of `msg.id` throws a `TypeError`, in every client state. -/
theorem handleMessage_null_throws (parse : String → Option JsVal) (c : LedgerRpcClient)
    (raw : String) (h : parse raw = some .null) :
    c._handleMessage parse raw = .error JsError.typeError := by
  unfold LedgerRpcClient._handleMessage
  simp [h, JsVal.getProp]

theorem handleMessage_null_throws_witness :
    sampleParse "null" = some .null ∧
    (LedgerRpcClient.new "ws://ledger" 3000)._handleMessage sampleParse "null" =
      .error JsError.typeError :=
  ⟨rfl, handleMessage_null_throws sampleParse _ "null" rfl⟩

/-- C3: a `call` made while the `connected` flag is false returns a promise
that is already rejected (with the "not connected" error), leaves the whole
client state, the pending table included, unchanged, sends nothing and
hands no callback to the socket. -/
theorem call_not_connected (parse : String → Option JsVal) (r : Runtime) (p : Nat)
    (method : String) (params : JsVal) (h : r.client.connected = false) :
    r.client.call p method params = (r.client, .rejected notConnectedError, [], none) ∧
    (r.client.call p method params).1.pending = r.client.pending ∧
    step parse r (.call method params) = .ok (r, []) := by
  have h1 := call_of_not_connected r.client p method params h
  exact ⟨h1, by rw [h1], step_call_of_not_connected parse r method params h⟩

theorem call_not_connected_witness :
    (Runtime.init "ws://ledger" 3000).client.connected = false ∧
    (Runtime.init "ws://ledger" 3000).client.call 0 "ledger.applyEvolutionFrame" .null =
      ((Runtime.init "ws://ledger" 3000).client, .rejected notConnectedError, [], none) :=
  ⟨rfl, (call_not_connected sampleParse (Runtime.init "ws://ledger" 3000) 0
    "ledger.applyEvolutionFrame" .null rfl).1⟩

/-! ## One step of the event loop -/

theorem handleMessage_match (parse : String → Option JsVal) (c : LedgerRpcClient)
    (raw : String) (fields : List (String × JsVal)) (k : Nat)
    (hp : parse raw = some (.obj fields))
    (hid : lookupField "id" fields = some (.num (k : ℚ))) (hk : k ≠ 0)
    (hhas : ∃ e ∈ c.pending, e.1 = k) :
    ∃ pc, (k, pc) ∈ c.pending ∧
      c._handleMessage parse raw =
        .ok ({ c with pending := c.pending.deleteKey k },
          [if ((lookupField "error" fields).getD .undefined).truthy then
              Effect.reject pc.reject ((lookupField "error" fields).getD .undefined)
            else Effect.resolve pc.resolve ((lookupField "result" fields).getD .undefined)]) := by
  have hhas2 : c.pending.has (.num (k : ℚ)) = true := by
    obtain ⟨e, he, hek⟩ := hhas
    unfold PendingTable.has
    rw [List.any_eq_true]
    exact ⟨e, he, by simp [keyMatches, hek]⟩
  obtain ⟨k2, pc, hmem, hv, hget⟩ := get_of_has _ _ hhas2
  have hkk : k = k2 := by
    have h2 : ((k : ℚ)) = (k2 : ℚ) := by injection hv
    exact_mod_cast h2
  subst hkk
  refine ⟨pc, hmem, ?_⟩
  have htruthy : (JsVal.num (k : ℚ)).truthy = true := by simp [JsVal.truthy, hk]
  unfold LedgerRpcClient._handleMessage
  simp only [hp, JsVal.getProp, hid, Option.getD_some, htruthy, hhas2, Bool.and_self,
    if_true, hget, delete_num_eq_deleteKey]
  split <;> rfl

theorem step_call_connected (parse : String → Option JsVal) (r : Runtime) (m : String)
    (ps : JsVal) (hc : r.client.connected = true) :
    step parse r (.call m ps) =
      .ok ({ client := { r.client with
                nextId := r.client.nextId + 1
                pending := r.client.pending.set r.client.nextId
                  { resolve := r.promises, reject := r.promises } },
             promises := r.promises + 1, sockets := r.sockets,
             sendCallbacks := r.sendCallbacks ++ [(r.client.nextId, r.promises)] },
        [Effect.send r.client.ws (requestPayload r.client.nextId m ps)]) := by
  simp only [step, LedgerRpcClient.call, hc]
  rfl

theorem step_message_of (parse : String → Option JsVal) (r : Runtime) (raw : String)
    (c : LedgerRpcClient) (effs : List Effect)
    (h : r.client._handleMessage parse raw = .ok (c, effs)) :
    step parse r (.message raw) = .ok ({ r with client := c }, effs) := by
  simp only [step, h]

theorem step_sendDone_fail (parse : String → Option JsVal) (r : Runtime) (n : Nat)
    (err : JsVal) (cb : Nat × Nat) (hg : r.sendCallbacks[n]? = some cb)
    (ht : err.truthy = true) :
    step parse r (.sendDone n err) =
      .ok ({ r with client := { r.client with pending := r.client.pending.deleteKey cb.1 } },
        [Effect.reject cb.2 err]) := by
  simp only [step, hg, LedgerRpcClient.sendCallback, ht]
  rfl

/-- What one event can do to a runtime. -/
theorem step_cases (parse : String → Option JsVal) (r : Runtime) (op : Op)
    (hb : op.benign parse = true) :
    ∃ r1 t, step parse r op = .ok (r1, t) ∧
      ((r.sameCore r1 ∧ ∀ p, settlesOf p t = []) ∨
       (r.client.connected = true ∧ (∃ m ps, op = .call m ps) ∧
          r1.client.pending =
            r.client.pending.set r.client.nextId
              { resolve := r.promises, reject := r.promises } ∧
          r1.client.nextId = r.client.nextId + 1 ∧ r1.promises = r.promises + 1 ∧
          r1.sendCallbacks = r.sendCallbacks ++ [(r.client.nextId, r.promises)] ∧
          ∀ p, settlesOf p t = []) ∨
       (∃ (raw : String) (fields : List (String × JsVal)) (k : Nat) (pc : PendingCall),
          op = .message raw ∧ parse raw = some (.obj fields) ∧
          lookupField "id" fields = some (.num (k : ℚ)) ∧ (k, pc) ∈ r.client.pending ∧
          r1.client.pending = r.client.pending.deleteKey k ∧
          r1.client.nextId = r.client.nextId ∧ r1.promises = r.promises ∧
          r1.sendCallbacks = r.sendCallbacks ∧
          t = [if ((lookupField "error" fields).getD .undefined).truthy then
                Effect.reject pc.reject ((lookupField "error" fields).getD .undefined)
              else Effect.resolve pc.resolve ((lookupField "result" fields).getD .undefined)]) ∨
       (∃ (n : Nat) (err : JsVal) (cb : Nat × Nat),
          op = .sendDone n err ∧ err.truthy = true ∧ r.sendCallbacks[n]? = some cb ∧
          r1.client.pending = r.client.pending.deleteKey cb.1 ∧
          r1.client.nextId = r.client.nextId ∧ r1.promises = r.promises ∧
          r1.sendCallbacks = r.sendCallbacks ∧ t = [Effect.reject cb.2 err])) := by
  cases op with
  | call m ps =>
    cases hc : r.client.connected with
    | false =>
      refine ⟨r, [], step_call_of_not_connected parse r m ps hc, Or.inl ⟨⟨rfl, rfl, rfl, rfl⟩, ?_⟩⟩
      intro p; rfl
    | true =>
      exact ⟨_, _, step_call_connected parse r m ps hc,
        Or.inr (Or.inl ⟨rfl, ⟨m, ps, rfl⟩, rfl, rfl, rfl, rfl, fun p => rfl⟩)⟩
  | message raw =>
    rcases handleMessage_cases parse r.client raw hb with h | ⟨fields, k, pc, hp, hid, _, hmem, _, h⟩
    · exact ⟨r, [], step_message_of parse r raw _ _ h, Or.inl ⟨⟨rfl, rfl, rfl, rfl⟩, fun p => rfl⟩⟩
    · exact ⟨_, _, step_message_of parse r raw _ _ h,
        Or.inr (Or.inr (Or.inl ⟨raw, fields, k, pc, rfl, hp, hid, hmem, rfl, rfl, rfl, rfl, rfl⟩))⟩
  | sendDone n err =>
    cases hg : r.sendCallbacks[n]? with
    | none =>
      refine ⟨r, [], ?_, Or.inl ⟨⟨rfl, rfl, rfl, rfl⟩, fun p => rfl⟩⟩
      simp only [step, hg]
    | some cb =>
      cases ht : err.truthy with
      | false =>
        refine ⟨r, [], ?_, Or.inl ⟨⟨rfl, rfl, rfl, rfl⟩, fun p => rfl⟩⟩
        simp only [step, hg, LedgerRpcClient.sendCallback, ht]
        rfl
      | true =>
        exact ⟨_, _, step_sendDone_fail parse r n err cb hg ht,
          Or.inr (Or.inr (Or.inr ⟨n, err, cb, rfl, ht, hg, rfl, rfl, rfl, rfl, rfl⟩))⟩
  | wsOpen => exact ⟨_, _, rfl, Or.inl ⟨⟨rfl, rfl, rfl, rfl⟩, fun p => rfl⟩⟩
  | wsClose => exact ⟨_, _, rfl, Or.inl ⟨⟨rfl, rfl, rfl, rfl⟩, fun p => rfl⟩⟩
  | wsError => exact ⟨_, _, rfl, Or.inl ⟨⟨rfl, rfl, rfl, rfl⟩, fun p => rfl⟩⟩
  | reconnect => exact ⟨_, _, rfl, Or.inl ⟨⟨rfl, rfl, rfl, rfl⟩, fun p => rfl⟩⟩

/-! ## Membership in an updated table -/

theorem mem_deleteKey (t : PendingTable) (k : Nat) (e : Nat × PendingCall) :
    e ∈ t.deleteKey k ↔ e ∈ t ∧ e.1 ≠ k := by
  unfold PendingTable.deleteKey
  simp [List.mem_filter]

theorem mem_set (t : PendingTable) (k : Nat) (pc : PendingCall) (e : Nat × PendingCall)
    (h : e ∈ t.set k pc) : e = (k, pc) ∨ (e ∈ t ∧ e.1 ≠ k) := by
  unfold PendingTable.set at h
  split at h
  · rw [List.mem_map] at h
    obtain ⟨a, ha, hae⟩ := h
    by_cases hk : a.1 = k
    · left; simp [hk] at hae; exact hae.symm
    · right; simp [hk] at hae; subst hae; exact ⟨ha, hk⟩
  · rw [List.mem_append] at h
    rcases h with h | h
    · right
      refine ⟨h, ?_⟩
      intro hk
      rename_i hany
      apply hany
      rw [List.any_eq_true]
      exact ⟨e, h, by simp [hk]⟩
    · left; simpa using h

theorem mem_set_of_ne (t : PendingTable) (k : Nat) (pc : PendingCall) (e : Nat × PendingCall)
    (h : e ∈ t) (hk : e.1 ≠ k) : e ∈ t.set k pc := by
  unfold PendingTable.set
  split
  · rw [List.mem_map]
    exact ⟨e, h, by simp [hk]⟩
  · exact List.mem_append_left _ h

theorem mem_set_self (t : PendingTable) (k : Nat) (pc : PendingCall) :
    (k, pc) ∈ t.set k pc := by
  unfold PendingTable.set
  split
  · rename_i hany
    rw [List.any_eq_true] at hany
    obtain ⟨e, he, hek⟩ := hany
    rw [List.mem_map]
    have hk : e.1 = k := by simpa using hek
    exact ⟨e, he, by simp [hk]⟩
  · simp

theorem getElem?_append_singleton {α : Type} (l : List α) (x cb : α) (m : Nat)
    (h : (l ++ [x])[m]? = some cb) : l[m]? = some cb ∨ (m = l.length ∧ cb = x) := by
  by_cases hm : m < l.length
  · left
    rw [List.getElem?_append_left hm] at h
    exact h
  · right
    have hm2 : l.length ≤ m := Nat.le_of_not_lt hm
    rw [List.getElem?_append_right hm2] at h
    cases hd : m - l.length with
    | zero =>
      rw [hd] at h
      simp at h
      exact ⟨by omega, h.symm⟩
    | succ j =>
      rw [hd] at h
      simp at h

theorem settlesOf_append (p : Nat) (a b : List Effect) :
    settlesOf p (a ++ b) = settlesOf p a ++ settlesOf p b := by
  unfold settlesOf
  exact List.filter_append a b

/-! ## Invariants of the event loop -/

theorem step_WF (parse : String → Option JsVal) (r r1 : Runtime) (op : Op) (t : List Effect)
    (hb : op.benign parse = true) (hs : step parse r op = .ok (r1, t)) (hwf : r.WF) :
    r1.WF := by
  obtain ⟨r2, t2, hs2, hcase⟩ := step_cases parse r op hb
  rw [hs] at hs2
  have hr : r2 = r1 := by injection hs2 with h; injection h with h1 h2; exact h1.symm
  subst hr
  obtain ⟨h1, h2, h3⟩ := hwf
  rcases hcase with ⟨⟨hp, hn, hpr, hsc⟩, _⟩ | ⟨_, _, hp, hn, hpr, hsc, _⟩ |
      ⟨raw, fields, k, pc, _, _, _, _, hp, hn, hpr, hsc, _⟩ |
      ⟨n, err, cb, _, _, _, hp, hn, hpr, hsc, _⟩
  · refine ⟨by rw [hn]; exact h1, ?_, ?_⟩
    · intro e he; rw [hp] at he; rw [hn, hpr]; exact h2 e he
    · intro cb hcb; rw [hsc] at hcb; rw [hn, hpr]; exact h3 cb hcb
  · refine ⟨by rw [hn]; omega, ?_, ?_⟩
    · intro e he
      rw [hp] at he
      rw [hn, hpr]
      rcases mem_set _ _ _ _ he with h | ⟨h, _⟩
      · subst h; simp
      · obtain ⟨a, b, c⟩ := h2 e h
        exact ⟨by omega, by omega, by omega⟩
    · intro cb hcb
      rw [hsc, List.mem_append] at hcb
      rw [hn, hpr]
      rcases hcb with h | h
      · obtain ⟨a, b⟩ := h3 cb h
        exact ⟨by omega, by omega⟩
      · simp at h; subst h; simp
  · refine ⟨by rw [hn]; exact h1, ?_, ?_⟩
    · intro e he; rw [hp, mem_deleteKey] at he; rw [hn, hpr]; exact h2 e he.1
    · intro cb hcb; rw [hsc] at hcb; rw [hn, hpr]; exact h3 cb hcb
  · refine ⟨by rw [hn]; exact h1, ?_, ?_⟩
    · intro e he; rw [hp, mem_deleteKey] at he; rw [hn, hpr]; exact h2 e he.1
    · intro cb hcb; rw [hsc] at hcb; rw [hn, hpr]; exact h3 cb hcb

theorem init_WF (url : String) (d : Nat) : (Runtime.init url d).WF := by
  refine ⟨?_, ?_, ?_⟩
  · show 1 ≤ 1
    exact Nat.le_refl 1
  · intro e he
    exact absurd he (List.not_mem_nil e)
  · intro cb hcb
    exact absurd hcb (List.not_mem_nil cb)

theorem settlesOf_single_other (p a b : Nat) (c : Bool) (x y : JsVal) (ha : a ≠ p)
    (hb : b ≠ p) :
    settlesOf p [if c = true then Effect.reject a x else Effect.resolve b y] = [] := by
  cases c <;> simp [settlesOf, Effect.settles, ha, hb]

theorem waiting_step (parse : String → Option JsVal) (id p n : Nat) (r : Runtime) (op : Op)
    (hw : r.Waiting id p n) (hb : op.benign parse = true)
    (hna : op.answers parse id = false) (hnf : op.failsSend n = false) :
    ∃ r1 t, step parse r op = .ok (r1, t) ∧ settlesOf p t = [] ∧ r1.Waiting id p n := by
  obtain ⟨r1, t, hs, hcase⟩ := step_cases parse r op hb
  refine ⟨r1, t, hs, ?_⟩
  obtain ⟨w1, w2, w3, w4, w5, w6, w7, w8⟩ := hw
  rcases hcase with ⟨⟨hp, hn, hpr, hsc⟩, hq⟩ | ⟨_, _, hp, hn, hpr, hsc, hq⟩ |
      ⟨raw, fields, k, pc, hop, hparse, hid, hmem, hp, hn, hpr, hsc, ht⟩ |
      ⟨n1, err, cb, hop, herr, hget, hp, hn, hpr, hsc, ht⟩
  · refine ⟨hq p, w1, by rw [hn]; exact w2, by rw [hpr]; exact w3, by rw [hsc]; exact w4,
      by rw [hp]; exact w5, by rw [hp]; exact w6, by rw [hp]; exact w7, by rw [hsc]; exact w8⟩
  · refine ⟨hq p, w1, by rw [hn]; omega, by rw [hpr]; omega, ?_, ?_, ?_, ?_, ?_⟩
    · rw [hsc, List.length_append]; simp; omega
    · obtain ⟨e, he, hek⟩ := w5
      exact ⟨e, by rw [hp]; exact mem_set_of_ne _ _ _ _ he (by omega), hek⟩
    · intro e he hek
      rw [hp] at he
      rcases mem_set _ _ _ _ he with h | ⟨h, _⟩
      · subst h; simp at hek; omega
      · exact w6 e h hek
    · intro e he hek
      rw [hp] at he
      rcases mem_set _ _ _ _ he with h | ⟨h, _⟩
      · subst h; simp; omega
      · exact w7 e h hek
    · intro m cb hcb hm
      rw [hsc] at hcb
      rcases getElem?_append_singleton _ _ _ _ hcb with h | ⟨_, h⟩
      · exact w8 m cb h hm
      · subst h; simp; omega
  · have hk : k ≠ id := by
      subst hop
      intro hkid
      simp [Op.answers, hparse, JsVal.getProp, hid, keyMatches, hkid] at hna
    have hpc := w7 (k, pc) hmem hk
    refine ⟨by rw [ht]; exact settlesOf_single_other p _ _ _ _ _ hpc.2 hpc.1, w1,
      by rw [hn]; exact w2, by rw [hpr]; exact w3, by rw [hsc]; exact w4, ?_, ?_, ?_,
      by rw [hsc]; exact w8⟩
    · obtain ⟨e, he, hek⟩ := w5
      exact ⟨e, by rw [hp, mem_deleteKey]; exact ⟨he, by omega⟩, hek⟩
    · intro e he hek
      rw [hp, mem_deleteKey] at he
      exact w6 e he.1 hek
    · intro e he hek
      rw [hp, mem_deleteKey] at he
      exact w7 e he.1 hek
  · have hn1 : n1 ≠ n := by
      subst hop
      intro hnn
      simp [Op.failsSend, hnn, herr] at hnf
    have hcb := w8 n1 cb hget hn1
    refine ⟨by rw [ht]; simp [settlesOf, Effect.settles, hcb.2], w1,
      by rw [hn]; exact w2, by rw [hpr]; exact w3, by rw [hsc]; exact w4, ?_, ?_, ?_,
      by rw [hsc]; exact w8⟩
    · obtain ⟨e, he, hek⟩ := w5
      exact ⟨e, by rw [hp, mem_deleteKey]; exact ⟨he, by rw [hek]; exact Ne.symm hcb.1⟩, hek⟩
    · intro e he hek
      rw [hp, mem_deleteKey] at he
      exact w6 e he.1 hek
    · intro e he hek
      rw [hp, mem_deleteKey] at he
      exact w7 e he.1 hek

theorem done_step (parse : String → Option JsVal) (p n : Nat) (r : Runtime) (op : Op)
    (hd : r.Done p n) (hb : op.benign parse = true) (hnf : op.failsSend n = false) :
    ∃ r1 t, step parse r op = .ok (r1, t) ∧ settlesOf p t = [] ∧ r1.Done p n := by
  obtain ⟨r1, t, hs, hcase⟩ := step_cases parse r op hb
  refine ⟨r1, t, hs, ?_⟩
  obtain ⟨d1, d2, d3, d4⟩ := hd
  rcases hcase with ⟨⟨hp, hn, hpr, hsc⟩, hq⟩ | ⟨_, _, hp, hn, hpr, hsc, hq⟩ |
      ⟨raw, fields, k, pc, hop, hparse, hid, hmem, hp, hn, hpr, hsc, ht⟩ |
      ⟨n1, err, cb, hop, herr, hget, hp, hn, hpr, hsc, ht⟩
  · exact ⟨hq p, by rw [hpr]; exact d1, by rw [hsc]; exact d2, by rw [hp]; exact d3,
      by rw [hsc]; exact d4⟩
  · refine ⟨hq p, by rw [hpr]; omega, ?_, ?_, ?_⟩
    · rw [hsc, List.length_append]; simp; omega
    · intro e he
      rw [hp] at he
      rcases mem_set _ _ _ _ he with h | ⟨h, _⟩
      · subst h; simp; omega
      · exact d3 e h
    · intro m cb hcb hm
      rw [hsc] at hcb
      rcases getElem?_append_singleton _ _ _ _ hcb with h | ⟨_, h⟩
      · exact d4 m cb h hm
      · subst h; simp; omega
  · have hpc := d3 (k, pc) hmem
    refine ⟨by rw [ht]; exact settlesOf_single_other p _ _ _ _ _ hpc.2 hpc.1,
      by rw [hpr]; exact d1, by rw [hsc]; exact d2, ?_, by rw [hsc]; exact d4⟩
    intro e he
    rw [hp, mem_deleteKey] at he
    exact d3 e he.1
  · have hn1 : n1 ≠ n := by
      subst hop
      intro hnn
      simp [Op.failsSend, hnn, herr] at hnf
    have hcb := d4 n1 cb hget hn1
    refine ⟨by rw [ht]; simp [settlesOf, Effect.settles, hcb],
      by rw [hpr]; exact d1, by rw [hsc]; exact d2, ?_, by rw [hsc]; exact d4⟩
    intro e he
    rw [hp, mem_deleteKey] at he
    exact d3 e he.1

/-! ## Runs -/

theorem step_ok_benign (parse : String → Option JsVal) (r : Runtime) (op : Op)
    (x : Runtime × List Effect) (h : step parse r op = .ok x) : op.benign parse = true := by
  cases op with
  | message raw =>
    cases hp : parse raw with
    | none => simp [Op.benign, hp]
    | some msg =>
      cases msg with
      | null =>
        simp only [step, LedgerRpcClient._handleMessage, hp, JsVal.getProp] at h
        cases h
      | undefined =>
        simp only [step, LedgerRpcClient._handleMessage, hp, JsVal.getProp] at h
        cases h
      | _ => simp [Op.benign, hp]
  | _ => rfl

theorem exec_cons_ok (parse : String → Option JsVal) (r r1 r2 : Runtime) (op : Op)
    (ops : List Op) (t1 t2 : List Effect) (h1 : step parse r op = .ok (r1, t1))
    (h2 : exec parse r1 ops = .ok (r2, t2)) :
    exec parse r (op :: ops) = .ok (r2, t1 ++ t2) := by
  simp only [exec, h1, h2]

theorem exec_cons_inv (parse : String → Option JsVal) (r r2 : Runtime) (op : Op)
    (ops : List Op) (t : List Effect) (h : exec parse r (op :: ops) = .ok (r2, t)) :
    ∃ r1 t1 t2, step parse r op = .ok (r1, t1) ∧ exec parse r1 ops = .ok (r2, t2) ∧
      t = t1 ++ t2 := by
  cases hs : step parse r op with
  | error e => simp only [exec, hs] at h; cases h
  | ok x =>
    obtain ⟨r1, t1⟩ := x
    cases hr : exec parse r1 ops with
    | error e => simp only [exec, hs, hr] at h; cases h
    | ok y =>
      obtain ⟨r3, t3⟩ := y
      simp only [exec, hs, hr] at h
      injection h with h; injection h with ha hb
      exact ⟨r1, t1, t3, rfl, by rw [← ha]; exact hr, hb.symm⟩

theorem exec_append_ok (parse : String → Option JsVal) (a b : List Op) :
    ∀ (r r1 r2 : Runtime) (t1 t2 : List Effect), exec parse r a = .ok (r1, t1) →
      exec parse r1 b = .ok (r2, t2) → exec parse r (a ++ b) = .ok (r2, t1 ++ t2) := by
  induction a with
  | nil =>
    intro r r1 r2 t1 t2 h1 h2
    simp only [exec] at h1
    injection h1 with h; injection h with ha hb
    subst ha; subst hb
    simpa using h2
  | cons op ops ih =>
    intro r r1 r2 t1 t2 h1 h2
    obtain ⟨r3, t3, t4, hs, hr, ht⟩ := exec_cons_inv parse r r1 op ops t1 h1
    subst ht
    rw [List.cons_append, List.append_assoc]
    exact exec_cons_ok parse r r3 r2 op (ops ++ b) t3 (t4 ++ t2) hs (ih r3 r1 r2 t4 t2 hr h2)

theorem exec_ok_WF (parse : String → Option JsVal) (ops : List Op) :
    ∀ (r r1 : Runtime) (t : List Effect), exec parse r ops = .ok (r1, t) → r.WF → r1.WF := by
  induction ops with
  | nil =>
    intro r r1 t he hwf
    simp only [exec] at he
    injection he with h; injection h with h1 h2
    rw [← h1]; exact hwf
  | cons op ops ih =>
    intro r r1 t he hwf
    obtain ⟨r2, t2, t3, hs, hr, _⟩ := exec_cons_inv parse r r1 op ops t he
    exact ih r2 r1 t3 hr (step_WF parse r r2 op t2 (step_ok_benign parse r op _ hs) hs hwf)

theorem exec_waiting (parse : String → Option JsVal) (id p n : Nat) (ops : List Op) :
    ∀ (r : Runtime), r.Waiting id p n →
      (∀ op ∈ ops, op.benign parse = true ∧ op.answers parse id = false ∧
        op.failsSend n = false) →
      ∃ r1 t, exec parse r ops = .ok (r1, t) ∧ settlesOf p t = [] ∧ r1.Waiting id p n := by
  induction ops with
  | nil => intro r hw _; exact ⟨r, [], rfl, rfl, hw⟩
  | cons op ops ih =>
    intro r hw h
    obtain ⟨hb, hna, hnf⟩ := h op (List.mem_cons_self _ _)
    obtain ⟨r1, t1, hs, hq, hw1⟩ := waiting_step parse id p n r op hw hb hna hnf
    obtain ⟨r2, t2, he, hq2, hw2⟩ := ih r1 hw1 (fun o ho => h o (List.mem_cons_of_mem _ ho))
    exact ⟨r2, t1 ++ t2, exec_cons_ok parse r r1 r2 op ops t1 t2 hs he,
      by rw [settlesOf_append, hq, hq2]; rfl, hw2⟩

theorem exec_done (parse : String → Option JsVal) (p n : Nat) (ops : List Op) :
    ∀ (r : Runtime), r.Done p n →
      (∀ op ∈ ops, op.benign parse = true ∧ op.failsSend n = false) →
      ∃ r1 t, exec parse r ops = .ok (r1, t) ∧ settlesOf p t = [] ∧ r1.Done p n := by
  induction ops with
  | nil => intro r hd _; exact ⟨r, [], rfl, rfl, hd⟩
  | cons op ops ih =>
    intro r hd h
    obtain ⟨hb, hnf⟩ := h op (List.mem_cons_self _ _)
    obtain ⟨r1, t1, hs, hq, hd1⟩ := done_step parse p n r op hd hb hnf
    obtain ⟨r2, t2, he, hq2, hd2⟩ := ih r1 hd1 (fun o ho => h o (List.mem_cons_of_mem _ ho))
    exact ⟨r2, t1 ++ t2, exec_cons_ok parse r r1 r2 op ops t1 t2 hs he,
      by rw [settlesOf_append, hq, hq2]; rfl, hd2⟩

theorem call_waiting (parse : String → Option JsVal) (r : Runtime) (m : String) (ps : JsVal)
    (hwf : r.WF) (hc : r.client.connected = true) :
    ∃ r1, step parse r (.call m ps) =
        .ok (r1, [Effect.send r.client.ws (requestPayload r.client.nextId m ps)]) ∧
      r1.Waiting r.client.nextId r.promises r.sendCallbacks.length := by
  refine ⟨_, step_call_connected parse r m ps hc, ?_⟩
  obtain ⟨h1, h2, h3⟩ := hwf
  refine ⟨h1, Nat.lt_succ_self _, Nat.lt_succ_self _, ?_, ?_, ?_, ?_, ?_⟩
  · simp
  · exact ⟨_, mem_set_self _ _ _, rfl⟩
  · intro e he hek
    rcases mem_set _ _ _ _ he with h | ⟨_, h⟩
    · rw [h]
    · exact absurd hek h
  · intro e he hek
    rcases mem_set _ _ _ _ he with h | ⟨h, _⟩
    · rw [h] at hek; exact absurd rfl hek
    · obtain ⟨_, b, c⟩ := h2 e h
      exact ⟨Nat.ne_of_lt b, Nat.ne_of_lt c⟩
  · intro k cb hcb hk
    rcases getElem?_append_singleton _ _ _ _ hcb with h | ⟨h, _⟩
    · obtain ⟨a, b⟩ := h3 cb (List.getElem?_mem h)
      exact ⟨Nat.ne_of_lt a, Nat.ne_of_lt b⟩
    · exact absurd h hk

theorem answer_done (parse : String → Option JsVal) (id p n : Nat) (r : Runtime)
    (raw : String) (fields : List (String × JsVal)) (hw : r.Waiting id p n)
    (hp : parse raw = some (.obj fields))
    (hid : lookupField "id" fields = some (.num (id : ℚ))) :
    ∃ r1, step parse r (.message raw) = .ok (r1, [settlementOf p fields]) ∧ r1.Done p n := by
  obtain ⟨w1, w2, w3, w4, w5, w6, w7, w8⟩ := hw
  obtain ⟨pc, hmem, hres⟩ :=
    handleMessage_match parse r.client raw fields id hp hid (by omega) w5
  have hpc := w6 (id, pc) hmem rfl
  simp only at hpc
  subst hpc
  refine ⟨_, step_message_of parse r raw _ _ hres, w3, w4, ?_, ?_⟩
  · intro e he
    have he2 := (mem_deleteKey _ _ _).1 he
    exact w7 e he2.1 he2.2
  · intro k cb hcb hk
    exact (w8 k cb hcb hk).2

theorem exec_append_inv (parse : String → Option JsVal) (a b : List Op) :
    ∀ (r r2 : Runtime) (t : List Effect), exec parse r (a ++ b) = .ok (r2, t) →
      ∃ r1 t1 t2, exec parse r a = .ok (r1, t1) ∧ exec parse r1 b = .ok (r2, t2) ∧
        t = t1 ++ t2 := by
  induction a with
  | nil => intro r r2 t h; exact ⟨r, [], t, rfl, by simpa using h, rfl⟩
  | cons op ops ih =>
    intro r r2 t h
    rw [List.cons_append] at h
    obtain ⟨r3, t3, t4, hs, hr, ht⟩ := exec_cons_inv parse r r2 op (ops ++ b) t h
    obtain ⟨r1, t1, t2, h1, h2, h3⟩ := ih r3 r2 t4 hr
    exact ⟨r1, t3 ++ t1, t2, exec_cons_ok parse r r3 r1 op ops t3 t1 hs h1, h2,
      by rw [ht, h3, List.append_assoc]⟩

theorem connection_step (parse : String → Option JsVal) (r : Runtime) (op : Op)
    (h : op.isConnectionEvent = true) :
    ∃ r1 t, step parse r op = .ok (r1, t) ∧ r.sameCore r1 ∧ ∀ p, settlesOf p t = [] := by
  cases op with
  | call m ps => cases h
  | message raw => cases h
  | sendDone n err => cases h
  | wsOpen => exact ⟨_, _, rfl, ⟨rfl, rfl, rfl, rfl⟩, fun p => rfl⟩
  | wsClose => exact ⟨_, _, rfl, ⟨rfl, rfl, rfl, rfl⟩, fun p => rfl⟩
  | wsError => exact ⟨_, _, rfl, ⟨rfl, rfl, rfl, rfl⟩, fun p => rfl⟩
  | reconnect => exact ⟨_, _, rfl, ⟨rfl, rfl, rfl, rfl⟩, fun p => rfl⟩

theorem connection_exec (parse : String → Option JsVal) (evs : List Op) :
    ∀ (r : Runtime), (∀ op ∈ evs, op.isConnectionEvent = true) →
      ∃ r1 t, exec parse r evs = .ok (r1, t) ∧ r.sameCore r1 ∧ ∀ p, settlesOf p t = [] := by
  induction evs with
  | nil => intro r _; exact ⟨r, [], rfl, ⟨rfl, rfl, rfl, rfl⟩, fun p => rfl⟩
  | cons op ops ih =>
    intro r h
    obtain ⟨r1, t1, hs, ⟨a1, a2, a3, a4⟩, hq1⟩ :=
      connection_step parse r op (h op (List.mem_cons_self _ _))
    obtain ⟨r2, t2, he, ⟨b1, b2, b3, b4⟩, hq2⟩ :=
      ih r1 (fun o ho => h o (List.mem_cons_of_mem _ ho))
    refine ⟨r2, t1 ++ t2, exec_cons_ok parse r r1 r2 op ops t1 t2 hs he,
      ⟨b1.trans a1, b2.trans a2, b3.trans a3, b4.trans a4⟩, ?_⟩
    intro p
    rw [settlesOf_append, hq1, hq2]
    rfl

/-! ## Claims about `LedgerRpcClient`, continued -/

/-- C1: in a run of the client from its construction, take a `call` made
while connected; let `p` be the promise it returns and `id` its request id.
Whatever the events in between (other calls, responses with other ids in any
order, unparseable text, connection events), as long as this call's own send
is not reported as failed, no callback of `p` is invoked before the first
response carrying `id`; that response invokes exactly one callback of `p`
(the settlement the envelope asks for); and whatever follows, responses
repeating `id` included, invokes no further callback of `p`. -/
theorem call_settled_once_by_own_response (parse : String → Option JsVal) (url : String)
    (d : Nat) (pre mid rest : List Op) (m : String) (ps : JsVal) (raw : String)
    (fields : List (String × JsVal)) (r : Runtime) (t0 : List Effect)
    (hpre : exec parse (Runtime.init url d) pre = .ok (r, t0))
    (hconn : r.client.connected = true)
    (hmid : ∀ op ∈ mid, op.benign parse = true ∧ op.answers parse r.client.nextId = false ∧
      op.failsSend r.sendCallbacks.length = false)
    (hraw : parse raw = some (.obj fields))
    (hid : lookupField "id" fields = some (.num (r.client.nextId : ℚ)))
    (hrest : ∀ op ∈ rest, op.benign parse = true ∧
      op.failsSend r.sendCallbacks.length = false) :
    (r.client.call r.promises m ps).2.1 = .promise r.promises ∧
    ∃ r1 t1 r2 t2,
      exec parse r (.call m ps :: mid) = .ok (r1, t1) ∧ settlesOf r.promises t1 = [] ∧
      exec parse r (.call m ps :: (mid ++ .message raw :: rest)) = .ok (r2, t2) ∧
      settlesOf r.promises t2 = [settlementOf r.promises fields] := by
  have hwf : r.WF := exec_ok_WF parse pre _ r t0 hpre (init_WF url d)
  constructor
  · simp [LedgerRpcClient.call, hconn]
  obtain ⟨ra, hsa, hwa⟩ := call_waiting parse r m ps hwf hconn
  obtain ⟨rb, tb, heb, hqb, hwb⟩ := exec_waiting parse _ _ _ mid ra hwa hmid
  obtain ⟨rc, hsc, hdc⟩ := answer_done parse _ _ _ rb raw fields hwb hraw hid
  obtain ⟨rd, td, hed, hqd, _⟩ := exec_done parse _ _ rest rc hdc hrest
  have hsend : ∀ (w : Nat) (v : JsVal), settlesOf r.promises [Effect.send w v] = [] :=
    fun _ _ => rfl
  refine ⟨rb, _, rd, _, exec_cons_ok parse r ra rb _ mid _ tb hsa heb, ?_,
    exec_cons_ok parse r ra rd _ _ _ _ hsa
      (exec_append_ok parse mid _ ra rb rd tb _ heb
        (exec_cons_ok parse rb rc rd _ rest _ td hsc hed)), ?_⟩
  · rw [settlesOf_append, hsend, hqb]; rfl
  · rw [settlesOf_append, settlesOf_append, settlesOf_append, hsend, hqb, hqd]
    simp only [List.nil_append, List.append_nil]
    unfold settlesOf settlementOf
    split <;> simp [Effect.settles]

theorem call_settled_once_by_own_response_witness :
    exec sampleParse (Runtime.init "ws://ledger" 3000) [Op.wsOpen] = .ok (sampleConnected, []) ∧
    ∃ r1 t1 r2 t2,
      exec sampleParse sampleConnected
        [.call "ledger.applyEvolutionFrame" .null, .call "ledger.other" .null,
          .message "\x7b\"id\":2,\"error\":\"denied\"\x7d", .message "not json"] =
        .ok (r1, t1) ∧
      settlesOf 0 t1 = [] ∧
      exec sampleParse sampleConnected
        (.call "ledger.applyEvolutionFrame" .null ::
          ([.call "ledger.other" .null, .message "\x7b\"id\":2,\"error\":\"denied\"\x7d",
              .message "not json"] ++
            .message "\x7b\"id\":1,\"result\":7\x7d" ::
              [.message "\x7b\"id\":1,\"result\":8\x7d", .message "7", .wsClose])) =
        .ok (r2, t2) ∧
      settlesOf 0 t2 = [Effect.resolve 0 (.num 7)] :=
  ⟨rfl,
    (call_settled_once_by_own_response sampleParse "ws://ledger" 3000 [Op.wsOpen]
      [.call "ledger.other" .null, .message "\x7b\"id\":2,\"error\":\"denied\"\x7d",
        .message "not json"]
      [.message "\x7b\"id\":1,\"result\":8\x7d", .message "7", .wsClose]
      "ledger.applyEvolutionFrame" .null "\x7b\"id\":1,\"result\":7\x7d"
      [("id", .num 1), ("result", .num 7)] sampleConnected [] rfl rfl
      (by
        intro op hop
        simp only [List.mem_cons, List.mem_singleton, List.not_mem_nil, or_false] at hop
        rcases hop with h | h | h <;> subst h <;>
          simp [Op.benign, Op.answers, Op.failsSend, sampleParse, JsVal.getProp, lookupField,
            keyMatches, sampleConnected, LedgerRpcClient.new, LedgerRpcClient._connect,
            LedgerRpcClient.onOpen])
      rfl
      (by simp [lookupField, sampleConnected, LedgerRpcClient.new, LedgerRpcClient._connect,
            LedgerRpcClient.onOpen])
      (by
        intro op hop
        simp only [List.mem_cons, List.mem_singleton, List.not_mem_nil, or_false] at hop
        rcases hop with h | h | h <;> subst h <;>
          simp [Op.benign, Op.failsSend, sampleParse])).2⟩

/-- C4: in a run of the client from its construction, a `call` admitted
while connected inserts a PendingCall under its id and hands the socket a
callback for that id and promise.  When the transport invokes that callback
with an error, the promise is rejected with that error and the entry is
removed: if nothing happened in between, the pending table is again the
table before the call; and in any later state the callback leaves no entry
under that id. -/
theorem send_failure_removes_pending (parse : String → Option JsVal) (url : String) (d : Nat)
    (pre : List Op) (r : Runtime) (t0 : List Effect) (m : String) (ps err : JsVal)
    (hpre : exec parse (Runtime.init url d) pre = .ok (r, t0))
    (hconn : r.client.connected = true) (herr : err.truthy = true) :
    (∃ r1 r2,
      step parse r (.call m ps) =
        .ok (r1, [Effect.send r.client.ws (requestPayload r.client.nextId m ps)]) ∧
      r1.client.pending =
        r.client.pending ++ [(r.client.nextId, { resolve := r.promises, reject := r.promises })] ∧
      r1.sendCallbacks[r.sendCallbacks.length]? = some (r.client.nextId, r.promises) ∧
      step parse r1 (.sendDone r.sendCallbacks.length err) =
        .ok (r2, [Effect.reject r.promises err]) ∧
      r2.client.pending = r.client.pending ∧
      r2.client.pending.has (.num (r.client.nextId : ℚ)) = false) ∧
    ∀ (r3 : Runtime) (n : Nat), r3.sendCallbacks[n]? = some (r.client.nextId, r.promises) →
      ∃ r4, step parse r3 (.sendDone n err) = .ok (r4, [Effect.reject r.promises err]) ∧
        r4.client.pending.has (.num (r.client.nextId : ℚ)) = false := by
  have hwf : r.WF := exec_ok_WF parse pre _ r t0 hpre (init_WF url d)
  have hfresh : ∀ e ∈ r.client.pending, e.1 ≠ r.client.nextId := fun e he =>
    Nat.ne_of_lt (hwf.2.1 e he).1
  constructor
  · have hcb : (r.sendCallbacks ++ [(r.client.nextId, r.promises)])[r.sendCallbacks.length]? =
        some (r.client.nextId, r.promises) := by
      rw [List.getElem?_append_right (Nat.le_refl _)]
      simp
    refine ⟨_, _, step_call_connected parse r m ps hconn, set_of_fresh _ _ _ hfresh, hcb,
      step_sendDone_fail parse _ _ err _ hcb herr, ?_, ?_⟩
    · show PendingTable.deleteKey (r.client.pending.set r.client.nextId _) r.client.nextId =
        r.client.pending
      rw [set_of_fresh _ _ _ hfresh, deleteKey_append_fresh _ _ _ hfresh]
    · exact has_deleteKey _ _
  · intro r3 n hget
    exact ⟨_, step_sendDone_fail parse r3 n err _ hget herr, has_deleteKey _ _⟩

theorem send_failure_removes_pending_witness :
    exec sampleParse (Runtime.init "ws://ledger" 3000) [Op.wsOpen, Op.call "a" .null] =
      .ok (samplePending, [Effect.send 0 (requestPayload 1 "a" .null)]) ∧
    ∃ r1 r2,
      step sampleParse samplePending (.call "b" .null) =
        .ok (r1, [Effect.send 0 (requestPayload 2 "b" .null)]) ∧
      r1.client.pending =
        [(1, { resolve := 0, reject := 0 })] ++ [(2, { resolve := 1, reject := 1 })] ∧
      r1.sendCallbacks[1]? = some (2, 1) ∧
      step sampleParse r1 (.sendDone 1 (.error "socket closed")) =
        .ok (r2, [Effect.reject 1 (.error "socket closed")]) ∧
      r2.client.pending = [(1, { resolve := 0, reject := 0 })] ∧
      r2.client.pending.has (.num ((2 : Nat) : ℚ)) = false :=
  ⟨rfl,
    (send_failure_removes_pending sampleParse "ws://ledger" 3000
      [Op.wsOpen, Op.call "a" .null] samplePending
      [Effect.send 0 (requestPayload 1 "a" .null)] "b" .null (.error "socket closed")
      rfl rfl rfl).1⟩

/-- C9: an inbound message whose `id` is absent, is not a number equal to a
key of the pending table (0, a string, `null`, ...) or is the id of no
pending call is dropped: the client state, the pending table included, is
unchanged and no callback is invoked, so every run continues exactly as if
the message had not arrived. -/
theorem stray_message_ignored (parse : String → Option JsVal) (r : Runtime) (raw : String)
    (msg idv : JsVal) (hp : parse raw = some msg) (hid : msg.getProp "id" = .ok idv)
    (hno : ∀ e ∈ r.client.pending, idv ≠ .num (e.1 : ℚ)) :
    r.client._handleMessage parse raw = .ok (r.client, []) ∧
    step parse r (.message raw) = .ok (r, []) ∧
    ∀ ops, exec parse r (.message raw :: ops) = exec parse r ops := by
  have h1 := handleMessage_no_match parse r.client raw msg idv hp hid hno
  have h2 : step parse r (.message raw) = .ok (r, []) := step_message_of parse r raw _ _ h1
  refine ⟨h1, h2, ?_⟩
  intro ops
  simp only [exec, h2]
  cases exec parse r ops with
  | error e => rfl
  | ok x => rfl

theorem stray_message_ignored_witness :
    (sampleParse "\x7b\"id\":0,\"result\":1\x7d" =
        some (.obj [("id", .num 0), ("result", .num 1)])) ∧
    step sampleParse samplePending (.message "\x7b\"id\":0,\"result\":1\x7d") =
      .ok (samplePending, []) ∧
    exec sampleParse samplePending
        [.message "\x7b\"id\":0,\"result\":1\x7d", .message "\x7b\"id\":1,\"result\":7\x7d"] =
      exec sampleParse samplePending [.message "\x7b\"id\":1,\"result\":7\x7d"] :=
  have h := stray_message_ignored sampleParse samplePending "\x7b\"id\":0,\"result\":1\x7d"
    (.obj [("id", .num 0), ("result", .num 1)]) (.num 0) rfl rfl
    (by
      intro e he
      simp only [samplePending, List.mem_singleton] at he
      subst he
      simp)
  ⟨rfl, h.2.1, h.2.2 _⟩

/-- C10: the connection events (`open`, `close`, `error`, and the reconnect
that `close` schedules) leave the pending table, the id counter, the
promises and the send callbacks as they were and invoke no `resolve` or
`reject`; so the calls pending before a disconnect are pending, unsettled,
after the reconnect.  When the last of the events is `open`, the client is
connected and a `call` is admitted: it is inserted into the pending table
under the next id and sent, and returns a pending promise. -/
theorem connection_events_keep_pending (parse : String → Option JsVal) (r : Runtime)
    (evs : List Op) (h : ∀ op ∈ evs, op.isConnectionEvent = true) :
    ∃ r1 t, exec parse r evs = .ok (r1, t) ∧ r.sameCore r1 ∧ (∀ p, settlesOf p t = []) ∧
      ∀ evs0, evs = evs0 ++ [Op.wsOpen] →
        r1.client.connected = true ∧
        ∀ (m : String) (ps : JsVal), ∃ r2,
          step parse r1 (.call m ps) =
            .ok (r2, [Effect.send r1.client.ws (requestPayload r.client.nextId m ps)]) ∧
          r2.client.pending =
            r.client.pending.set r.client.nextId
              { resolve := r.promises, reject := r.promises } ∧
          (r1.client.call r.promises m ps).2.1 = .promise r.promises := by
  obtain ⟨r1, t, he, hcore, hq⟩ := connection_exec parse evs r h
  refine ⟨r1, t, he, hcore, hq, ?_⟩
  intro evs0 hev
  have hconn : r1.client.connected = true := by
    rw [hev] at he
    obtain ⟨ra, ta, tb, _, hb, _⟩ := exec_append_inv parse evs0 [Op.wsOpen] r r1 t he
    simp only [exec, step] at hb
    injection hb with hb; injection hb with hb1 hb2
    rw [← hb1]
    rfl
  refine ⟨hconn, ?_⟩
  intro m ps
  obtain ⟨a1, a2, a3, a4⟩ := hcore
  have hstep := step_call_connected parse r1 m ps hconn
  rw [a2] at hstep
  refine ⟨_, hstep, ?_, ?_⟩
  · show r1.client.pending.set r.client.nextId _ = _
    rw [a1, a3]
  · simp [LedgerRpcClient.call, hconn]

theorem connection_events_keep_pending_witness :
    ∃ r1 t,
      exec sampleParse samplePending [.wsError, .wsClose, .reconnect, .wsOpen] = .ok (r1, t) ∧
      samplePending.sameCore r1 ∧ (∀ p, settlesOf p t = []) ∧
      ∀ evs0, [Op.wsError, Op.wsClose, Op.reconnect, Op.wsOpen] = evs0 ++ [Op.wsOpen] →
        r1.client.connected = true ∧
        ∀ (m : String) (ps : JsVal), ∃ r2,
          step sampleParse r1 (.call m ps) =
            .ok (r2, [Effect.send r1.client.ws (requestPayload 2 m ps)]) ∧
          r2.client.pending =
            PendingTable.set [(1, { resolve := 0, reject := 0 })] 2
              { resolve := 1, reject := 1 } ∧
          (r1.client.call 1 m ps).2.1 = .promise 1 :=
  connection_events_keep_pending sampleParse samplePending
    [.wsError, .wsClose, .reconnect, .wsOpen]
    (by
      intro op hop
      simp only [List.mem_cons, List.mem_singleton, List.not_mem_nil, or_false] at hop
      rcases hop with h | h | h | h <;> subst h <;> rfl)

/-! ## The evolution turn -/

theorem applyTokens_gate {W C T P : Type} (ffi : Ffi W C T P) (nowMs : Nat) (consent : C)
    (tokens : List T) :
    ∀ w, gateAsked (applyTokens ffi nowMs consent w tokens).2 = tokens ∧
      actuatorCalled (applyTokens ffi nowMs consent w tokens).2 =
        gateAllowed (applyTokens ffi nowMs consent w tokens).2 := by
  induction tokens with
  | nil => intro w; exact ⟨rfl, rfl⟩
  | cons token rest ih =>
    intro w
    simp only [applyTokens]
    cases hg : (ffi.scheduler_try_apply_token w nowMs consent token).2 with
    | false =>
      have h := ih (ffi.scheduler_try_apply_token w nowMs consent token).1
      simp only [hg, Bool.not_false, if_true, gateAsked, actuatorCalled, gateAllowed]
      exact ⟨by rw [h.1], h.2⟩
    | true =>
      simp only [hg, Bool.not_true]
      cases ha : (ffi.nav_adapter_apply_token
          (ffi.scheduler_try_apply_token w nowMs consent token).1 token).2.ok with
      | false =>
        have h := ih (ffi.nav_adapter_apply_token
          (ffi.scheduler_try_apply_token w nowMs consent token).1 token).1
        simp only [ha, Bool.not_false, if_true, gateAsked, actuatorCalled, gateAllowed]
        exact ⟨by rw [h.1], by rw [h.2]⟩
      | true =>
        have h := ih (ffi.nav_adapter_apply_token
          (ffi.scheduler_try_apply_token w nowMs consent token).1 token).1
        simp only [ha, Bool.not_true, gateAsked, actuatorCalled, gateAllowed]
        exact ⟨by simp [h.1], by simp [h.2]⟩

theorem gateAsked_append {C T P : Type} (a b : List (TurnEvent C T P)) :
    gateAsked (a ++ b) = gateAsked a ++ gateAsked b := by
  induction a with
  | nil => rfl
  | cons e rest ih => cases e <;> simp [gateAsked, ih]

theorem gateAllowed_append {C T P : Type} (a b : List (TurnEvent C T P)) :
    gateAllowed (a ++ b) = gateAllowed a ++ gateAllowed b := by
  induction a with
  | nil => rfl
  | cons e rest ih =>
    cases e with
    | tryApplyToken n c t allowed => cases allowed <;> simp [gateAllowed, ih]
    | _ => simp [gateAllowed, ih]

theorem actuatorCalled_append {C T P : Type} (a b : List (TurnEvent C T P)) :
    actuatorCalled (a ++ b) = actuatorCalled a ++ actuatorCalled b := by
  induction a with
  | nil => rfl
  | cons e rest ih => cases e <;> simp [actuatorCalled, ih]

theorem runEvolutionTurn_trace {W C T P : Type} (ffi : Ffi W C T P) (st : LanesState W C)
    (nowMs : Nat) :
    ∃ (w : W) (params updatedParams : P),
      (runEvolutionTurn ffi st nowMs).2 =
        [TurnEvent.maybeRotateTurn nowMs, TurnEvent.setSafetyState st.safetyState,
          TurnEvent.readParams, TurnEvent.logParamsBefore params,
          TurnEvent.proposeTokens nowMs st.latestNavigationContext 4] ++
        (applyTokens ffi nowMs st.consentNavigation w (proposedTokens ffi st nowMs)).2 ++
        [TurnEvent.readParams, TurnEvent.logParamsAfter updatedParams] :=
  ⟨_, _, _, rfl⟩

theorem actuatorSucceeded_append {C T P : Type} (a b : List (TurnEvent C T P)) :
    actuatorSucceeded (a ++ b) = actuatorSucceeded a ++ actuatorSucceeded b := by
  induction a with
  | nil => rfl
  | cons e rest ih =>
    cases e with
    | applyToken t res => cases h : res.ok <;> simp [actuatorSucceeded, ih, h]
    | _ => simp [actuatorSucceeded, ih]

theorem applyTokens_filter {W C T P : Type} (ffi : Ffi W C T P) (nowMs : Nat) (consent : C)
    (g a : T → Bool)
    (hg : ∀ w t, (ffi.scheduler_try_apply_token w nowMs consent t).2 = g t)
    (ha : ∀ w t, (ffi.nav_adapter_apply_token w t).2.ok = a t) (tokens : List T) :
    ∀ w, actuatorCalled (applyTokens ffi nowMs consent w tokens).2 = tokens.filter g ∧
      actuatorSucceeded (applyTokens ffi nowMs consent w tokens).2 =
        tokens.filter (fun t => g t && a t) := by
  induction tokens with
  | nil => intro w; exact ⟨rfl, rfl⟩
  | cons token rest ih =>
    intro w
    simp only [applyTokens]
    have hgw := hg w token
    cases hgt : g token with
    | false =>
      rw [hgt] at hgw
      have h := ih (ffi.scheduler_try_apply_token w nowMs consent token).1
      simp only [hgw, Bool.not_false, if_true, actuatorCalled, actuatorSucceeded]
      simp [List.filter_cons, hgt, h.1, h.2]
    | true =>
      rw [hgt] at hgw
      simp only [hgw, Bool.not_true]
      have haw := ha (ffi.scheduler_try_apply_token w nowMs consent token).1 token
      have h := ih (ffi.nav_adapter_apply_token
          (ffi.scheduler_try_apply_token w nowMs consent token).1 token).1
      cases hat : a token with
      | false =>
        rw [hat] at haw
        simp only [haw, Bool.not_false, if_true, actuatorCalled, actuatorSucceeded]
        simp [List.filter_cons, hgt, hat, h.1, h.2]
      | true =>
        rw [hat] at haw
        simp only [haw, Bool.not_true, actuatorCalled, actuatorSucceeded]
        simp [List.filter_cons, hgt, hat, h.1, h.2]

/-- C5: in one `runEvolutionTurn`, whatever the collaborators do, the gate
is asked about every proposed token exactly once and in proposal order, the
actuator is called exactly on the tokens for which the gate answered
"allowed", in that order, and the turn ends with the final parameter read.
When the answers of gate and actuator depend on the token alone, the
actuator is called on the proposed tokens the gate allows and succeeds on
those of them whose actuation does not fail, so neither a denial nor a
failure stops later tokens.  In the sample turn (4 tokens, token 2 denied,
actuation of token 3 failing) the gate is asked about 1, 2, 3, 4, the
actuator is called on 1, 3, 4 and tokens 1 and 4 are applied. -/
theorem turn_gates_every_token {W C T P : Type} (ffi : Ffi W C T P) (st : LanesState W C)
    (nowMs : Nat) :
    gateAsked (runEvolutionTurn ffi st nowMs).2 = proposedTokens ffi st nowMs ∧
    actuatorCalled (runEvolutionTurn ffi st nowMs).2 =
      gateAllowed (runEvolutionTurn ffi st nowMs).2 ∧
    (∃ (before : List (TurnEvent C T P)) (updatedParams : P),
      (runEvolutionTurn ffi st nowMs).2 =
        before ++ [TurnEvent.readParams, TurnEvent.logParamsAfter updatedParams]) ∧
    (∀ (g a : T → Bool),
      (∀ w t, (ffi.scheduler_try_apply_token w nowMs st.consentNavigation t).2 = g t) →
      (∀ w t, (ffi.nav_adapter_apply_token w t).2.ok = a t) →
      actuatorCalled (runEvolutionTurn ffi st nowMs).2 = (proposedTokens ffi st nowMs).filter g ∧
      actuatorSucceeded (runEvolutionTurn ffi st nowMs).2 =
        (proposedTokens ffi st nowMs).filter (fun t => g t && a t)) ∧
    (proposedTokens sampleFfi sampleLanes 1000 = [1, 2, 3, 4] ∧
      gateAsked (runEvolutionTurn sampleFfi sampleLanes 1000).2 = [1, 2, 3, 4] ∧
      gateAllowed (runEvolutionTurn sampleFfi sampleLanes 1000).2 = [1, 3, 4] ∧
      actuatorCalled (runEvolutionTurn sampleFfi sampleLanes 1000).2 = [1, 3, 4] ∧
      actuatorSucceeded (runEvolutionTurn sampleFfi sampleLanes 1000).2 = [1, 4]) := by
  obtain ⟨w, params, updatedParams, htr⟩ := runEvolutionTurn_trace ffi st nowMs
  have hloop := applyTokens_gate ffi nowMs st.consentNavigation (proposedTokens ffi st nowMs) w
  refine ⟨?_, ?_, ⟨_, updatedParams, htr⟩, ?_, rfl, rfl, rfl, rfl, rfl⟩
  · rw [htr, gateAsked_append, gateAsked_append, hloop.1]
    simp [gateAsked]
  · rw [htr, actuatorCalled_append, actuatorCalled_append, gateAllowed_append,
      gateAllowed_append, hloop.2]
    simp [actuatorCalled, gateAllowed]
  · intro g a hg ha
    have hf := applyTokens_filter ffi nowMs st.consentNavigation g a hg ha
      (proposedTokens ffi st nowMs) w
    constructor
    · rw [htr, actuatorCalled_append, actuatorCalled_append, hf.1]
      simp [actuatorCalled]
    · rw [htr, actuatorSucceeded_append, actuatorSucceeded_append, hf.2]
      simp [actuatorSucceeded]

theorem turn_gates_every_token_witness :
    actuatorCalled (runEvolutionTurn sampleFfi sampleLanes 1000).2 =
      [1, 2, 3, 4].filter (fun t => decide (t ≠ 2)) ∧
    actuatorSucceeded (runEvolutionTurn sampleFfi sampleLanes 1000).2 =
      [1, 2, 3, 4].filter (fun t => decide (t ≠ 2) && decide (t ≠ 3)) :=
  (turn_gates_every_token sampleFfi sampleLanes 1000).2.2.2.1
    (fun t => decide (t ≠ 2)) (fun t => decide (t ≠ 3)) (fun _ _ => rfl)
    (fun _ t => by
      show (if t = 3 then ({ ok := false, err := .str "busy" } : ApplyResult)
        else { ok := true, err := .undefined }).ok = decide (t ≠ 3)
      by_cases h : t = 3 <;> simp [h])

/-! ## Context aggregation -/

theorem handleContextMessage_env_summary {W C T P : Type} (ffi : Ffi W C T P)
    (coerce : JsVal → JNum) (st : LanesState W C) (nowMs : Nat)
    (fields : List (String × JsVal))
    (hty : lookupField "type" fields = some (.str "env_summary")) :
    handleContextMessage ffi coerce st nowMs (.obj fields) =
      (.ok ({ st with latestNavigationContext :=
          { obstacle_density := clamp01 (toNumber coerce
              (((lookupField "obstacle_density" fields).getD .undefined).orElse (.num 0)))
            ambient_noise := clamp01 (toNumber coerce
              (((lookupField "ambient_noise" fields).getD .undefined).orElse (.num 0)))
            crowd_pressure := clamp01 (toNumber coerce
              (((lookupField "crowd_pressure" fields).getD .undefined).orElse (.num 0)))
            requested_heading_deg := normalizeDeg (toNumber coerce
              (((lookupField "requested_heading_deg" fields).getD .undefined).orElse
                (.num 0))) } }, []) :
        Except JsError (LanesState W C × List (TurnEvent C T P))) := by
  simp [handleContextMessage, JsVal.getProp, hty, JsVal.isStr]

theorem truncQ_rem_bounds (q : ℚ) :
    (0 ≤ q → 0 ≤ q - 360 * (truncQ (q / 360) : ℚ) ∧ q - 360 * (truncQ (q / 360) : ℚ) < 360) ∧
    (q < 0 → -360 < q - 360 * (truncQ (q / 360) : ℚ) ∧ q - 360 * (truncQ (q / 360) : ℚ) ≤ 0) := by
  constructor
  · intro hq
    have h0 : 0 ≤ q / 360 := by positivity
    have h1 := Int.floor_le (q / 360)
    have h2 := Int.lt_floor_add_one (q / 360)
    simp only [truncQ, h0, if_true]
    constructor <;> linarith
  · intro hq
    have h0 : ¬ 0 ≤ q / 360 := by
      intro h
      have : 0 ≤ q := by
        have := mul_nonneg h (by norm_num : (0 : ℚ) ≤ 360)
        linarith [div_mul_cancel₀ q (by norm_num : (360 : ℚ) ≠ 0)]
      linarith
    have h1 := Int.le_ceil (q / 360)
    have h2 := Int.ceil_lt_add_one (q / 360)
    simp only [truncQ, h0, if_false]
    constructor <;> linarith

theorem normalizeDeg_of_rem_nonneg (q : ℚ) (h : ¬ q - 360 * (truncQ (q / 360) : ℚ) < 0) :
    normalizeDeg (.fin q) = .fin (q - 360 * (truncQ (q / 360) : ℚ)) := by
  simp [normalizeDeg, JNum.rem, JNum.lt, h]

theorem normalizeDeg_of_rem_neg (q : ℚ) (h : q - 360 * (truncQ (q / 360) : ℚ) < 0) :
    normalizeDeg (.fin q) = roundDouble (q - 360 * (truncQ (q / 360) : ℚ) + 360) := by
  simp [normalizeDeg, JNum.rem, JNum.lt, JNum.add, h]

/-- For a heading that is not negative no addition takes place: the result
is the exact remainder, in `[0, 360)`. -/
theorem normalizeDeg_nonneg (q : ℚ) (hq : 0 ≤ q) :
    ∃ v : ℚ, normalizeDeg (.fin q) = .fin v ∧ 0 ≤ v ∧ v < 360 ∧
      ∃ k : ℤ, v = q + 360 * (k : ℚ) := by
  have hb := (truncQ_rem_bounds q).1 hq
  refine ⟨q - 360 * (truncQ (q / 360) : ℚ), normalizeDeg_of_rem_nonneg q (not_lt.2 hb.1),
    hb.1, hb.2, - truncQ (q / 360), ?_⟩
  push_cast
  ring

theorem normalizeDeg_unique_nonneg (q v : ℚ) (k : ℤ) (hq : 0 ≤ q) (h0 : 0 ≤ v) (h1 : v < 360)
    (hk : v = q + 360 * (k : ℚ)) : normalizeDeg (.fin q) = .fin v := by
  obtain ⟨w, hw, w0, w1, j, hj⟩ := normalizeDeg_nonneg q hq
  have hlt : ((j - k : ℤ) : ℚ) < 1 := by push_cast; linarith
  have hgt : (-1 : ℚ) < ((j - k : ℤ) : ℚ) := by push_cast; linarith
  have hlt2 : j - k < 1 := by exact_mod_cast hlt
  have hgt2 : -1 < j - k := by exact_mod_cast hgt
  have hjk : j = k := by omega
  rw [hw, hj, hk, hjk]

theorem truncQ_small_neg (q : ℚ) (h1 : -360 < q) (h2 : q < 0) : truncQ (q / 360) = 0 := by
  have hneg : ¬ 0 ≤ q / 360 := by
    intro h
    have := mul_nonneg h (by norm_num : (0 : ℚ) ≤ 360)
    linarith [div_mul_cancel₀ q (by norm_num : (360 : ℚ) ≠ 0)]
  simp only [truncQ, hneg, if_false]
  rw [Int.ceil_eq_iff]
  constructor
  · have : (-1 : ℚ) < q / 360 := by
      rw [lt_div_iff₀ (by norm_num : (0 : ℚ) < 360)]
      linarith
    simpa using this
  · have : q / 360 ≤ 0 := le_of_lt (not_le.1 hneg)
    simpa using this

/-- For a heading in `(-360, 0)` the result is the sum `d + 360` rounded to
the nearest double. -/
theorem normalizeDeg_small_neg (q : ℚ) (h1 : -360 < q) (h2 : q < 0) :
    normalizeDeg (.fin q) = roundDouble (q + 360) := by
  have ht := truncQ_small_neg q h1 h2
  have hlt : q - 360 * (truncQ (q / 360) : ℚ) < 0 := by
    rw [ht]
    simpa using h2
  rw [normalizeDeg_of_rem_neg q hlt, ht]
  simp

theorem roundHalfEven_near (x : ℚ) (m : ℤ) (h1 : (m : ℚ) - 1 / 2 < x)
    (h2 : x < (m : ℚ) + 1 / 2) : roundHalfEven x = m := by
  unfold roundHalfEven
  by_cases hx : (m : ℚ) ≤ x
  · have hf : ⌊x⌋ = m := by
      rw [Int.floor_eq_iff]
      constructor
      · exact hx
      · linarith
    rw [hf]
    have : x - (m : ℚ) < 1 / 2 := by linarith
    rw [if_pos this]
  · have hx2 : x < (m : ℚ) := not_le.1 hx
    have hf : ⌊x⌋ = m - 1 := by
      rw [Int.floor_eq_iff]
      push_cast
      constructor <;> linarith
    rw [hf]
    push_cast
    have h3 : ¬ (x - ((m : ℚ) - 1) < 1 / 2) := by linarith
    have h4 : 1 / 2 < x - ((m : ℚ) - 1) := by linarith
    simp only [h3, h4, if_false, if_true]
    ring

/-- The value of `roundDouble` at a positive `q` in the binade of exponent
`e`, when `q` is nearer to the `m`-th multiple of the spacing than to any
other. -/
theorem roundDouble_eval (q : ℚ) (e m : ℤ) (hq : 0 < q) (he1 : (2 : ℚ) ^ e ≤ q)
    (he2 : q < (2 : ℚ) ^ (e + 1)) (hmin : -1022 ≤ e)
    (hm1 : (m : ℚ) - 1 / 2 < q / (2 : ℚ) ^ (e - 52))
    (hm2 : q / (2 : ℚ) ^ (e - 52) < (m : ℚ) + 1 / 2)
    (hover : (m : ℚ) * (2 : ℚ) ^ (e - 52) < (2 : ℚ) ^ (1024 : ℤ)) :
    roundDouble q = .fin ((m : ℚ) * (2 : ℚ) ^ (e - 52)) := by
  have hlog : Int.log 2 q = e := by
    apply le_antisymm
    · have h := (Int.lt_zpow_iff_log_lt (b := 2) (by norm_num) hq (x := e + 1)).1
        (by exact_mod_cast he2)
      omega
    · exact (Int.zpow_le_iff_le_log (b := 2) (by norm_num) hq).1 (by exact_mod_cast he1)
  unfold roundDouble
  have hq0 : q ≠ 0 := ne_of_gt hq
  have habs : |q| = q := abs_of_pos hq
  have hnl : ¬ q < 0 := not_lt.2 (le_of_lt hq)
  simp only [hq0, if_false, habs, hlog, max_eq_left hmin, roundHalfEven_near _ m hm1 hm2, hnl]
  rw [if_neg (not_le.2 hover)]

theorem roundDouble_below_360 : roundDouble (-(1 / 2 ^ 70) + 360) = .fin 360 := by
  have h := roundDouble_eval (-(1 / 2 ^ 70) + 360) 8 (360 * 2 ^ 44) (by norm_num)
    (by norm_num) (by norm_num) (by norm_num) (by norm_num) (by norm_num) (by norm_num)
  rw [h]
  congr 1
  norm_num

theorem roundDouble_330 : roundDouble (-30 + 360) = .fin 330 := by
  have h := roundDouble_eval (-30 + 360) 8 (330 * 2 ^ 44) (by norm_num) (by norm_num)
    (by norm_num) (by norm_num) (by norm_num) (by norm_num) (by norm_num)
  rw [h]
  congr 1
  norm_num

/-- The two headings named in the specification: `-30` gives `330` and `725`
gives `5`. -/
theorem normalizeDeg_examples :
    normalizeDeg (.fin (-30)) = .fin 330 ∧ normalizeDeg (.fin 725) = .fin 5 := by
  constructor
  · rw [normalizeDeg_small_neg (-30) (by norm_num) (by norm_num)]
    exact roundDouble_330
  · exact normalizeDeg_unique_nonneg 725 5 (-2) (by norm_num) (by norm_num) (by norm_num)
      (by norm_num)

theorem clamp01_fin (x : ℚ) : clamp01 (.fin x) = .fin (max 0 (min 1 x)) := by
  simp only [clamp01, JNum.min, JNum.max]
  congr 1

/-- C7 (refuted on the code): `normalizeDeg` does not always give a value
in `[0, 360)`.  For the double `d = -2^-70` the remainder is `d` itself and
the sum `d + 360`, rounded to the nearest double, is exactly `360`; an
`env_summary` message with that heading stores `360`.  For a heading text
too large for a double (`1e999`, parsed as `Infinity`) the stored heading is
`NaN`. -/
theorem normalizeDeg_tiny_negative_gives_360 :
    normalizeDeg (.fin (-(1 / 2 ^ 70))) = .fin 360 ∧
    (∃ st1, handleContextMessage sampleFfi sampleCoerce sampleLanes 0
        (.obj sampleTinyHeading) = .ok (st1, []) ∧
      st1.latestNavigationContext.requested_heading_deg = .fin 360) ∧
    normalizeDeg .posInf = .nan ∧
    (∃ st1, handleContextMessage sampleFfi sampleCoerce sampleLanes 0
        (.obj sampleHugeHeading) = .ok (st1, []) ∧
      st1.latestNavigationContext.requested_heading_deg = .nan) := by
  have h360 : normalizeDeg (.fin (-(1 / 2 ^ 70))) = .fin 360 := by
    rw [normalizeDeg_small_neg (-(1 / 2 ^ 70)) (by norm_num) (by norm_num)]
    exact roundDouble_below_360
  refine ⟨h360, ⟨_, handleContextMessage_env_summary sampleFfi sampleCoerce sampleLanes 0
    sampleTinyHeading rfl, ?_⟩, rfl, ⟨_, handleContextMessage_env_summary sampleFfi
    sampleCoerce sampleLanes 0 sampleHugeHeading rfl, rfl⟩⟩
  exact h360

/-- C8: for every exact number `x`, `clamp01 x` is a number `v` with
`0 ≤ v ≤ 1`, equal to `x` when `0 ≤ x ≤ 1`, to 0 when `x < 0` and to 1 when
`x > 1`; an `env_summary` message stores `clamp01` of each of
`obstacle_density`, `ambient_noise` and `crowd_pressure`; 1.5 is stored as
1. -/
theorem ratios_clamped (x : ℚ) :
    ∃ v : ℚ, clamp01 (.fin x) = .fin v ∧ 0 ≤ v ∧ v ≤ 1 ∧
      (0 ≤ x → x ≤ 1 → v = x) ∧ (x < 0 → v = 0) ∧ (1 < x → v = 1) ∧
      (∀ (W C T P : Type) (ffi : Ffi W C T P) (coerce : JsVal → JNum) (st : LanesState W C)
          (nowMs : Nat) (fields : List (String × JsVal)) (a b c : ℚ),
        lookupField "type" fields = some (.str "env_summary") →
        lookupField "obstacle_density" fields = some (.num a) →
        lookupField "ambient_noise" fields = some (.num b) →
        lookupField "crowd_pressure" fields = some (.num c) →
        ∃ st1, handleContextMessage ffi coerce st nowMs (.obj fields) =
            (.ok (st1, []) : Except JsError (LanesState W C × List (TurnEvent C T P))) ∧
          st1.latestNavigationContext.obstacle_density = clamp01 (.fin a) ∧
          st1.latestNavigationContext.ambient_noise = clamp01 (.fin b) ∧
          st1.latestNavigationContext.crowd_pressure = clamp01 (.fin c)) ∧
      clamp01 (.fin (3 / 2)) = .fin 1 := by
  refine ⟨max 0 (min 1 x), clamp01_fin x, le_max_left _ _, max_le (by norm_num)
    (min_le_left _ _), ?_, ?_, ?_, ?_, ?_⟩
  · intro h0 h1
    rw [min_eq_right h1, max_eq_right h0]
  · intro h0
    rw [min_eq_right (by linarith), max_eq_left (le_of_lt h0)]
  · intro h1
    rw [min_eq_left (le_of_lt h1), max_eq_right (by norm_num)]
  · intro W C T P ffi coerce st nowMs fields a b c hty ha hb hc
    refine ⟨_, handleContextMessage_env_summary ffi coerce st nowMs fields hty, ?_, ?_, ?_⟩
    · simp only [ha, Option.getD_some, JsVal.orElse, toNumber]
    · simp only [hb, Option.getD_some, JsVal.orElse, toNumber]
    · simp only [hc, Option.getD_some, JsVal.orElse, toNumber]
  · rw [clamp01_fin]
    norm_num

theorem ratios_clamped_witness :
    ∃ st1, handleContextMessage sampleFfi sampleCoerce sampleLanes 0 (.obj sampleSummary) =
        .ok (st1, []) ∧
      st1.latestNavigationContext.obstacle_density = .fin 1 ∧
      st1.latestNavigationContext.ambient_noise = .fin (1 / 4) ∧
      st1.latestNavigationContext.crowd_pressure = .fin 0 := by
  obtain ⟨v, _, _, _, _, _, _, hmsg, h32⟩ := ratios_clamped (3 / 2)
  obtain ⟨st1, h1, h2, h3, h4⟩ :=
    hmsg Nat Unit Nat Nat sampleFfi sampleCoerce sampleLanes 0 sampleSummary (3 / 2) (1 / 4)
      (-2) rfl rfl rfl rfl
  refine ⟨st1, h1, by rw [h2, h32], ?_, ?_⟩
  · rw [h3, clamp01_fin]; norm_num
  · rw [h4, clamp01_fin]; norm_num

/-! ## Decision dispatch -/

theorem isStr_iff (v : JsVal) (s : String) : v.isStr s = true ↔ v = .str s := by
  cases v <;> simp [JsVal.isStr]

/-- C6: with both sinks present, `submitFrame` makes exactly these calls on
the sinks for a decision the ledger call resolved with: verdict `Safe`, one
notification with the frame id and the decision's `applied_deltas`, then
the pulse `success`; verdict `Defer`, one notification with the frame id
and no `applied_deltas`, then the pulse `neutral`; verdict `DenyHardStop`,
one notification with the frame id and no `applied_deltas`, then the pulse
`alert`; any other verdict, no call at all. -/
theorem submitFrame_side_effects (o : EvolutionOrchestrator) (frame : EvolutionFrame)
    (decision : JsVal) (hui : o.uiSink = true) (hh : o.hapticSink = true) :
    (∀ fields, decision = .obj fields → lookupField "verdict" fields = some (.str "Safe") →
      (o.submitFrame frame (.ok decision)).1 =
        [SinkCall.notify (.obj [("type", .str "evolution_safe"), ("frame_id", frame.frame_id),
            ("applied_deltas", (lookupField "applied_deltas" fields).getD .undefined)]),
          SinkCall.pulse "success"]) ∧
    (decision.getProp "verdict" = .ok (.str "Defer") →
      (o.submitFrame frame (.ok decision)).1 =
        [SinkCall.notify (.obj [("type", .str "evolution_defer"),
            ("frame_id", frame.frame_id)]),
          SinkCall.pulse "neutral"]) ∧
    (decision.getProp "verdict" = .ok (.str "DenyHardStop") →
      (o.submitFrame frame (.ok decision)).1 =
        [SinkCall.notify (.obj [("type", .str "evolution_denied"),
            ("frame_id", frame.frame_id)]),
          SinkCall.pulse "alert"]) ∧
    (decision.getProp "verdict" ≠ .ok (.str "Safe") →
      decision.getProp "verdict" ≠ .ok (.str "Defer") →
      decision.getProp "verdict" ≠ .ok (.str "DenyHardStop") →
      (o.submitFrame frame (.ok decision)).1 = []) := by
  refine ⟨?_, ?_, ?_, ?_⟩
  · intro fields hdec hv
    subst hdec
    simp [EvolutionOrchestrator.submitFrame, JsVal.getProp, hv, JsVal.isStr,
      EvolutionOrchestrator._onSafe, hui, hh]
  · intro hv
    simp [EvolutionOrchestrator.submitFrame, hv, JsVal.isStr,
      EvolutionOrchestrator._onDefer, hui, hh]
  · intro hv
    simp [EvolutionOrchestrator.submitFrame, hv, JsVal.isStr,
      EvolutionOrchestrator._onDenyHardStop, hui, hh]
  · intro h1 h2 h3
    cases hv : decision.getProp "verdict" with
    | error e => simp [EvolutionOrchestrator.submitFrame, hv]
    | ok verdict =>
      have f1 : verdict.isStr "Safe" = false := by
        cases hs : verdict.isStr "Safe" with
        | false => rfl
        | true => rw [isStr_iff] at hs; rw [hv, hs] at h1; exact absurd rfl h1
      have f2 : verdict.isStr "Defer" = false := by
        cases hs : verdict.isStr "Defer" with
        | false => rfl
        | true => rw [isStr_iff] at hs; rw [hv, hs] at h2; exact absurd rfl h2
      have f3 : verdict.isStr "DenyHardStop" = false := by
        cases hs : verdict.isStr "DenyHardStop" with
        | false => rfl
        | true => rw [isStr_iff] at hs; rw [hv, hs] at h3; exact absurd rfl h3
      simp [EvolutionOrchestrator.submitFrame, hv, f1, f2, f3]

theorem submitFrame_side_effects_witness :
    sampleOrchestrator.uiSink = true ∧ sampleOrchestrator.hapticSink = true ∧
    (sampleOrchestrator.submitFrame sampleFrame
        (.ok (.obj [("verdict", .str "DenyHardStop")]))).1 =
      [SinkCall.notify (.obj [("type", .str "evolution_denied"), ("frame_id", .str "f-1")]),
        SinkCall.pulse "alert"] ∧
    (sampleOrchestrator.submitFrame sampleFrame
        (.ok (.obj [("verdict", .str "Safe"), ("applied_deltas", .num 3)]))).1 =
      [SinkCall.notify (.obj [("type", .str "evolution_safe"), ("frame_id", .str "f-1"),
          ("applied_deltas", .num 3)]),
        SinkCall.pulse "success"] ∧
    (sampleOrchestrator.submitFrame sampleFrame
        (.ok (.obj [("verdict", .str "Later")]))).1 = [] :=
  ⟨rfl, rfl,
    (submitFrame_side_effects sampleOrchestrator sampleFrame
      (.obj [("verdict", .str "DenyHardStop")]) rfl rfl).2.2.1 rfl,
    (submitFrame_side_effects sampleOrchestrator sampleFrame
      (.obj [("verdict", .str "Safe"), ("applied_deltas", .num 3)]) rfl rfl).1 _ rfl rfl,
    (submitFrame_side_effects sampleOrchestrator sampleFrame
      (.obj [("verdict", .str "Later")]) rfl rfl).2.2.2
      (by simp [JsVal.getProp, lookupField]) (by simp [JsVal.getProp, lookupField])
      (by simp [JsVal.getProp, lookupField])⟩

/-! ## Request ids -/

theorem keys_deleteKey_nodup (t : PendingTable) (k : Nat) (h : (t.map Prod.fst).Nodup) :
    ((t.deleteKey k).map Prod.fst).Nodup := by
  unfold PendingTable.deleteKey
  exact List.Nodup.sublist (List.Sublist.map _ (List.filter_sublist t)) h

theorem init_Ids (url : String) (d : Nat) : (Runtime.init url d).Ids := by
  refine ⟨rfl, rfl, List.nodup_nil, ?_⟩
  intro e he
  exact absurd he (List.not_mem_nil e)

theorem step_Ids (parse : String → Option JsVal) (r r1 : Runtime) (op : Op) (t : List Effect)
    (hs : step parse r op = .ok (r1, t)) (hi : r.Ids) : r1.Ids := by
  obtain ⟨r2, t2, hs2, hcase⟩ := step_cases parse r op (step_ok_benign parse r op _ hs)
  rw [hs] at hs2
  have hr : r2 = r1 := by injection hs2 with h; injection h with h1 h2; exact h1.symm
  subst hr
  obtain ⟨i1, i2, i3, i4⟩ := hi
  unfold Runtime.assignedIds at i1
  rcases hcase with ⟨⟨hp, hn, hpr, hsc⟩, _⟩ | ⟨_, _, hp, hn, hpr, hsc, _⟩ |
      ⟨raw, fields, k, pc, _, _, _, _, hp, hn, hpr, hsc, _⟩ |
      ⟨n, err, cb, _, _, _, hp, hn, hpr, hsc, _⟩
  · refine ⟨?_, ?_, ?_, ?_⟩
    · unfold Runtime.assignedIds; rw [hsc]; exact i1
    · rw [hn, hsc]; exact i2
    · rw [hp]; exact i3
    · intro e he; rw [hp] at he; rw [hn]; exact i4 e he
  · have hfresh : ∀ e ∈ r.client.pending, e.1 ≠ r.client.nextId := fun e he =>
      Nat.ne_of_lt (i4 e he).2
    rw [set_of_fresh _ _ _ hfresh] at hp
    refine ⟨?_, ?_, ?_, ?_⟩
    · unfold Runtime.assignedIds
      rw [hsc, List.map_append, i1, List.length_append, List.length_singleton,
        List.range'_1_concat, i2]
      simp [Nat.add_comm]
    · rw [hn, hsc, i2, List.length_append, List.length_singleton]
    · rw [hp, List.map_append, List.nodup_append]
      refine ⟨i3, by simp, ?_⟩
      intro a ha hb
      simp only [List.map_cons, List.map_nil, List.mem_singleton] at hb
      rw [List.mem_map] at ha
      obtain ⟨e, he, hea⟩ := ha
      exact hfresh e he (by rw [hea, hb])
    · intro e he
      rw [hp, List.mem_append] at he
      rw [hn]
      rcases he with h | h
      · exact ⟨(i4 e h).1, Nat.lt_succ_of_lt (i4 e h).2⟩
      · simp only [List.mem_singleton] at h
        subst h
        exact ⟨by show 1 ≤ r.client.nextId; omega, Nat.lt_succ_self _⟩
  · refine ⟨?_, ?_, ?_, ?_⟩
    · unfold Runtime.assignedIds; rw [hsc]; exact i1
    · rw [hn, hsc]; exact i2
    · rw [hp]; exact keys_deleteKey_nodup _ _ i3
    · intro e he; rw [hp, mem_deleteKey] at he; rw [hn]; exact i4 e he.1
  · refine ⟨?_, ?_, ?_, ?_⟩
    · unfold Runtime.assignedIds; rw [hsc]; exact i1
    · rw [hn, hsc]; exact i2
    · rw [hp]; exact keys_deleteKey_nodup _ _ i3
    · intro e he; rw [hp, mem_deleteKey] at he; rw [hn]; exact i4 e he.1

theorem exec_ok_Ids (parse : String → Option JsVal) (ops : List Op) :
    ∀ (r r1 : Runtime) (t : List Effect), exec parse r ops = .ok (r1, t) → r.Ids → r1.Ids := by
  induction ops with
  | nil =>
    intro r r1 t he hi
    simp only [exec] at he
    injection he with h; injection h with h1 h2
    rw [← h1]; exact hi
  | cons op ops ih =>
    intro r r1 t he hi
    obtain ⟨r2, t2, t3, hs, hr, _⟩ := exec_cons_inv parse r r1 op ops t he
    exact ih r2 r1 t3 hr (step_Ids parse r r2 op t2 hs hi)

theorem entry_unique (t : PendingTable) (k : Nat) (a b : PendingCall)
    (hn : (t.map Prod.fst).Nodup) (ha : (k, a) ∈ t) (hb : (k, b) ∈ t) : a = b := by
  have h := List.inj_on_of_nodup_map hn ha hb rfl
  injection h

theorem has_false_of_falsy (t : PendingTable) (v : JsVal) (hk : ∀ e ∈ t, 1 ≤ e.1)
    (hv : v.truthy = false) : t.has v = false := by
  apply has_false_of_no_key
  intro e he heq
  have h1 := hk e he
  rw [heq] at hv
  have hne : ((e.1 : ℕ) : ℚ) ≠ 0 := by
    have : e.1 ≠ 0 := by omega
    exact_mod_cast this
  simp [JsVal.truthy, hne] at hv

/-- C19: in every state reached from construction, every key of the pending
table is at least 1.  Hence a value that fails the truthiness test on
`msg.id` equals no key of the table, and a response whose `id` is the id of
a pending call passes the test: its entry is removed and one callback of
that entry is invoked. -/
theorem truthiness_test_drops_no_pending (parse : String → Option JsVal) (url : String)
    (d : Nat) (ops : List Op) (r : Runtime) (t : List Effect)
    (h : exec parse (Runtime.init url d) ops = .ok (r, t)) :
    (∀ e ∈ r.client.pending, 1 ≤ e.1) ∧
    (∀ idv : JsVal, idv.truthy = false →
      r.client.pending.has idv = false ∧ ∀ e ∈ r.client.pending, idv ≠ .num (e.1 : ℚ)) ∧
    (∀ (raw : String) (fields : List (String × JsVal)) (k : Nat),
      parse raw = some (.obj fields) → lookupField "id" fields = some (.num (k : ℚ)) →
      (∃ e ∈ r.client.pending, e.1 = k) →
      (JsVal.num (k : ℚ)).truthy = true ∧
      ∃ r1 eff, step parse r (.message raw) = .ok (r1, [eff]) ∧
        r1.client.pending = r.client.pending.deleteKey k) := by
  obtain ⟨_, _, _, i4⟩ := exec_ok_Ids parse ops _ r t h (init_Ids url d)
  have hk : ∀ e ∈ r.client.pending, 1 ≤ e.1 := fun e he => (i4 e he).1
  refine ⟨hk, ?_, ?_⟩
  · intro idv hv
    refine ⟨has_false_of_falsy _ _ hk hv, ?_⟩
    intro e he heq
    have hhas : r.client.pending.has idv = true := by
      unfold PendingTable.has
      rw [List.any_eq_true]
      exact ⟨e, he, (keyMatches_iff _ _).2 heq⟩
    rw [has_false_of_falsy _ _ hk hv] at hhas
    cases hhas
  · intro raw fields k hp hid hpend
    have hk0 : k ≠ 0 := by
      obtain ⟨e, he, hek⟩ := hpend
      have := hk e he
      omega
    obtain ⟨pc, _, hres⟩ := handleMessage_match parse r.client raw fields k hp hid hk0 hpend
    have hne : ((k : ℕ) : ℚ) ≠ 0 := by exact_mod_cast hk0
    exact ⟨by simp [JsVal.truthy, hne], _, _, step_message_of parse r raw _ _ hres, rfl⟩

theorem truthiness_test_drops_no_pending_witness :
    exec sampleParse (Runtime.init "ws://ledger" 3000) [Op.wsOpen, Op.call "a" .null] =
      .ok (samplePending, [Effect.send 0 (requestPayload 1 "a" .null)]) ∧
    (∀ e ∈ samplePending.client.pending, 1 ≤ e.1) ∧
    (PendingTable.has samplePending.client.pending (.num 0) = false) ∧
    ∃ r1 eff,
      step sampleParse samplePending (.message "\x7b\"id\":1,\"result\":7\x7d") =
        .ok (r1, [eff]) ∧
      r1.client.pending = PendingTable.deleteKey samplePending.client.pending 1 :=
  have h := truthiness_test_drops_no_pending sampleParse "ws://ledger" 3000
    [Op.wsOpen, Op.call "a" .null] samplePending
    [Effect.send 0 (requestPayload 1 "a" .null)] rfl
  ⟨rfl, h.1, (h.2.1 (.num 0) (by simp [JsVal.truthy])).1,
    (h.2.2 "\x7b\"id\":1,\"result\":7\x7d" [("id", .num 1), ("result", .num 7)] 1 rfl
      (by simp [lookupField]) ⟨_, List.mem_singleton.2 rfl, rfl⟩).2⟩

/-! ## Settlement by a response -/

/-- C13 (as stated, refuted): the envelope with id 1 and the error payload
`0` arrives while call 1 is pending; the call is resolved (with `undefined`,
the envelope having no `result`) and not rejected with the payload. -/
theorem falsy_error_payload_resolves :
    sampleParseMore "\x7b\"id\":1,\"error\":0\x7d" =
      some (.obj [("id", .num 1), ("error", .num 0)]) ∧
    (∃ e ∈ samplePending.client.pending, e = (1, { resolve := 0, reject := 0 })) ∧
    step sampleParseMore samplePending (.message "\x7b\"id\":1,\"error\":0\x7d") =
      .ok ({ samplePending with client := { samplePending.client with pending := [] } },
        [Effect.resolve 0 .undefined]) := by
  refine ⟨rfl, ⟨_, List.mem_singleton.2 rfl, rfl⟩, ?_⟩
  simp [step, LedgerRpcClient._handleMessage, sampleParseMore, JsVal.getProp, lookupField,
    samplePending, JsVal.truthy, PendingTable.has, PendingTable.get, PendingTable.delete,
    keyMatches]

/-- C13 (amended): in every state reached from construction, for every
pending call and every response envelope bearing its id: when the `error`
value of the envelope is truthy (as every object is), the `reject` callback
of that call is invoked with exactly that value and `resolve` is not;
otherwise (no `error`, or an `error` that is `null`, `false`, `0` or the
empty string) the `resolve` callback is invoked with exactly the `result`
value of the envelope; in both cases the entry is removed from the table. -/
theorem response_settles_pending_call (parse : String → Option JsVal) (url : String) (d : Nat)
    (ops : List Op) (r : Runtime) (t : List Effect) (raw : String)
    (fields : List (String × JsVal)) (k : Nat)
    (h : exec parse (Runtime.init url d) ops = .ok (r, t))
    (hp : parse raw = some (.obj fields))
    (hid : lookupField "id" fields = some (.num (k : ℚ)))
    (hpend : ∃ e ∈ r.client.pending, e.1 = k) :
    ∃ pc r1 eff, (k, pc) ∈ r.client.pending ∧
      (∀ pc2, (k, pc2) ∈ r.client.pending → pc2 = pc) ∧
      step parse r (.message raw) = .ok (r1, [eff]) ∧
      (((lookupField "error" fields).getD .undefined).truthy = true →
        eff = Effect.reject pc.reject ((lookupField "error" fields).getD .undefined)) ∧
      (((lookupField "error" fields).getD .undefined).truthy = false →
        eff = Effect.resolve pc.resolve ((lookupField "result" fields).getD .undefined)) ∧
      r1.client.pending = r.client.pending.deleteKey k ∧
      r1.client.pending.has (.num (k : ℚ)) = false ∧
      r1.client.nextId = r.client.nextId := by
  obtain ⟨_, _, i3, i4⟩ := exec_ok_Ids parse ops _ r t h (init_Ids url d)
  have hk0 : k ≠ 0 := by
    obtain ⟨e, he, hek⟩ := hpend
    have := (i4 e he).1
    omega
  obtain ⟨pc, hmem, hres⟩ := handleMessage_match parse r.client raw fields k hp hid hk0 hpend
  refine ⟨pc, _, _, hmem, fun pc2 h2 => entry_unique _ k pc2 pc i3 h2 hmem,
    step_message_of parse r raw _ _ hres, ?_, ?_, rfl, has_deleteKey _ _, rfl⟩
  · intro ht
    simp [ht]
  · intro hf
    simp [hf]

theorem response_settles_pending_call_witness :
    exec sampleParseMore (Runtime.init "ws://ledger" 3000) [Op.wsOpen, Op.call "a" .null] =
      .ok (samplePending, [Effect.send 0 (requestPayload 1 "a" .null)]) ∧
    ∃ pc r1 eff, (1, pc) ∈ samplePending.client.pending ∧
      (∀ pc2, (1, pc2) ∈ samplePending.client.pending → pc2 = pc) ∧
      step sampleParseMore samplePending
          (.message "\x7b\"id\":1,\"error\":\x7b\"code\":5\x7d\x7d") = .ok (r1, [eff]) ∧
      ((JsVal.obj [("code", .num 5)]).truthy = true →
        eff = Effect.reject pc.reject (.obj [("code", .num 5)])) ∧
      ((JsVal.obj [("code", .num 5)]).truthy = false →
        eff = Effect.resolve pc.resolve .undefined) ∧
      r1.client.pending = PendingTable.deleteKey samplePending.client.pending 1 ∧
      r1.client.pending.has (.num ((1 : Nat) : ℚ)) = false ∧
      r1.client.nextId = 2 :=
  ⟨rfl, response_settles_pending_call sampleParseMore "ws://ledger" 3000
    [Op.wsOpen, Op.call "a" .null] samplePending
    [Effect.send 0 (requestPayload 1 "a" .null)]
    "\x7b\"id\":1,\"error\":\x7b\"code\":5\x7d\x7d"
    [("id", .num 1), ("error", .obj [("code", .num 5)])] 1 rfl rfl
    (by simp [lookupField]) ⟨_, List.mem_singleton.2 rfl, rfl⟩⟩

/-! ## Decision dispatch with optional sinks -/

theorem submitFrame_obj (o : EvolutionOrchestrator) (frame : EvolutionFrame)
    (fields : List (String × JsVal)) :
    o.submitFrame frame (.ok (.obj fields)) =
      ((if ((lookupField "verdict" fields).getD .undefined).isStr "Safe" = true then
          (if o.uiSink = true then
            [SinkCall.notify (.obj [("type", .str "evolution_safe"),
              ("frame_id", frame.frame_id),
              ("applied_deltas", (lookupField "applied_deltas" fields).getD .undefined)])]
          else []) ++ (if o.hapticSink = true then [SinkCall.pulse "success"] else [])
        else if ((lookupField "verdict" fields).getD .undefined).isStr "Defer" = true then
          (if o.uiSink = true then
            [SinkCall.notify (.obj [("type", .str "evolution_defer"),
              ("frame_id", frame.frame_id)])]
          else []) ++ (if o.hapticSink = true then [SinkCall.pulse "neutral"] else [])
        else if ((lookupField "verdict" fields).getD .undefined).isStr "DenyHardStop" = true then
          (if o.uiSink = true then
            [SinkCall.notify (.obj [("type", .str "evolution_denied"),
              ("frame_id", frame.frame_id)])]
          else []) ++ (if o.hapticSink = true then [SinkCall.pulse "alert"] else [])
        else []),
       SubmitResult.fulfilled (.obj fields)) := by
  rcases o with ⟨host, ui, hap⟩
  simp only [EvolutionOrchestrator.submitFrame, JsVal.getProp,
    EvolutionOrchestrator._onSafe, EvolutionOrchestrator._onDefer,
    EvolutionOrchestrator._onDenyHardStop]
  cases ui <;> cases hap <;>
    cases ((lookupField "verdict" fields).getD .undefined).isStr "Safe" <;>
    cases ((lookupField "verdict" fields).getD .undefined).isStr "Defer" <;>
    cases ((lookupField "verdict" fields).getD .undefined).isStr "DenyHardStop" <;> simp

theorem submitFrame_not_obj (o : EvolutionOrchestrator) (frame : EvolutionFrame)
    (decision : JsVal) (hn : decision ≠ .null) (hu : decision ≠ .undefined)
    (ho : ∀ fields, decision ≠ .obj fields) :
    o.submitFrame frame (.ok decision) = ([], SubmitResult.fulfilled decision) := by
  cases decision with
  | null => exact absurd rfl hn
  | undefined => exact absurd rfl hu
  | obj fields => exact absurd rfl (ho fields)
  | _ => simp [EvolutionOrchestrator.submitFrame, JsVal.getProp, JsVal.isStr]

theorem submitFrame_nullish (o : EvolutionOrchestrator) (frame : EvolutionFrame)
    (decision : JsVal) (h : decision = .null ∨ decision = .undefined) :
    o.submitFrame frame (.ok decision) = ([], SubmitResult.threw JsError.typeError) := by
  rcases h with h | h <;> subst h <;> simp [EvolutionOrchestrator.submitFrame, JsVal.getProp]

/-- C12 (as stated, refuted): the ledger call can resolve with `null` (a
response whose `result` is `null`), and for that decision `submitFrame`
does not return the decision: the read of `decision.verdict` throws a
`TypeError`. -/
theorem submitFrame_null_decision_throws :
    step sampleParseMore samplePending (.message "\x7b\"id\":1,\"result\":null\x7d") =
      .ok ({ samplePending with client := { samplePending.client with pending := [] } },
        [Effect.resolve 0 .null]) ∧
    sampleOrchestrator.submitFrame sampleFrame (.ok .null) =
      ([], SubmitResult.threw JsError.typeError) ∧
    (sampleOrchestrator.submitFrame sampleFrame (.ok .null)).2 ≠ SubmitResult.fulfilled .null := by
  refine ⟨?_, rfl, ?_⟩
  · simp [step, LedgerRpcClient._handleMessage, sampleParseMore, JsVal.getProp, lookupField,
      samplePending, JsVal.truthy, PendingTable.has, PendingTable.get, PendingTable.delete,
      keyMatches]
  · intro h
    cases h

/-- C12 (amended): for every decision other than `null` and `undefined`
that the ledger call resolves with, and for each combination of `uiSink`
and `hapticSink` being present or absent, `submitFrame` returns that
decision unchanged, and the calls made on a sink that is present are the
calls made on it when both sinks are present; an absent sink gets none. -/
theorem submitFrame_returns_decision (o : EvolutionOrchestrator) (frame : EvolutionFrame)
    (decision : JsVal) (hn : decision ≠ .null) (hu : decision ≠ .undefined) :
    (o.submitFrame frame (.ok decision)).2 = SubmitResult.fulfilled decision ∧
    notifyCalls (o.submitFrame frame (.ok decision)).1 =
      (if o.uiSink = true then
        notifyCalls (({ o with uiSink := true, hapticSink := true } :
          EvolutionOrchestrator).submitFrame frame (.ok decision)).1
      else []) ∧
    pulseCalls (o.submitFrame frame (.ok decision)).1 =
      (if o.hapticSink = true then
        pulseCalls (({ o with uiSink := true, hapticSink := true } :
          EvolutionOrchestrator).submitFrame frame (.ok decision)).1
      else []) := by
  by_cases ho : ∃ fields, decision = .obj fields
  · obtain ⟨fields, hf⟩ := ho
    subst hf
    rw [submitFrame_obj, submitFrame_obj]
    rcases o with ⟨host, ui, hap⟩
    refine ⟨rfl, ?_, ?_⟩ <;>
      cases ui <;> cases hap <;>
      cases ((lookupField "verdict" fields).getD .undefined).isStr "Safe" <;>
      cases ((lookupField "verdict" fields).getD .undefined).isStr "Defer" <;>
      cases ((lookupField "verdict" fields).getD .undefined).isStr "DenyHardStop" <;>
      simp [notifyCalls, pulseCalls]
  · have ho2 : ∀ fields, decision ≠ .obj fields := fun fields hf => ho ⟨fields, hf⟩
    rw [submitFrame_not_obj o frame decision hn hu ho2,
      submitFrame_not_obj _ frame decision hn hu ho2]
    refine ⟨rfl, ?_, ?_⟩
    · cases o.uiSink <;> simp [notifyCalls]
    · cases o.hapticSink <;> simp [pulseCalls]

theorem submitFrame_returns_decision_witness :
    (({ hostId := .str "host", uiSink := false, hapticSink := true } :
        EvolutionOrchestrator).submitFrame sampleFrame
      (.ok (.obj [("verdict", .str "DenyHardStop")]))).2 =
      SubmitResult.fulfilled (.obj [("verdict", .str "DenyHardStop")]) ∧
    notifyCalls (({ hostId := .str "host", uiSink := false, hapticSink := true } :
        EvolutionOrchestrator).submitFrame sampleFrame
      (.ok (.obj [("verdict", .str "DenyHardStop")]))).1 = [] ∧
    pulseCalls (({ hostId := .str "host", uiSink := false, hapticSink := true } :
        EvolutionOrchestrator).submitFrame sampleFrame
      (.ok (.obj [("verdict", .str "DenyHardStop")]))).1 =
      pulseCalls (sampleOrchestrator.submitFrame sampleFrame
        (.ok (.obj [("verdict", .str "DenyHardStop")]))).1 :=
  submitFrame_returns_decision { hostId := .str "host", uiSink := false, hapticSink := true }
    sampleFrame (.obj [("verdict", .str "DenyHardStop")]) (by simp) (by simp)

/-! ## Context messages by kind -/

theorem handleContextMessage_lane_suggestion {W C T P : Type} (ffi : Ffi W C T P)
    (coerce : JsVal → JNum) (st : LanesState W C) (nowMs : Nat)
    (fields : List (String × JsVal))
    (hty : lookupField "type" fields = some (.str "lane_suggestion")) :
    handleContextMessage ffi coerce st nowMs (.obj fields) =
      (.ok ({ st with
              world := ffi.scheduler_handle_context_event st.world
                ({ kind := (lookupField "kind" fields).getD .undefined
                   issued_by :=
                     if ((lookupField "issuer" fields).getD .undefined).truthy = true then
                       (lookupField "issuer" fields).getD .undefined
                     else .str "unknown"
                   signature_valid :=
                     ((lookupField "signature_valid" fields).getD .undefined).truthy
                   received_at_ms := nowMs } : ContextEvent) },
          [TurnEvent.handleContextEvent
            ({ kind := (lookupField "kind" fields).getD .undefined
               issued_by :=
                 if ((lookupField "issuer" fields).getD .undefined).truthy = true then
                   (lookupField "issuer" fields).getD .undefined
                 else .str "unknown"
               signature_valid :=
                 ((lookupField "signature_valid" fields).getD .undefined).truthy
               received_at_ms := nowMs } : ContextEvent)]) :
        Except JsError (LanesState W C × List (TurnEvent C T P))) := by
  simp [handleContextMessage, JsVal.getProp, hty, JsVal.isStr]

theorem handleContextMessage_other {W C T P : Type} (ffi : Ffi W C T P)
    (coerce : JsVal → JNum) (st : LanesState W C) (nowMs : Nat) (msg ty : JsVal)
    (hty : msg.getProp "type" = .ok ty) (h1 : ty ≠ .str "lane_suggestion")
    (h2 : ty ≠ .str "env_summary") :
    handleContextMessage ffi coerce st nowMs msg =
      (.ok (st, []) : Except JsError (LanesState W C × List (TurnEvent C T P))) := by
  have f1 : ty.isStr "lane_suggestion" = false := by
    cases hs : ty.isStr "lane_suggestion" with
    | false => rfl
    | true => exact absurd ((isStr_iff _ _).1 hs) h1
  have f2 : ty.isStr "env_summary" = false := by
    cases hs : ty.isStr "env_summary" with
    | false => rfl
    | true => exact absurd ((isStr_iff _ _).1 hs) h2
  simp [handleContextMessage, hty, f1, f2]

theorem getProp_str_obj (msg : JsVal) (k s : String) (h : msg.getProp k = .ok (.str s)) :
    ∃ fields, msg = .obj fields ∧ lookupField k fields = some (.str s) := by
  cases msg with
  | obj fields =>
    refine ⟨fields, rfl, ?_⟩
    simp only [JsVal.getProp] at h
    injection h with h
    cases hl : lookupField k fields with
    | none => rw [hl] at h; cases h
    | some v => rw [hl] at h; simp at h; rw [h]
  | undefined => cases h
  | null => cases h
  | _ => simp only [JsVal.getProp] at h; injection h with h; cases h

theorem clamp01_zero : clamp01 (.fin 0) = .fin 0 := by
  rw [clamp01_fin]
  norm_num

theorem normalizeDeg_zero : normalizeDeg (.fin 0) = .fin 0 :=
  normalizeDeg_unique_nonneg 0 0 0 (by norm_num) (by norm_num) (by norm_num) (by norm_num)

/-- C14: for every `env_summary` message, the snapshot stored by
`handleContextMessage` is the same whatever the previous state (snapshot
included) and the clock reading were: each of the four fields is computed
from the message's field of the same name, and a field missing from the
message is stored as 0. -/
theorem snapshot_replaced_wholesale {W C T P : Type} (ffi : Ffi W C T P)
    (coerce : JsVal → JNum) (st st2 : LanesState W C) (nowMs nowMs2 : Nat)
    (fields : List (String × JsVal))
    (hty : lookupField "type" fields = some (.str "env_summary")) :
    ∃ s1 s2,
      handleContextMessage ffi coerce st nowMs (.obj fields) =
        (.ok (s1, []) : Except JsError (LanesState W C × List (TurnEvent C T P))) ∧
      handleContextMessage ffi coerce st2 nowMs2 (.obj fields) =
        (.ok (s2, []) : Except JsError (LanesState W C × List (TurnEvent C T P))) ∧
      s1.latestNavigationContext = s2.latestNavigationContext ∧
      s1.latestNavigationContext =
        { obstacle_density := clamp01 (toNumber coerce
            (((lookupField "obstacle_density" fields).getD .undefined).orElse (.num 0)))
          ambient_noise := clamp01 (toNumber coerce
            (((lookupField "ambient_noise" fields).getD .undefined).orElse (.num 0)))
          crowd_pressure := clamp01 (toNumber coerce
            (((lookupField "crowd_pressure" fields).getD .undefined).orElse (.num 0)))
          requested_heading_deg := normalizeDeg (toNumber coerce
            (((lookupField "requested_heading_deg" fields).getD .undefined).orElse
              (.num 0))) } ∧
      (lookupField "obstacle_density" fields = none →
        s1.latestNavigationContext.obstacle_density = .fin 0) ∧
      (lookupField "ambient_noise" fields = none →
        s1.latestNavigationContext.ambient_noise = .fin 0) ∧
      (lookupField "crowd_pressure" fields = none →
        s1.latestNavigationContext.crowd_pressure = .fin 0) ∧
      (lookupField "requested_heading_deg" fields = none →
        s1.latestNavigationContext.requested_heading_deg = .fin 0) := by
  refine ⟨_, _, handleContextMessage_env_summary ffi coerce st nowMs fields hty,
    handleContextMessage_env_summary ffi coerce st2 nowMs2 fields hty, rfl, rfl, ?_, ?_, ?_, ?_⟩
  · intro h
    simp only [h, Option.getD_none, JsVal.orElse, toNumber]
    exact clamp01_zero
  · intro h
    simp only [h, Option.getD_none, JsVal.orElse, toNumber]
    exact clamp01_zero
  · intro h
    simp only [h, Option.getD_none, JsVal.orElse, toNumber]
    exact clamp01_zero
  · intro h
    simp only [h, Option.getD_none, JsVal.orElse, toNumber]
    exact normalizeDeg_zero

theorem snapshot_replaced_wholesale_witness :
    ∃ s1 s2,
      handleContextMessage sampleFfi sampleCoerce sampleLanes 0 (.obj sampleHeadingOnly) =
        .ok (s1, []) ∧
      handleContextMessage sampleFfi sampleCoerce sampleLanesLater 9 (.obj sampleHeadingOnly) =
        .ok (s2, []) ∧
      s1.latestNavigationContext = s2.latestNavigationContext ∧
      s2.latestNavigationContext.obstacle_density = .fin 0 ∧
      s2.latestNavigationContext.ambient_noise = .fin 0 ∧
      s2.latestNavigationContext.crowd_pressure = .fin 0 := by
  obtain ⟨s1, s2, h1, h2, heq, _, ha, hb, hc, _⟩ :=
    snapshot_replaced_wholesale sampleFfi sampleCoerce sampleLanes sampleLanesLater 0 9
      sampleHeadingOnly rfl
  exact ⟨s1, s2, h1, h2, heq, by rw [← heq]; exact ha rfl, by rw [← heq]; exact hb rfl,
    by rw [← heq]; exact hc rfl⟩

/-- C15: `handleContextMessage` on a message whose `type` can be read: a
`lane_suggestion` forwards exactly one event to the scheduler and changes
nothing else of the module state (the snapshot included); an `env_summary`
forwards nothing and changes only the snapshot; any other `type` value
leaves the whole state unchanged and forwards nothing; in every case
`consentNavigation` and `safetyState` are unchanged. -/
theorem message_kinds_update_disjoint_state {W C T P : Type} (ffi : Ffi W C T P)
    (coerce : JsVal → JNum) (st : LanesState W C) (nowMs : Nat) (msg ty : JsVal)
    (hty : msg.getProp "type" = .ok ty) :
    (ty = .str "lane_suggestion" → ∃ ev : ContextEvent,
      handleContextMessage ffi coerce st nowMs msg =
        (.ok ({ st with world := ffi.scheduler_handle_context_event st.world ev },
            [TurnEvent.handleContextEvent ev]) :
          Except JsError (LanesState W C × List (TurnEvent C T P)))) ∧
    (ty = .str "env_summary" → ∃ ctx : NavigationContext,
      handleContextMessage ffi coerce st nowMs msg =
        (.ok ({ st with latestNavigationContext := ctx }, []) :
          Except JsError (LanesState W C × List (TurnEvent C T P)))) ∧
    (ty ≠ .str "lane_suggestion" → ty ≠ .str "env_summary" →
      handleContextMessage ffi coerce st nowMs msg =
        (.ok (st, []) : Except JsError (LanesState W C × List (TurnEvent C T P)))) ∧
    (∃ (st1 : LanesState W C) (tr : List (TurnEvent C T P)),
      handleContextMessage ffi coerce st nowMs msg = .ok (st1, tr) ∧
      st1.consentNavigation = st.consentNavigation ∧ st1.safetyState = st.safetyState) := by
  have hlane : ty = .str "lane_suggestion" → ∃ ev : ContextEvent,
      handleContextMessage ffi coerce st nowMs msg =
        (.ok ({ st with world := ffi.scheduler_handle_context_event st.world ev },
            [TurnEvent.handleContextEvent ev]) :
          Except JsError (LanesState W C × List (TurnEvent C T P))) := by
    intro h
    rw [h] at hty
    obtain ⟨fields, hm, hf⟩ := getProp_str_obj msg _ _ hty
    subst hm
    exact ⟨_, handleContextMessage_lane_suggestion ffi coerce st nowMs fields hf⟩
  have henv : ty = .str "env_summary" → ∃ ctx : NavigationContext,
      handleContextMessage ffi coerce st nowMs msg =
        (.ok ({ st with latestNavigationContext := ctx }, []) :
          Except JsError (LanesState W C × List (TurnEvent C T P))) := by
    intro h
    rw [h] at hty
    obtain ⟨fields, hm, hf⟩ := getProp_str_obj msg _ _ hty
    subst hm
    exact ⟨_, handleContextMessage_env_summary ffi coerce st nowMs fields hf⟩
  refine ⟨hlane, henv, handleContextMessage_other ffi coerce st nowMs msg ty hty, ?_⟩
  by_cases h1 : ty = .str "lane_suggestion"
  · obtain ⟨ev, h⟩ := hlane h1
    exact ⟨_, _, h, rfl, rfl⟩
  · by_cases h2 : ty = .str "env_summary"
    · obtain ⟨ctx, h⟩ := henv h2
      exact ⟨_, _, h, rfl, rfl⟩
    · exact ⟨_, _, handleContextMessage_other ffi coerce st nowMs msg ty hty h1 h2, rfl, rfl⟩

theorem message_kinds_update_disjoint_state_witness :
    (JsVal.obj sampleSuggestion).getProp "type" = .ok (.str "lane_suggestion") ∧
    ∃ ev : ContextEvent,
      handleContextMessage sampleFfi sampleCoerce sampleLanesLater 1000
          (.obj sampleSuggestion) =
        .ok ({ sampleLanesLater with world := 8 }, [TurnEvent.handleContextEvent ev]) :=
  ⟨rfl, (message_kinds_update_disjoint_state sampleFfi sampleCoerce sampleLanesLater 1000
    (.obj sampleSuggestion) (.str "lane_suggestion") rfl).1 rfl⟩

/-- C17 (as stated, refuted): for a `lane_suggestion` message that names no
issuer, the forwarded event's `issued_by` is the string "unknown", which is
not the message's issuer (`undefined`). -/
theorem missing_issuer_becomes_unknown :
    (JsVal.obj sampleSuggestion).getProp "issuer" = .ok .undefined ∧
    handleContextMessage sampleFfi sampleCoerce sampleLanes 1000 (.obj sampleSuggestion) =
      .ok ({ sampleLanes with world := 1 },
        [TurnEvent.handleContextEvent
          { kind := .str "NavigationSuggested", issued_by := .str "unknown",
            signature_valid := true, received_at_ms := 1000 }]) ∧
    JsVal.str "unknown" ≠ JsVal.undefined := by
  refine ⟨rfl, ?_, ?_⟩
  · rw [handleContextMessage_lane_suggestion sampleFfi sampleCoerce sampleLanes 1000
      sampleSuggestion rfl]
    rfl
  · intro h
    cases h

/-- C17 (amended): for every `lane_suggestion` message, exactly one event
is forwarded to the scheduler, with the fields `kind`, `issued_by`,
`signature_valid` and `received_at_ms`: `kind` is the message's `kind`,
`issued_by` is the message's `issuer` when that is truthy and the string
"unknown" otherwise, `signature_valid` is the truthiness of the message's
`signature_valid`, and `received_at_ms` is the clock reading at receipt,
whatever the message contains besides. -/
theorem lane_suggestion_event_fields {W C T P : Type} (ffi : Ffi W C T P)
    (coerce : JsVal → JNum) (st : LanesState W C) (nowMs : Nat)
    (fields : List (String × JsVal))
    (hty : lookupField "type" fields = some (.str "lane_suggestion")) :
    ∃ ev : ContextEvent,
      handleContextMessage ffi coerce st nowMs (.obj fields) =
        (.ok ({ st with world := ffi.scheduler_handle_context_event st.world ev },
            [TurnEvent.handleContextEvent ev]) :
          Except JsError (LanesState W C × List (TurnEvent C T P))) ∧
      ev.kind = (lookupField "kind" fields).getD .undefined ∧
      (((lookupField "issuer" fields).getD .undefined).truthy = true →
        ev.issued_by = (lookupField "issuer" fields).getD .undefined) ∧
      (((lookupField "issuer" fields).getD .undefined).truthy = false →
        ev.issued_by = .str "unknown") ∧
      ev.signature_valid = ((lookupField "signature_valid" fields).getD .undefined).truthy ∧
      ev.received_at_ms = nowMs := by
  refine ⟨_, handleContextMessage_lane_suggestion ffi coerce st nowMs fields hty, rfl, ?_, ?_,
    rfl, rfl⟩
  · intro h
    simp [h]
  · intro h
    simp [h]

theorem lane_suggestion_event_fields_witness :
    ∃ ev : ContextEvent,
      handleContextMessage sampleFfi sampleCoerce sampleLanes 1000 (.obj sampleSuggestion) =
        .ok ({ sampleLanes with world := 1 }, [TurnEvent.handleContextEvent ev]) ∧
      ev.kind = .str "NavigationSuggested" ∧ ev.issued_by = .str "unknown" ∧
      ev.signature_valid = true ∧ ev.received_at_ms = 1000 := by
  obtain ⟨ev, h, hk, _, hu, hs, hr⟩ :=
    lane_suggestion_event_fields sampleFfi sampleCoerce sampleLanes 1000 sampleSuggestion rfl
  exact ⟨ev, h, hk, hu rfl, hs, hr⟩

/-! ## The sequence of collaborator calls of a turn -/

theorem collaboratorCalls_append {C T P : Type} (a b : List (TurnEvent C T P)) :
    collaboratorCalls (a ++ b) = collaboratorCalls a ++ collaboratorCalls b := by
  unfold collaboratorCalls
  exact List.filter_append a b

theorem gateAsked_collaboratorCalls {C T P : Type} (tr : List (TurnEvent C T P)) :
    gateAsked (collaboratorCalls tr) = gateAsked tr := by
  induction tr with
  | nil => rfl
  | cons e rest ih =>
    cases e <;> simp [collaboratorCalls, TurnEvent.isLog, gateAsked] <;>
      simpa [collaboratorCalls] using ih

theorem actuatorCalled_collaboratorCalls {C T P : Type} (tr : List (TurnEvent C T P)) :
    actuatorCalled (collaboratorCalls tr) = actuatorCalled tr := by
  induction tr with
  | nil => rfl
  | cons e rest ih =>
    cases e <;> simp [collaboratorCalls, TurnEvent.isLog, actuatorCalled] <;>
      simpa [collaboratorCalls] using ih

theorem gateAllowed_collaboratorCalls {C T P : Type} (tr : List (TurnEvent C T P)) :
    gateAllowed (collaboratorCalls tr) = gateAllowed tr := by
  induction tr with
  | nil => rfl
  | cons e rest ih =>
    cases e with
    | tryApplyToken n c t allowed =>
      cases allowed <;> simp [collaboratorCalls, TurnEvent.isLog, gateAllowed] <;>
        simpa [collaboratorCalls] using ih
    | _ =>
      simp [collaboratorCalls, TurnEvent.isLog, gateAllowed]
      simpa [collaboratorCalls] using ih

theorem applyTokens_calls {W C T P : Type} (ffi : Ffi W C T P) (nowMs : Nat) (consent : C)
    (tokens : List T) :
    ∀ w, ∀ e ∈ collaboratorCalls (applyTokens ffi nowMs consent w tokens).2,
      (∃ t a, e = TurnEvent.tryApplyToken nowMs consent t a) ∨
      (∃ t res, e = TurnEvent.applyToken t res) := by
  induction tokens with
  | nil => intro w e he; simp [applyTokens, collaboratorCalls] at he
  | cons token rest ih =>
    intro w e he
    simp only [applyTokens] at he
    cases hg : (ffi.scheduler_try_apply_token w nowMs consent token).2 with
    | false =>
      simp only [hg, Bool.not_false, if_true, collaboratorCalls, List.filter_cons,
        TurnEvent.isLog, Bool.not_true, Bool.false_eq_true, if_false, List.mem_cons] at he
      rcases he with h | h
      · exact Or.inl ⟨_, _, h⟩
      · exact ih _ e h
    | true =>
      simp only [hg, Bool.not_true, Bool.false_eq_true, if_false] at he
      cases ha : (ffi.nav_adapter_apply_token
          (ffi.scheduler_try_apply_token w nowMs consent token).1 token).2.ok with
      | false =>
        simp only [ha, Bool.not_false, if_true, collaboratorCalls, List.filter_cons,
          TurnEvent.isLog, Bool.not_true, Bool.false_eq_true, if_false, List.mem_cons] at he
        rcases he with h | h | h
        · exact Or.inl ⟨_, _, h⟩
        · exact Or.inr ⟨_, _, h⟩
        · exact ih _ e h
      | true =>
        simp only [ha, Bool.not_true, Bool.false_eq_true, if_false, collaboratorCalls,
          List.filter_cons, TurnEvent.isLog, Bool.not_false, if_true, List.mem_cons] at he
        rcases he with h | h | h
        · exact Or.inl ⟨_, _, h⟩
        · exact Or.inr ⟨_, _, h⟩
        · exact ih _ e h

theorem applyTokens_calls_eq_spec {W C T P : Type} (ffi : Ffi W C T P) (nowMs : Nat)
    (consent : C) (tokens : List T) :
    ∀ w, collaboratorCalls (applyTokens ffi nowMs consent w tokens).2 =
      specPerTokenCalls ffi nowMs consent w tokens := by
  induction tokens with
  | nil => intro w; rfl
  | cons token rest ih =>
    intro w
    cases hg : ffi.scheduler_try_apply_token w nowMs consent token with
    | mk w1 allowed =>
      cases allowed with
      | false =>
        simp only [applyTokens, specPerTokenCalls, hg, Bool.not_false, if_true]
        simp only [collaboratorCalls, List.filter_cons, TurnEvent.isLog, Bool.not_true,
          Bool.not_false, Bool.false_eq_true, if_true, if_false]
        exact congrArg _ (ih w1)
      | true =>
        cases ha : (ffi.nav_adapter_apply_token w1 token).2.ok with
        | false =>
          simp only [applyTokens, specPerTokenCalls, hg, ha, Bool.not_true, Bool.not_false,
            Bool.false_eq_true, if_true, if_false]
          simp only [collaboratorCalls, List.filter_cons, TurnEvent.isLog, Bool.not_true,
            Bool.not_false, Bool.false_eq_true, if_true, if_false]
          exact congrArg _ (congrArg _ (ih _))
        | true =>
          simp only [applyTokens, specPerTokenCalls, hg, ha, Bool.not_true, Bool.not_false,
            Bool.false_eq_true, if_true, if_false]
          simp only [collaboratorCalls, List.filter_cons, TurnEvent.isLog, Bool.not_true,
            Bool.not_false, Bool.false_eq_true, if_true, if_false]
          exact congrArg _ (congrArg _ (ih _))

theorem runEvolutionTurn_trace_at {W C T P : Type} (ffi : Ffi W C T P) (st : LanesState W C)
    (nowMs : Nat) :
    ∃ (params updatedParams : P),
      (runEvolutionTurn ffi st nowMs).2 =
        [TurnEvent.maybeRotateTurn nowMs, TurnEvent.setSafetyState st.safetyState,
          TurnEvent.readParams, TurnEvent.logParamsBefore params,
          TurnEvent.proposeTokens nowMs st.latestNavigationContext 4] ++
        (applyTokens ffi nowMs st.consentNavigation (loopWorld ffi st nowMs)
          (proposedTokens ffi st nowMs)).2 ++
        [TurnEvent.readParams, TurnEvent.logParamsAfter updatedParams] :=
  ⟨_, _, rfl⟩

/-- C16: the calls on collaborators made by one `runEvolutionTurn` are, as
a list and in order, exactly `maybeRotateTurn(now)`,
`setSafetyState(safetyState)`, `readParams`, `proposeTokens(now, context, 4)`
with `context` equal to the latest snapshot, then for each proposed token in
order its gate call `tryApplyToken(now, consent, token)` followed by its
actuator call when the gate allowed it, then `readParams`, and nothing else;
every gate call is made with the same `now` and with the current consent
state; the gate is asked about the proposed tokens in order and the actuator
is called on the allowed ones.  For the sample collaborators (tokens 1 to 4,
token 2 denied, actuation of token 3 failing) the list is the twelve calls
written out. -/
theorem turn_call_sequence {W C T P : Type} (ffi : Ffi W C T P) (st : LanesState W C)
    (nowMs : Nat) :
    collaboratorCalls (runEvolutionTurn ffi st nowMs).2 =
      [TurnEvent.maybeRotateTurn nowMs, TurnEvent.setSafetyState st.safetyState,
        TurnEvent.readParams,
        TurnEvent.proposeTokens nowMs st.latestNavigationContext 4] ++
      specPerTokenCalls ffi nowMs st.consentNavigation (loopWorld ffi st nowMs)
        (proposedTokens ffi st nowMs) ++
      [TurnEvent.readParams] ∧
    (∀ e ∈ specPerTokenCalls ffi nowMs st.consentNavigation (loopWorld ffi st nowMs)
        (proposedTokens ffi st nowMs),
      (∃ t a, e = TurnEvent.tryApplyToken nowMs st.consentNavigation t a) ∨
      (∃ t res, e = TurnEvent.applyToken t res)) ∧
    gateAsked (specPerTokenCalls ffi nowMs st.consentNavigation (loopWorld ffi st nowMs)
      (proposedTokens ffi st nowMs)) = proposedTokens ffi st nowMs ∧
    actuatorCalled (specPerTokenCalls ffi nowMs st.consentNavigation (loopWorld ffi st nowMs)
      (proposedTokens ffi st nowMs)) =
      gateAllowed (specPerTokenCalls ffi nowMs st.consentNavigation (loopWorld ffi st nowMs)
        (proposedTokens ffi st nowMs)) ∧
    collaboratorCalls (runEvolutionTurn sampleFfi sampleLanes 1000).2 =
      [TurnEvent.maybeRotateTurn 1000, TurnEvent.setSafetyState .Green, TurnEvent.readParams,
        TurnEvent.proposeTokens 1000 NavigationContext.initial 4,
        TurnEvent.tryApplyToken 1000 () 1 true,
        TurnEvent.applyToken 1 { ok := true, err := .undefined },
        TurnEvent.tryApplyToken 1000 () 2 false,
        TurnEvent.tryApplyToken 1000 () 3 true,
        TurnEvent.applyToken 3 { ok := false, err := .str "busy" },
        TurnEvent.tryApplyToken 1000 () 4 true,
        TurnEvent.applyToken 4 { ok := true, err := .undefined },
        TurnEvent.readParams] := by
  obtain ⟨params, updatedParams, htr⟩ := runEvolutionTurn_trace_at ffi st nowMs
  have hp := applyTokens_calls_eq_spec ffi nowMs st.consentNavigation
    (proposedTokens ffi st nowMs) (loopWorld ffi st nowMs)
  have hloop := applyTokens_gate ffi nowMs st.consentNavigation (proposedTokens ffi st nowMs)
    (loopWorld ffi st nowMs)
  have hcalls := applyTokens_calls ffi nowMs st.consentNavigation (proposedTokens ffi st nowMs)
    (loopWorld ffi st nowMs)
  rw [hp] at hcalls
  refine ⟨?_, hcalls, ?_, ?_, ?_⟩
  · rw [htr, collaboratorCalls_append, collaboratorCalls_append, hp]
    rfl
  · rw [← hp, gateAsked_collaboratorCalls, hloop.1]
  · rw [← hp, actuatorCalled_collaboratorCalls, gateAllowed_collaboratorCalls, hloop.2]
  · rfl

/-! ## The trace of one context message -/

theorem handleContextMessage_trace {W C T P : Type} (ffi : Ffi W C T P)
    (coerce : JsVal → JNum) (st s1 : LanesState W C) (nowMs : Nat) (msg : JsVal)
    (tr : List (TurnEvent C T P))
    (h : handleContextMessage ffi coerce st nowMs msg = .ok (s1, tr)) :
    tr = [] ∨ ∃ ev, tr = [TurnEvent.handleContextEvent ev] := by
  cases hty : msg.getProp "type" with
  | error e =>
    simp [handleContextMessage, hty] at h
  | ok ty =>
    by_cases h1 : ty = .str "lane_suggestion"
    · rw [h1] at hty
      obtain ⟨fields, hm, hf⟩ := getProp_str_obj msg _ _ hty
      subst hm
      rw [handleContextMessage_lane_suggestion ffi coerce st nowMs fields hf] at h
      injection h with h; injection h with _ h2
      exact Or.inr ⟨_, h2.symm⟩
    · by_cases h2 : ty = .str "env_summary"
      · rw [h2] at hty
        obtain ⟨fields, hm, hf⟩ := getProp_str_obj msg _ _ hty
        subst hm
        rw [handleContextMessage_env_summary ffi coerce st nowMs fields hf] at h
        injection h with h; injection h with _ h3
        exact Or.inl h3.symm
      · rw [handleContextMessage_other ffi coerce st nowMs msg ty hty h1 h2] at h
        injection h with h; injection h with _ h3
        exact Or.inl h3.symm

/-! ## The id counter as a double -/

theorem doubleSucc_of_lt (n : Nat) (h : n < 2 ^ 53) : doubleSucc n = n + 1 := by
  unfold doubleSucc
  rw [if_pos h]

theorem doubleSucc_eq_min (n : Nat) (h : n ≤ 2 ^ 53) : doubleSucc n = min (n + 1) (2 ^ 53) := by
  unfold doubleSucc
  split <;> omega

theorem le_doubleSucc (n : Nat) : n ≤ doubleSucc n := by
  unfold doubleSucc
  split <;> omega

theorem callDouble_eq_call (c : LedgerRpcClient) (p : Nat) (m : String) (ps : JsVal)
    (h : c.nextId < 2 ^ 53) : c.callDouble p m ps = c.call p m ps := by
  unfold LedgerRpcClient.callDouble LedgerRpcClient.call
  rw [doubleSucc_of_lt _ h]

theorem stepDouble_eq_step (parse : String → Option JsVal) (r : Runtime) (op : Op)
    (h : r.client.nextId < 2 ^ 53) : stepDouble parse r op = step parse r op := by
  cases op with
  | call m ps => simp only [stepDouble, step, callDouble_eq_call _ _ _ _ h]
  | _ => rfl

theorem stepDouble_call_connected (parse : String → Option JsVal) (r : Runtime) (m : String)
    (ps : JsVal) (hc : r.client.connected = true) :
    stepDouble parse r (.call m ps) =
      .ok ({ client := { r.client with
                nextId := doubleSucc r.client.nextId
                pending := r.client.pending.set r.client.nextId
                  { resolve := r.promises, reject := r.promises } },
             promises := r.promises + 1, sockets := r.sockets,
             sendCallbacks := r.sendCallbacks ++ [(r.client.nextId, r.promises)] },
        [Effect.send r.client.ws (requestPayload r.client.nextId m ps)]) := by
  simp only [stepDouble, LedgerRpcClient.callDouble, hc]
  rfl

theorem stepDouble_call_not_connected (parse : String → Option JsVal) (r : Runtime)
    (m : String) (ps : JsVal) (hc : r.client.connected = false) :
    stepDouble parse r (.call m ps) = .ok (r, []) := by
  simp only [stepDouble, LedgerRpcClient.callDouble, hc]
  rfl

theorem step_nextId_le (parse : String → Option JsVal) (r r1 : Runtime) (op : Op)
    (t : List Effect) (hs : step parse r op = .ok (r1, t)) :
    r.client.nextId ≤ r1.client.nextId ∧
    ((∀ m ps, op ≠ .call m ps) → r1.client.nextId = r.client.nextId) := by
  obtain ⟨r2, t2, hs2, hcase⟩ := step_cases parse r op (step_ok_benign parse r op _ hs)
  rw [hs] at hs2
  have hr : r2 = r1 := by injection hs2 with h; injection h with h1 h2; exact h1.symm
  subst hr
  rcases hcase with ⟨⟨_, hn, _, _⟩, _⟩ | ⟨_, ⟨m, ps, hop⟩, _, hn, _, _, _⟩ |
      ⟨_, _, _, _, _, _, _, _, _, hn, _, _, _⟩ | ⟨_, _, _, _, _, _, _, hn, _, _, _⟩
  · exact ⟨by rw [hn], fun _ => hn⟩
  · exact ⟨by rw [hn]; omega, fun h => absurd hop (h m ps)⟩
  · exact ⟨by rw [hn], fun _ => hn⟩
  · exact ⟨by rw [hn], fun _ => hn⟩

theorem stepDouble_nextId (parse : String → Option JsVal) (r r1 : Runtime) (op : Op)
    (t : List Effect) (hs : stepDouble parse r op = .ok (r1, t)) :
    r.client.nextId ≤ r1.client.nextId ∧
    (r.client.nextId ≤ 2 ^ 53 → r1.client.nextId ≤ 2 ^ 53) := by
  cases op with
  | call m ps =>
    cases hc : r.client.connected with
    | false =>
      rw [stepDouble_call_not_connected parse r m ps hc] at hs
      injection hs with h; injection h with h1 h2
      rw [← h1]
      exact ⟨Nat.le_refl _, fun h => h⟩
    | true =>
      rw [stepDouble_call_connected parse r m ps hc] at hs
      injection hs with h; injection h with h1 h2
      rw [← h1]
      refine ⟨le_doubleSucc _, fun h => ?_⟩
      show doubleSucc r.client.nextId ≤ 2 ^ 53
      rw [doubleSucc_eq_min _ h]
      omega
  | message raw =>
    have hs2 : step parse r (.message raw) = .ok (r1, t) := hs
    have h := step_nextId_le parse r r1 _ t hs2
    exact ⟨h.1, fun hb => by rw [h.2 (fun m ps hop => by cases hop)]; exact hb⟩
  | sendDone n err =>
    have hs2 : step parse r (.sendDone n err) = .ok (r1, t) := hs
    have h := step_nextId_le parse r r1 _ t hs2
    exact ⟨h.1, fun hb => by rw [h.2 (fun m ps hop => by cases hop)]; exact hb⟩
  | wsOpen =>
    have hs2 : step parse r .wsOpen = .ok (r1, t) := hs
    have h := step_nextId_le parse r r1 _ t hs2
    exact ⟨h.1, fun hb => by rw [h.2 (fun m ps hop => by cases hop)]; exact hb⟩
  | wsClose =>
    have hs2 : step parse r .wsClose = .ok (r1, t) := hs
    have h := step_nextId_le parse r r1 _ t hs2
    exact ⟨h.1, fun hb => by rw [h.2 (fun m ps hop => by cases hop)]; exact hb⟩
  | wsError =>
    have hs2 : step parse r .wsError = .ok (r1, t) := hs
    have h := step_nextId_le parse r r1 _ t hs2
    exact ⟨h.1, fun hb => by rw [h.2 (fun m ps hop => by cases hop)]; exact hb⟩
  | reconnect =>
    have hs2 : step parse r .reconnect = .ok (r1, t) := hs
    have h := step_nextId_le parse r r1 _ t hs2
    exact ⟨h.1, fun hb => by rw [h.2 (fun m ps hop => by cases hop)]; exact hb⟩

theorem execDouble_cons_ok (parse : String → Option JsVal) (r r1 r2 : Runtime) (op : Op)
    (ops : List Op) (t1 t2 : List Effect) (h1 : stepDouble parse r op = .ok (r1, t1))
    (h2 : execDouble parse r1 ops = .ok (r2, t2)) :
    execDouble parse r (op :: ops) = .ok (r2, t1 ++ t2) := by
  simp only [execDouble, h1, h2]

theorem execDouble_cons_inv (parse : String → Option JsVal) (r r2 : Runtime) (op : Op)
    (ops : List Op) (t : List Effect) (h : execDouble parse r (op :: ops) = .ok (r2, t)) :
    ∃ r1 t1 t2, stepDouble parse r op = .ok (r1, t1) ∧
      execDouble parse r1 ops = .ok (r2, t2) ∧ t = t1 ++ t2 := by
  cases hs : stepDouble parse r op with
  | error e => simp only [execDouble, hs] at h; cases h
  | ok x =>
    obtain ⟨r1, t1⟩ := x
    cases hr : execDouble parse r1 ops with
    | error e => simp only [execDouble, hs, hr] at h; cases h
    | ok y =>
      obtain ⟨r3, t3⟩ := y
      simp only [execDouble, hs, hr] at h
      injection h with h; injection h with ha hb
      exact ⟨r1, t1, t3, rfl, by rw [← ha]; exact hr, hb.symm⟩

theorem execDouble_nextId (parse : String → Option JsVal) (ops : List Op) :
    ∀ (r r1 : Runtime) (t : List Effect), execDouble parse r ops = .ok (r1, t) →
      r.client.nextId ≤ r1.client.nextId ∧
      (r.client.nextId ≤ 2 ^ 53 → r1.client.nextId ≤ 2 ^ 53) := by
  induction ops with
  | nil =>
    intro r r1 t he
    simp only [execDouble] at he
    injection he with h; injection h with h1 h2
    rw [← h1]
    exact ⟨Nat.le_refl _, fun h => h⟩
  | cons op ops ih =>
    intro r r1 t he
    obtain ⟨r2, t2, t3, hs, hr, _⟩ := execDouble_cons_inv parse r r1 op ops t he
    have h1 := stepDouble_nextId parse r r2 op t2 hs
    have h2 := ih r2 r1 t3 hr
    exact ⟨Nat.le_trans h1.1 h2.1, fun hb => h2.2 (h1.2 hb)⟩

/-- A run of the client with the double counter that ends with `nextId`
below `2^53` is a run of the client with the integer counter. -/
theorem execDouble_eq_exec (parse : String → Option JsVal) (ops : List Op) :
    ∀ (r r1 : Runtime) (t : List Effect), execDouble parse r ops = .ok (r1, t) →
      r1.client.nextId < 2 ^ 53 → exec parse r ops = .ok (r1, t) := by
  induction ops with
  | nil =>
    intro r r1 t he _
    simpa only [execDouble, exec] using he
  | cons op ops ih =>
    intro r r1 t he hb
    obtain ⟨r2, t2, t3, hs, hr, ht⟩ := execDouble_cons_inv parse r r1 op ops t he
    have h2 := (execDouble_nextId parse ops r2 r1 t3 hr).1
    have h1 := (stepDouble_nextId parse r r2 op t2 hs).1
    rw [stepDouble_eq_step parse r op (by omega)] at hs
    rw [ht]
    exact exec_cons_ok parse r r2 r1 op ops t2 t3 hs (ih r2 r1 t3 hr hb)

theorem execDouble_append_ok (parse : String → Option JsVal) (a b : List Op) :
    ∀ (r r1 r2 : Runtime) (t1 t2 : List Effect), execDouble parse r a = .ok (r1, t1) →
      execDouble parse r1 b = .ok (r2, t2) →
      execDouble parse r (a ++ b) = .ok (r2, t1 ++ t2) := by
  induction a with
  | nil =>
    intro r r1 r2 t1 t2 h1 h2
    simp only [execDouble] at h1
    injection h1 with h; injection h with ha hb
    subst ha; subst hb
    simpa using h2
  | cons op ops ih =>
    intro r r1 r2 t1 t2 h1 h2
    obtain ⟨r3, t3, t4, hs, hr, ht⟩ := execDouble_cons_inv parse r r1 op ops t1 h1
    subst ht
    rw [List.cons_append, List.append_assoc]
    exact execDouble_cons_ok parse r r3 r2 op (ops ++ b) t3 (t4 ++ t2) hs
      (ih r3 r1 r2 t4 t2 hr h2)

/-- A run of `n` calls made while connected, with the double counter: the
ids given are `nextId`, `nextId + 1`, ... capped at `2^53`. -/
theorem execDouble_calls (parse : String → Option JsVal) (m : String) (ps : JsVal) (n : Nat) :
    ∀ (r : Runtime), r.client.connected = true → r.client.nextId ≤ 2 ^ 53 →
      ∃ r1 t, execDouble parse r (List.replicate n (Op.call m ps)) = .ok (r1, t) ∧
        r1.client.connected = true ∧
        r1.client.nextId = min (r.client.nextId + n) (2 ^ 53) ∧
        r1.promises = r.promises + n ∧
        r1.assignedIds =
          r.assignedIds ++ (List.range n).map (fun i => min (r.client.nextId + i) (2 ^ 53)) ∧
        (∀ p, settlesOf p t = []) := by
  induction n with
  | zero =>
    intro r hc hk
    refine ⟨r, [], rfl, hc, ?_, rfl, ?_, fun p => rfl⟩
    · rw [Nat.add_zero, Nat.min_eq_left hk]
    · simp
  | succ n ih =>
    intro r hc hk
    have hs := stepDouble_call_connected parse r m ps hc
    obtain ⟨r1, t, he, hc1, hn1, hp1, ha1, hq1⟩ := ih
      { client := { r.client with
          nextId := doubleSucc r.client.nextId
          pending := r.client.pending.set r.client.nextId
            { resolve := r.promises, reject := r.promises } },
        promises := r.promises + 1, sockets := r.sockets,
        sendCallbacks := r.sendCallbacks ++ [(r.client.nextId, r.promises)] }
      hc (show doubleSucc r.client.nextId ≤ 2 ^ 53 by rw [doubleSucc_eq_min _ hk]; omega)
    refine ⟨r1, _, execDouble_cons_ok parse r _ r1 _ _ _ t hs he, hc1, ?_, ?_, ?_, ?_⟩
    · rw [hn1]
      show min (doubleSucc r.client.nextId + n) (2 ^ 53) = _
      rw [doubleSucc_eq_min _ hk]
      omega
    · rw [hp1]
      show r.promises + 1 + n = _
      omega
    · rw [ha1]
      show List.map Prod.fst (r.sendCallbacks ++ [(r.client.nextId, r.promises)]) ++
        List.map (fun i => min (doubleSucc r.client.nextId + i) (2 ^ 53)) (List.range n) = _
      rw [List.range_succ_eq_map, List.map_cons, List.map_map, List.map_append]
      have hfun : (fun i => min (doubleSucc r.client.nextId + i) (2 ^ 53)) =
          ((fun i => min (r.client.nextId + i) (2 ^ 53)) ∘ Nat.succ) := by
        funext i
        show min (doubleSucc r.client.nextId + i) (2 ^ 53) =
          min (r.client.nextId + (i + 1)) (2 ^ 53)
        rw [doubleSucc_eq_min _ hk]
        omega
      rw [hfun]
      have h0 : min (r.client.nextId + 0) (2 ^ 53) = r.client.nextId := by omega
      rw [h0]
      unfold Runtime.assignedIds
      simp
    · intro p
      rw [settlesOf_append, hq1 p]
      rfl

theorem execDouble_deterministic (parse : String → Option JsVal) (r r1 r2 : Runtime)
    (ops : List Op) (t1 t2 : List Effect) (h1 : execDouble parse r ops = .ok (r1, t1))
    (h2 : execDouble parse r ops = .ok (r2, t2)) : r1 = r2 ∧ t1 = t2 := by
  rw [h1] at h2
  injection h2 with h
  injection h with ha hb
  exact ⟨ha, hb⟩

/-- After a run of `n + 1` calls the entry of the last call is in the
pending table. -/
theorem execDouble_calls_last (parse : String → Option JsVal) (m : String) (ps : JsVal)
    (n : Nat) (r : Runtime) (hc : r.client.connected = true) (hk : r.client.nextId ≤ 2 ^ 53) :
    ∃ r1 t, execDouble parse r (List.replicate (n + 1) (Op.call m ps)) = .ok (r1, t) ∧
      r1.client.connected = true ∧
      r1.client.nextId = min (r.client.nextId + (n + 1)) (2 ^ 53) ∧
      r1.promises = r.promises + (n + 1) ∧
      r1.assignedIds =
        r.assignedIds ++
          (List.range (n + 1)).map (fun i => min (r.client.nextId + i) (2 ^ 53)) ∧
      (∀ p, settlesOf p t = []) ∧
      (min (r.client.nextId + n) (2 ^ 53),
        ({ resolve := r.promises + n, reject := r.promises + n } : PendingCall)) ∈
          r1.client.pending := by
  obtain ⟨r1, t, he, hc1, hn1, hp1, ha1, hq1⟩ := execDouble_calls parse m ps (n + 1) r hc hk
  refine ⟨r1, t, he, hc1, hn1, hp1, ha1, hq1, ?_⟩
  obtain ⟨r2, t2, he2, hc2, hn2, hp2, _, _⟩ := execDouble_calls parse m ps n r hc hk
  have hs := stepDouble_call_connected parse r2 m ps hc2
  have hlast := execDouble_append_ok parse (List.replicate n (Op.call m ps)) [Op.call m ps]
    r r2 _ t2 _ he2 (execDouble_cons_ok parse r2 _ _ _ [] _ [] hs rfl)
  rw [← List.replicate_succ'] at hlast
  obtain ⟨hr, _⟩ := execDouble_deterministic parse r _ _ _ _ _ he hlast
  rw [hr, ← hn2, ← hp2]
  exact mem_set_self _ _ _

theorem getElem?_map_range (f : Nat → Nat) (n i : Nat) (h : i < n) :
    ((List.range n).map f)[i]? = some (f i) := by
  rw [List.getElem?_map, List.getElem?_range h]
  rfl

/-- C11 (as stated, refuted): with the id counter as the double it is, the
run "open, then `2^53` calls" reaches a state in which `nextId` is `2^53`,
the last call was given the id `2^53` and its PendingCall (promise
`2^53 - 1`) is in the table.  The next call is given the id `2^53` again:
the counter does not change, the entry of the earlier call is replaced by
the entry of the new one, and no callback of the earlier call has been
invoked. -/
theorem ids_reused_at_double_limit :
    ∃ ra ta rb tb,
      execDouble sampleParse (Runtime.init "ws://ledger" 3000)
        (Op.wsOpen :: List.replicate (2 ^ 53) (Op.call "m" .null)) = .ok (ra, ta) ∧
      ra.client.nextId = 2 ^ 53 ∧
      ra.assignedIds[2 ^ 53 - 1]? = some (2 ^ 53) ∧
      (2 ^ 53, ({ resolve := 2 ^ 53 - 1, reject := 2 ^ 53 - 1 } : PendingCall)) ∈
        ra.client.pending ∧
      stepDouble sampleParse ra (.call "m" .null) = .ok (rb, tb) ∧
      rb.assignedIds = ra.assignedIds ++ [2 ^ 53] ∧
      rb.client.nextId = 2 ^ 53 ∧
      (2 ^ 53, ({ resolve := 2 ^ 53 - 1, reject := 2 ^ 53 - 1 } : PendingCall)) ∉
        rb.client.pending ∧
      (2 ^ 53, ({ resolve := 2 ^ 53, reject := 2 ^ 53 } : PendingCall)) ∈ rb.client.pending ∧
      settlesOf (2 ^ 53 - 1) (ta ++ tb) = [] := by
  have hk : sampleConnected.client.nextId ≤ 2 ^ 53 := by
    show 1 ≤ 2 ^ 53
    omega
  obtain ⟨ra, t, he, hc, hn, hp, ha, hq, hlast⟩ :=
    execDouble_calls_last sampleParse "m" .null (2 ^ 53 - 1) sampleConnected rfl hk
  have hN : 2 ^ 53 - 1 + 1 = 2 ^ 53 := by omega
  rw [hN] at he ha
  have hn2 : ra.client.nextId = 2 ^ 53 := by
    rw [hn]
    show min (1 + (2 ^ 53 - 1 + 1)) (2 ^ 53) = 2 ^ 53
    omega
  have hp2 : ra.promises = 2 ^ 53 := by
    rw [hp]
    show 0 + (2 ^ 53 - 1 + 1) = 2 ^ 53
    omega
  have hlast2 : (2 ^ 53, ({ resolve := 2 ^ 53 - 1, reject := 2 ^ 53 - 1 } : PendingCall)) ∈
      ra.client.pending := by
    have e1 : min (sampleConnected.client.nextId + (2 ^ 53 - 1)) (2 ^ 53) = 2 ^ 53 := by
      show min (1 + (2 ^ 53 - 1)) (2 ^ 53) = 2 ^ 53
      omega
    have e2 : sampleConnected.promises + (2 ^ 53 - 1) = 2 ^ 53 - 1 := by
      show 0 + (2 ^ 53 - 1) = 2 ^ 53 - 1
      omega
    rw [e1, e2] at hlast
    exact hlast
  have hs := stepDouble_call_connected sampleParse ra "m" .null hc
  have h0 : stepDouble sampleParse (Runtime.init "ws://ledger" 3000) Op.wsOpen =
      .ok (sampleConnected, []) := rfl
  have h1 := execDouble_cons_ok sampleParse _ sampleConnected ra Op.wsOpen _ [] t h0 he
  refine ⟨ra, [] ++ t, _, _, h1, hn2, ?_, hlast2, hs, ?_, ?_, ?_, ?_, ?_⟩
  · have hA : sampleConnected.assignedIds = [] := rfl
    have hI : sampleConnected.client.nextId = 1 := rfl
    rw [ha, hA, hI, List.nil_append, getElem?_map_range _ _ _ (by omega)]
    congr 1
  · show List.map Prod.fst (ra.sendCallbacks ++ [(ra.client.nextId, ra.promises)]) = _
    rw [List.map_append, hn2]
    rfl
  · show doubleSucc ra.client.nextId = 2 ^ 53
    rw [hn2]
    unfold doubleSucc
    rw [if_neg (by omega)]
  · show (2 ^ 53, ({ resolve := 2 ^ 53 - 1, reject := 2 ^ 53 - 1 } : PendingCall)) ∉
      ra.client.pending.set ra.client.nextId { resolve := ra.promises, reject := ra.promises }
    intro hmem
    rw [hn2, hp2] at hmem
    rcases mem_set _ _ _ _ hmem with h | ⟨_, h⟩
    · injection h with _ h2
      injection h2 with h3 _
      omega
    · exact h rfl
  · show (2 ^ 53, ({ resolve := 2 ^ 53, reject := 2 ^ 53 } : PendingCall)) ∈
      ra.client.pending.set ra.client.nextId { resolve := ra.promises, reject := ra.promises }
    rw [hn2, hp2]
    exact mem_set_self _ _ _
  · rw [settlesOf_append, settlesOf_append, hq]
    rfl

/-- C11 (amended): with the id counter as the double it is, in every state
reached from construction by any sequence of calls, inbound messages, send
callbacks and connection events in which `nextId` is still below `2^53`,
the ids given to the admitted calls are 1, 2, 3, ... in the order of the
calls, so each is strictly greater than all given before it and smaller
than `nextId`; every key of the pending table is smaller than `nextId`; the
keys are pairwise distinct; and a call admitted in that state appends its
entry under the id `nextId`, replacing no entry, and raises `nextId` by 1. -/
theorem ids_unique_below_double_limit (parse : String → Option JsVal) (url : String)
    (d : Nat) (ops : List Op) (r : Runtime) (t : List Effect)
    (h : execDouble parse (Runtime.init url d) ops = .ok (r, t))
    (hb : r.client.nextId < 2 ^ 53) :
    r.assignedIds = List.range' 1 r.assignedIds.length ∧
    List.Pairwise (fun a b => a < b) r.assignedIds ∧
    (∀ id ∈ r.assignedIds, id < r.client.nextId) ∧
    (∀ e ∈ r.client.pending, e.1 < r.client.nextId) ∧
    (r.client.pending.map Prod.fst).Nodup ∧
    (r.client.connected = true → ∀ (m : String) (ps : JsVal), ∃ r1,
      stepDouble parse r (.call m ps) =
        .ok (r1, [Effect.send r.client.ws (requestPayload r.client.nextId m ps)]) ∧
      r1.client.pending =
        r.client.pending ++ [(r.client.nextId, { resolve := r.promises, reject := r.promises })] ∧
      r1.assignedIds = r.assignedIds ++ [r.client.nextId] ∧
      r1.client.nextId = r.client.nextId + 1) := by
  have hex := execDouble_eq_exec parse ops _ r t h hb
  obtain ⟨i1, i2, i3, i4⟩ := exec_ok_Ids parse ops _ r t hex (init_Ids url d)
  have hlen : r.assignedIds.length = r.sendCallbacks.length := by
    unfold Runtime.assignedIds
    exact List.length_map _ _
  refine ⟨by rw [hlen]; exact i1, ?_, ?_, fun e he => (i4 e he).2, i3, ?_⟩
  · rw [i1]
    exact List.pairwise_lt_range' 1 _
  · intro id hid
    rw [i1, List.mem_range'_1] at hid
    rw [i2]
    omega
  · intro hc m ps
    have hfresh : ∀ e ∈ r.client.pending, e.1 ≠ r.client.nextId := fun e he =>
      Nat.ne_of_lt (i4 e he).2
    rw [stepDouble_eq_step parse r _ hb]
    refine ⟨_, step_call_connected parse r m ps hc, set_of_fresh _ _ _ hfresh, ?_, rfl⟩
    unfold Runtime.assignedIds
    simp

theorem ids_unique_below_double_limit_witness :
    execDouble sampleParse (Runtime.init "ws://ledger" 3000) [Op.wsOpen, Op.call "a" .null] =
      .ok (samplePending, [Effect.send 0 (requestPayload 1 "a" .null)]) ∧
    samplePending.client.nextId < 2 ^ 53 ∧
    samplePending.assignedIds = List.range' 1 samplePending.assignedIds.length ∧
    List.Pairwise (fun a b => a < b) samplePending.assignedIds ∧
    (∀ id ∈ samplePending.assignedIds, id < 2) ∧
    (∀ e ∈ samplePending.client.pending, e.1 < 2) ∧
    (samplePending.client.pending.map Prod.fst).Nodup ∧
    (samplePending.client.connected = true → ∀ (m : String) (ps : JsVal), ∃ r1,
      stepDouble sampleParse samplePending (.call m ps) =
        .ok (r1, [Effect.send 0 (requestPayload 2 m ps)]) ∧
      r1.client.pending =
        [(1, { resolve := 0, reject := 0 })] ++ [(2, { resolve := 1, reject := 1 })] ∧
      r1.assignedIds = [1] ++ [2] ∧
      r1.client.nextId = 2 + 1) :=
  ⟨rfl, by decide,
    ids_unique_below_double_limit sampleParse "ws://ledger" 3000
      [Op.wsOpen, Op.call "a" .null] samplePending
      [Effect.send 0 (requestPayload 1 "a" .null)] rfl (by decide)⟩

end NeuroPC
